import Mathlib

/-!
# VeriDataAI: provider validation and cross-source reconciliation

A shallow embedding of `validateProvider` (src/Pages/upload.jsx) and of the
grouping / conflict detection / value resolution code of the consistency
checker (src/Pages/dashboard.jsx), with the properties stated about them.

JavaScript strings are modelled as lists of Unicode characters (`JsString`);
`String.prototype.length` is the number of UTF-16 code units (`jsLength`).
A property that is `undefined`, `null` or missing is `none`.
-/

namespace VeriData

/-! ## JavaScript strings -/

/-- A JavaScript string, as the list of its Unicode characters. -/
abbrev JsString := List Char

/-- The characters matched by `\s` in a regular expression and removed by
`String.prototype.trim`: WhiteSpace and LineTerminator of ECMAScript. -/
def isWhiteSpace (c : Char) : Bool :=
  let n := c.toNat
  n == 0x09 || n == 0x0A || n == 0x0B || n == 0x0C || n == 0x0D || n == 0x20 ||
  n == 0xA0 || n == 0x1680 || (0x2000 ≤ n && n ≤ 0x200A) || n == 0x2028 ||
  n == 0x2029 || n == 0x202F || n == 0x205F || n == 0x3000 || n == 0xFEFF

/-- The class `\d` (also `[0-9]`). -/
def isDigit (c : Char) : Bool := 48 ≤ c.toNat && c.toNat ≤ 57

/-- The class `[a-z]`. -/
def isLowerAZ (c : Char) : Bool := 97 ≤ c.toNat && c.toNat ≤ 122

/-- The class `[A-Z]`. -/
def isUpperAZ (c : Char) : Bool := 65 ≤ c.toNat && c.toNat ≤ 90

/-- The class `\w`, which is `[A-Za-z0-9_]`. -/
def isWord (c : Char) : Bool := isUpperAZ c || isLowerAZ c || isDigit c || c.toNat == 95

/-- The number of UTF-16 code units of one character. -/
def codeUnits (c : Char) : Nat := if c.toNat < 0x10000 then 1 else 2

/-- The property `s.length` of JavaScript: the number of UTF-16 code units. -/
def jsLength : JsString → Nat
  | [] => 0
  | c :: cs => codeUnits c + jsLength cs

/-- The method `s.trim()`: white space removed from both ends. -/
def trim (s : JsString) : JsString :=
  ((s.dropWhile isWhiteSpace).reverse.dropWhile isWhiteSpace).reverse

/-- The call `s.replace(/\s/g, '')`: every white-space character removed. -/
def removeWhiteSpace (s : JsString) : JsString := s.filter (fun c => !isWhiteSpace c)

/-- Truthiness of a string-valued property: defined and not the empty string. -/
def truthy : Option JsString → Bool
  | some (_ :: _) => true
  | _ => false

/-! ## Regular expressions

The patterns of the source are all anchored with `^` and `$` and carry no
flag, so `re.test(s)` holds exactly when the whole of `s` belongs to the
language of the pattern. Membership is decided with Brzozowski derivatives.
The patterns are matched per character; the only class of the source that
contains characters outside the Basic Multilingual Plane is `[^\s@]`, which
occurs under `+` only and contains both surrogate halves of every such
character, so matching per UTF-16 code unit gives the same answer. -/

/-- Regular expressions over character classes. -/
inductive Regex where
  | nothing : Regex
  | eps : Regex
  | cls : (Char → Bool) → Regex
  | seq : Regex → Regex → Regex
  | alt : Regex → Regex → Regex
  | star : Regex → Regex

namespace Regex

/-- Whether the expression matches the empty string. -/
def nullable : Regex → Bool
  | nothing => false
  | eps => true
  | cls _ => false
  | seq r s => nullable r && nullable s
  | alt r s => nullable r || nullable s
  | star _ => true

/-- The derivative of an expression by one character. -/
def deriv (c : Char) : Regex → Regex
  | nothing => nothing
  | eps => nothing
  | cls p => if p c then eps else nothing
  | seq r s => if nullable r then alt (seq (deriv c r) s) (deriv c s) else seq (deriv c r) s
  | alt r s => alt (deriv c r) (deriv c s)
  | star r => seq (deriv c r) (star r)

/-- Whether the whole string matches the expression: `/^r$/.test(s)`. -/
def test : Regex → JsString → Bool
  | r, [] => nullable r
  | r, c :: cs => test (deriv c r) cs

/-- The single character `c`. -/
def chr (c : Char) : Regex := cls (fun x => x == c)

/-- The pattern `r?`. -/
def opt (r : Regex) : Regex := alt eps r

/-- The pattern `r+`. -/
def plus (r : Regex) : Regex := seq r (star r)

/-- The pattern `r{n}`. -/
def rep : Nat → Regex → Regex
  | 0, _ => eps
  | n + 1, r => seq r (rep n r)

/-- The pattern `r{0,n}`. -/
def upTo : Nat → Regex → Regex
  | 0, _ => eps
  | n + 1, r => opt (seq r (upTo n r))

/-- The pattern `r{m,n}` with `n = m + k`. -/
def range (m k : Nat) (r : Regex) : Regex := seq (rep m r) (upTo k r)

/-- The literal text `s`. -/
def lit : JsString → Regex
  | [] => eps
  | c :: cs => seq (chr c) (lit cs)

end Regex

open Regex

/-- The class `[-\s\.]` of the phone pattern. -/
def phoneSeparator : Regex := cls (fun c => c == '-' || isWhiteSpace c || c == '.')

/-- The phone pattern `/^[\+]?[(]?[0-9]{3}[)]?[-\s\.]?[0-9]{3}[-\s\.]?[0-9]{4,6}$/` -/
def phoneRegex : Regex :=
  seq (opt (chr '+')) <| seq (opt (chr '(')) <| seq (rep 3 (cls isDigit)) <|
  seq (opt (chr ')')) <| seq (opt phoneSeparator) <| seq (rep 3 (cls isDigit)) <|
  seq (opt phoneSeparator) (range 4 2 (cls isDigit))

/-- The class `[^\s@]` of the email pattern. -/
def emailChar : Regex := cls (fun c => !(isWhiteSpace c || c == '@'))

/-- The email pattern `/^[^\s@]+@[^\s@]+\.[^\s@]+$/` -/
def emailRegex : Regex :=
  seq (plus emailChar) <| seq (chr '@') <| seq (plus emailChar) <| seq (chr '.') (plus emailChar)

/-- The URL pattern `/^(https?:\/\/)?([\da-z\.-]+)\.([a-z\.]{2,6})([\/\w \.-]*)*\/?$/` -/
def urlRegex : Regex :=
  seq (opt (seq (lit "http".toList) (seq (opt (chr 's')) (lit "://".toList)))) <|
  seq (plus (cls (fun c => isDigit c || isLowerAZ c || c == '.' || c == '-'))) <|
  seq (chr '.') <|
  seq (range 2 4 (cls (fun c => isLowerAZ c || c == '.'))) <|
  seq (star (star (cls (fun c => c == '/' || isWord c || c == ' ' || c == '.' || c == '-'))))
    (opt (chr '/'))

/-- The ZIP pattern `/^\d{5}(-\d{4})?$/` -/
def zipRegex : Regex :=
  seq (rep 5 (cls isDigit)) (opt (seq (chr '-') (rep 4 (cls isDigit))))

/-- The NPI pattern `/^\d{10}$/` -/
def npiRegex : Regex := rep 10 (cls isDigit)

/-! ## Records -/

/-- One provider record (a parsed row, or a stored `Provider` entity), with
the properties the validation and reconciliation code reads. -/
structure Provider where
  npi : Option JsString := none
  name : Option JsString := none
  specialty : Option JsString := none
  organization : Option JsString := none
  phone : Option JsString := none
  email : Option JsString := none
  website : Option JsString := none
  address : Option JsString := none
  city : Option JsString := none
  state : Option JsString := none
  zip : Option JsString := none
  license_number : Option JsString := none
  license_state : Option JsString := none
  source : Option JsString := none
  deriving DecidableEq, Repr

/-- The value stored under one key of `validation_results`: `true`, `false`
or `null`. -/
inductive FieldResult where
  | valid
  | invalid
  | notApplicable
  deriving DecidableEq, Repr

/-- The value `b` of a regular-expression test as a stored result. -/
def FieldResult.ofBool (b : Bool) : FieldResult := if b then .valid else .invalid

/-- The object `validationResults`; `none` is a key that was never written. -/
structure ValidationResults where
  phone : Option FieldResult := none
  email : Option FieldResult := none
  website : Option FieldResult := none
  address : Option FieldResult := none
  zip : Option FieldResult := none
  license : Option FieldResult := none
  npi : Option FieldResult := none
  deriving DecidableEq, Repr

/-- The status of a record. -/
inductive Status where
  | pending
  | validated
  | flagged
  | approved
  | rejected
  deriving DecidableEq, Repr

/-! ## validateProvider (src/Pages/upload.jsx) -/

/-- The object returned by `InvokeLLM`: its string-valued properties in key
order, and `confidence_adjustment` (`none` when the key is missing). Scores
are integers in the data model, and so is the adjustment. -/
structure AiResponse where
  properties : List (JsString × JsString) := []
  confidence_adjustment : Option Int := none
  deriving DecidableEq, Repr

/-- What the enrichment call did: it threw, it returned nothing (`null` or
`undefined`), or it returned a response. -/
inductive Enrichment where
  | failed
  | noResponse
  | response (r : AiResponse)
  deriving DecidableEq, Repr

/-- The locals `validationResults` and `score` of `validateProvider`. -/
structure ScoreState where
  validationResults : ValidationResults := {}
  score : Int := 100
  deriving DecidableEq, Repr

/-- Lines 86-94: phone validation. -/
def checkPhone (provider : Provider) (st : ScoreState) : ScoreState :=
  if truthy provider.phone then
    let ok := phoneRegex.test (removeWhiteSpace (provider.phone.getD []))
    { validationResults := { st.validationResults with phone := some (FieldResult.ofBool ok) },
      score := if !ok then st.score - 15 else st.score }
  else
    { validationResults := { st.validationResults with phone := some .invalid },
      score := st.score - 15 }

/-- Lines 96-103: email validation. -/
def checkEmail (provider : Provider) (st : ScoreState) : ScoreState :=
  if truthy provider.email then
    let ok := emailRegex.test (provider.email.getD [])
    { validationResults := { st.validationResults with email := some (FieldResult.ofBool ok) },
      score := if !ok then st.score - 10 else st.score }
  else
    { st with validationResults := { st.validationResults with email := some .notApplicable } }

/-- Lines 105-112: website validation. -/
def checkWebsite (provider : Provider) (st : ScoreState) : ScoreState :=
  if truthy provider.website then
    let ok := urlRegex.test (provider.website.getD [])
    { validationResults := { st.validationResults with website := some (FieldResult.ofBool ok) },
      score := if !ok then st.score - 10 else st.score }
  else
    { st with validationResults := { st.validationResults with website := some .notApplicable } }

/-- Lines 114-116: address completeness. -/
def checkAddress (provider : Provider) (st : ScoreState) : ScoreState :=
  let ok := truthy provider.address && truthy provider.city && truthy provider.state &&
    truthy provider.zip
  { validationResults := { st.validationResults with address := some (FieldResult.ofBool ok) },
    score := if !ok then st.score - 20 else st.score }

/-- Lines 118-123: ZIP code validation. -/
def checkZip (provider : Provider) (st : ScoreState) : ScoreState :=
  if truthy provider.zip then
    let ok := zipRegex.test (provider.zip.getD [])
    { validationResults := { st.validationResults with zip := some (FieldResult.ofBool ok) },
      score := if !ok then st.score - 10 else st.score }
  else st

/-- Lines 125-131: license validation. -/
def checkLicense (provider : Provider) (st : ScoreState) : ScoreState :=
  if truthy provider.license_number then
    let ok := decide (jsLength (provider.license_number.getD []) ≥ 5)
    { validationResults := { st.validationResults with license := some (FieldResult.ofBool ok) },
      score := if !ok then st.score - 15 else st.score }
  else
    { st with validationResults := { st.validationResults with license := some .notApplicable } }

/-- Lines 133-137: NPI validation. -/
def checkNpi (provider : Provider) (st : ScoreState) : ScoreState :=
  if truthy provider.npi then
    let ok := npiRegex.test (provider.npi.getD [])
    { validationResults := { st.validationResults with npi := some (FieldResult.ofBool ok) },
      score := if !ok then st.score - 10 else st.score }
  else st

/-- Lines 82-137: the field rules, in the order of the source. -/
def fieldChecks (provider : Provider) : ScoreState :=
  checkNpi provider <| checkLicense provider <| checkZip provider <| checkAddress provider <|
  checkWebsite provider <| checkEmail provider <| checkPhone provider {}

/-- The key `__proto__`, an accessor of `Object.prototype` whose setter
ignores a value that is not an object. -/
def protoKey : JsString := "__proto__".toList

/-- The assignment `obj[key] = value` of a string on an object literal kept as
a list of entries; for the key `__proto__` nothing is stored. -/
def setProperty (obj : List (JsString × JsString)) (key value : JsString) :
    List (JsString × JsString) :=
  if key = protoKey then obj
  else if obj.any (fun e => e.1 == key) then
    obj.map (fun e => if e.1 == key then (key, value) else e)
  else obj ++ [(key, value)]

/-- The text `suggested_`. -/
def suggestedTag : JsString := "suggested_".toList

/-- Lines 167-171: the suggestions copied from the response. -/
def collectSuggestions (r : AiResponse) : List (JsString × JsString) :=
  r.properties.foldl
    (fun acc e =>
      if suggestedTag.isPrefixOf e.1 && truthy (some e.2) then
        setProperty acc (e.1.drop suggestedTag.length) e.2
      else acc)
    []

/-- Lines 172-174: the score after `confidence_adjustment`; an adjustment
that is missing or `0` is falsy and adds nothing. -/
def adjustScore (score : Int) (r : AiResponse) : Int :=
  match r.confidence_adjustment with
  | some a => if a ≠ 0 then score + a else score
  | none => score

/-- The object returned by `validateProvider`. -/
structure ValidationOutcome where
  validation_results : ValidationResults
  confidence_score : Int
  ai_suggestions : List (JsString × JsString)
  status : Status
  deriving DecidableEq, Repr

/-- The function `validateProvider`, given what the enrichment call did. -/
def validateProvider (provider : Provider) (ai : Enrichment) : ValidationOutcome :=
  let st := fieldChecks provider
  let suggestions : List (JsString × JsString) :=
    match ai with
    | .response r => collectSuggestions r
    | _ => []
  let score : Int :=
    match ai with
    | .response r => adjustScore st.score r
    | _ => st.score
  { validation_results := st.validationResults,
    confidence_score := max 0 (min 100 score),
    ai_suggestions := suggestions,
    status := if score ≥ 70 then .validated else .flagged }


/-! ## The rule table of the specification -/

/-- Exactly `n` characters, all of them digits. -/
def isDigits (n : Nat) (s : JsString) : Bool := s.length == n && s.all isDigit

/-- Five digits, or five digits, a hyphen and four digits. -/
def isZipCode (s : JsString) : Bool :=
  isDigits 5 s || (isDigits 5 (s.take 5) && (s.drop 5).take 1 == ['-'] && isDigits 4 (s.drop 6))

/-- The phone rule: the phone pattern on the value without white space. -/
def phoneValid (p : Provider) : Bool :=
  truthy p.phone && phoneRegex.test (removeWhiteSpace (p.phone.getD []))

/-- The address rule: address, city, state and zip are all non-empty. -/
def addressComplete (p : Provider) : Bool :=
  truthy p.address && truthy p.city && truthy p.state && truthy p.zip

/-- The total deduction `D` of the rule table. -/
def totalDeduction (p : Provider) : Int :=
  (if phoneValid p then 0 else 15) +
  (if truthy p.email && !emailRegex.test (p.email.getD []) then 10 else 0) +
  (if truthy p.website && !urlRegex.test (p.website.getD []) then 10 else 0) +
  (if addressComplete p then 0 else 20) +
  (if truthy p.zip && !isZipCode (p.zip.getD []) then 10 else 0) +
  (if truthy p.license_number && decide (jsLength (p.license_number.getD []) < 5) then 15 else 0) +
  (if truthy p.npi && !isDigits 10 (p.npi.getD []) then 10 else 0)

/-- The enrichment adjustment `a`: the `confidence_adjustment` of the
response, and `0` when enrichment is unavailable. -/
def enrichmentAdjustment : Enrichment → Int
  | .response r => r.confidence_adjustment.getD 0
  | _ => 0

/-- The value `x` clamped to the interval from `lo` to `hi`. -/
def clamp (x lo hi : Int) : Int := if x < lo then lo else if hi < x then hi else x

/-- Scenario A of the specification. -/
def scenarioA : Provider :=
  { phone := some "555-123-4567".toList, address := some "12 Oak Street".toList,
    city := some "Springfield".toList, state := some "IL".toList, zip := some "12345".toList }

/-- Scenario B of the specification. -/
def scenarioB : Provider := { phone := some "123".toList, email := some "bad".toList }


/-- The tri-state map of the rule table. -/
def ruleTable (p : Provider) : ValidationResults :=
  { phone := some (FieldResult.ofBool (phoneValid p)),
    email := if truthy p.email then some (FieldResult.ofBool (emailRegex.test (p.email.getD [])))
      else some .notApplicable,
    website := if truthy p.website then
        some (FieldResult.ofBool (urlRegex.test (p.website.getD [])))
      else some .notApplicable,
    address := some (FieldResult.ofBool (addressComplete p)),
    zip := if truthy p.zip then some (FieldResult.ofBool (isZipCode (p.zip.getD []))) else none,
    license := if truthy p.license_number then
        some (FieldResult.ofBool (decide (5 ≤ jsLength (p.license_number.getD []))))
      else some .notApplicable,
    npi := if truthy p.npi then some (FieldResult.ofBool (isDigits 10 (p.npi.getD []))) else none }


/-! ## Objects and arrays of JavaScript -/

/-- The expression `a || b` on string-valued operands. -/
def jsOr (a b : Option JsString) : Option JsString := if truthy a then a else b

/-- The elements of `new Set(xs)`, in insertion order. -/
def jsSet {α : Type} [DecidableEq α] : List α → List α
  | [] => []
  | x :: xs => x :: (jsSet xs).filter (fun y => decide (y ≠ x))

/-- Insertion of `a` before the first element it may precede. -/
def insertSorted {α : Type} (le : α → α → Bool) (a : α) : List α → List α
  | [] => [a]
  | b :: bs => if le a b then a :: b :: bs else b :: insertSorted le a bs

/-- A stable sort: `xs.sort(cmp)` with `le a b` standing for `cmp(a, b) <= 0`. -/
def stableSort {α : Type} (le : α → α → Bool) : List α → List α
  | [] => []
  | a :: as => insertSorted le a (stableSort le as)

/-- The number written by a string of decimal digits. -/
def digitsValue (s : JsString) : Nat := s.foldl (fun n c => 10 * n + (c.toNat - 48)) 0

/-- The array index a property key stands for: a canonical decimal numeral
below `2^32 - 1`. Such keys are enumerated first, in ascending order. -/
def arrayIndex (key : JsString) : Option Nat :=
  match key with
  | [] => none
  | c :: cs =>
    if key.all isDigit && (c != '0' || cs.isEmpty) && decide (digitsValue key < 4294967295) then
      some (digitsValue key)
    else none

/-- The call `Object.entries(obj)` for an object given by its own properties in
creation order: array-index keys in ascending order, then the other keys in
creation order. -/
def objectEntries {α : Type} (obj : List (JsString × α)) : List (JsString × α) :=
  stableSort (fun a b => decide ((arrayIndex a.1).getD 0 ≤ (arrayIndex b.1).getD 0))
      (obj.filter (fun e => (arrayIndex e.1).isSome)) ++
    obj.filter (fun e => (arrayIndex e.1).isNone)

/-- The data properties an object literal inherits from `Object.prototype`. -/
def inheritedKeys : List JsString :=
  ["constructor".toList, "__defineGetter__".toList, "__defineSetter__".toList,
    "hasOwnProperty".toList, "__lookupGetter__".toList, "__lookupSetter__".toList,
    "isPrototypeOf".toList, "propertyIsEnumerable".toList, "toString".toList,
    "valueOf".toList, "toLocaleString".toList]

/-! ## Identity key (src/Pages/dashboard.jsx, line 55) -/

/-- The call `name.replace(/[^a-z]/g, '')`: every character outside `a`-`z` removed. -/
def keepLowerAZ (s : JsString) : JsString := s.filter isLowerAZ

/-- The grouping key
`provider.npi?.trim() || provider.name?.toLowerCase().replace(/[^a-z]/g, '')`.
`toLowerCase` stands for `String.prototype.toLowerCase`. -/
def identityKey (toLowerCase : JsString → JsString) (provider : Provider) : Option JsString :=
  jsOr (provider.npi.map trim) (provider.name.map (fun n => keepLowerAZ (toLowerCase n)))

/-- The fallback key in the words of the specification: the lowercased name
with every non-alphabetic character removed, for a notion `isAlphabetic` of
alphabetic character. -/
def specNameKey (isAlphabetic : Char → Bool) (lowered : JsString) : JsString :=
  lowered.filter isAlphabetic

/-- The restriction of `toLowerCase` to strings of ASCII characters. -/
def toLowerCaseAscii (s : JsString) : JsString :=
  s.map (fun c => if isUpperAZ c then Char.ofNat (c.toNat + 32) else c)

/-! ## Value resolution (src/Pages/dashboard.jsx, lines 76-100) -/

/-- The property names of a record. -/
inductive FieldName where
  | npi | name | specialty | organization | phone | email | website
  | address | city | state | zip | license_number | license_state | source
  deriving DecidableEq, Repr

/-- The property access `provider[field]`. -/
def Provider.get (p : Provider) : FieldName → Option JsString
  | .npi => p.npi
  | .name => p.name
  | .specialty => p.specialty
  | .organization => p.organization
  | .phone => p.phone
  | .email => p.email
  | .website => p.website
  | .address => p.address
  | .city => p.city
  | .state => p.state
  | .zip => p.zip
  | .license_number => p.license_number
  | .license_state => p.license_state
  | .source => p.source

/-- The source label `web`. -/
def web : JsString := "web".toList

/-- The source label `mobile`. -/
def mobile : JsString := "mobile".toList

/-- The source label `print`. -/
def print : JsString := "print".toList

/-- The expression `providers.find(p => p.source === source)?.[field]?.trim()`. -/
def sourceValue (source : JsString) (field : FieldName) (providers : List Provider) :
    Option JsString :=
  ((providers.find? (fun p => decide (p.source = some source))).bind
    (fun p => p.get field)).map trim

/-- The array `[webValue, mobileValue, printValue].filter(Boolean)`. -/
def sourceValues (field : FieldName) (providers : List Provider) : List JsString :=
  [sourceValue web field providers, sourceValue mobile field providers,
    sourceValue print field providers].filterMap (fun v => if truthy v then v else none)

/-- One step of `values.forEach(v => valueCounts[v] = (valueCounts[v] || 0) + 1)`.
A count is `some n` for the number `n` and `none` for a string that is not a
number: reading a key inherited from `Object.prototype` gives a function, and
the sum of a function or a string and `1` is a string. The key `__proto__`
is never written. -/
def tallyStep (valueCounts : List (JsString × Option Nat)) (v : JsString) :
    List (JsString × Option Nat) :=
  if valueCounts.any (fun e => e.1 == v) then
    valueCounts.map (fun e => if e.1 == v then (v, e.2.map (fun n => n + 1)) else e)
  else if v = protoKey then valueCounts
  else if v ∈ inheritedKeys then valueCounts ++ [(v, none)]
  else valueCounts ++ [(v, some 1)]

/-- The test `count >= 2` on a value of `valueCounts`. -/
def atLeastTwo : Option Nat → Bool
  | some n => decide (2 ≤ n)
  | none => false

/-- The call `values.sort((a, b) => (b?.length || 0) - (a?.length || 0))`. -/
def sortByLength (values : List JsString) : List JsString :=
  stableSort (fun a b => decide (jsLength b ≤ jsLength a)) values

/-- The function `resolveFieldValue`; `none` is `null`. -/
def resolveFieldValue (field : FieldName) (providers : List Provider) : Option JsString :=
  let webValue := sourceValue web field providers
  let values := sourceValues field providers
  if values.length = 0 then none
  else if (jsSet values).length = 1 then values.head?
  else if truthy webValue && decide (5 < jsLength (webValue.getD [])) then webValue
  else
    let valueCounts := values.foldl tallyStep []
    match (objectEntries valueCounts).find? (fun e => atLeastTwo e.2) with
    | some majority => some majority.1
    | none => (sortByLength values).head?

/-! ## Conflict detection (src/Pages/dashboard.jsx, lines 108-167) -/

/-- The array `fieldsToCompare`. -/
def fieldsToCompare : List FieldName :=
  [.phone, .email, .address, .city, .state, .zip, .website]

/-- The text `(empty)`. -/
def emptyMarker : JsString := "(empty)".toList

/-- An entry `{ source, value }`. -/
structure SourceValue where
  source : Option JsString
  value : Option JsString
  deriving DecidableEq, Repr

/-- An entry of `inconsistentFields`. -/
structure InconsistentField where
  field : FieldName
  values : List SourceValue
  correctedValue : Option JsString
  deriving DecidableEq, Repr

/-- The array `values` of one comparison field: the members' trimmed values
that are not empty, with their sources. -/
def fieldValues (field : FieldName) (providers : List Provider) : List SourceValue :=
  (providers.map (fun p => ({ source := p.source, value := (p.get field).map trim } : SourceValue))).filter
    (fun v => truthy v.value)

/-- The set `uniqueValues` of one comparison field. -/
def uniqueValues (toLowerCase : JsString → JsString) (field : FieldName)
    (providers : List Provider) : List (Option JsString) :=
  jsSet ((fieldValues field providers).map (fun v => v.value.map toLowerCase))

/-- What one pass of the loop over `fieldsToCompare` does: the entry pushed
on `inconsistentFields`, if any, and the value of `correctedFields[field]`. -/
structure FieldDecision where
  field : FieldName
  pushed : Option InconsistentField
  corrected : Option JsString
  deriving DecidableEq, Repr

/-- The body of the loop over `fieldsToCompare`. -/
def compareField (toLowerCase : JsString → JsString) (baseProvider : Provider)
    (providers : List Provider) (field : FieldName) : FieldDecision :=
  if 1 < (uniqueValues toLowerCase field providers).length then
    let resolvedValue := resolveFieldValue field providers
    { field := field,
      pushed := some
        { field := field,
          values := providers.map (fun p =>
            { source := p.source, value := jsOr (p.get field) (some emptyMarker) }),
          correctedValue := resolvedValue },
      corrected := resolvedValue }
  else
    { field := field,
      pushed := none,
      corrected := jsOr ((fieldValues field providers).head?.bind (fun v => v.value))
        (baseProvider.get field) }

/-- The object `cleanedProvider`. -/
structure CleanedProvider extends Provider where
  corrected_fields : List FieldName := []
  deriving DecidableEq, Repr

/-- What `runConsistencyCheck` computes for one group. -/
structure GroupResult where
  inconsistentFields : List InconsistentField
  cleanedProvider : CleanedProvider
  deriving DecidableEq, Repr

/-- The body of the loop over `multiSourceProviders` for a group whose first
member is `baseProvider` and whose other members are `others`. -/
def checkGroup (toLowerCase : JsString → JsString) (baseProvider : Provider)
    (others : List Provider) : GroupResult :=
  let providers := baseProvider :: others
  let decisions := fieldsToCompare.map (compareField toLowerCase baseProvider providers)
  let inconsistentFields := decisions.filterMap (fun d => d.pushed)
  let correctedFields : FieldName → Option JsString := fun f =>
    (decisions.find? (fun d => decide (d.field = f))).bind (fun d => d.corrected)
  { inconsistentFields := inconsistentFields,
    cleanedProvider :=
      { npi := baseProvider.npi,
        name := baseProvider.name,
        specialty := baseProvider.specialty,
        organization := baseProvider.organization,
        phone := jsOr (correctedFields .phone) baseProvider.phone,
        email := jsOr (correctedFields .email) baseProvider.email,
        website := jsOr (correctedFields .website) baseProvider.website,
        address := jsOr (correctedFields .address) baseProvider.address,
        city := jsOr (correctedFields .city) baseProvider.city,
        state := jsOr (correctedFields .state) baseProvider.state,
        zip := jsOr (correctedFields .zip) baseProvider.zip,
        license_number := baseProvider.license_number,
        license_state := baseProvider.license_state,
        corrected_fields := (decisions.map (fun d => d.field)).filter (fun f =>
          decide (correctedFields f ≠ baseProvider.get f) ||
            inconsistentFields.any (fun inc => decide (inc.field = f))) } }

/-- The web record of scenarios C and D, under the identifier `1234567890`. -/
def scenarioWeb : Provider :=
  { npi := some "1234567890".toList, source := some web,
    phone := some "555-111-2222".toList, email := some "a@longmail.com".toList }

/-- The mobile record of scenarios C and D. -/
def scenarioMobile : Provider :=
  { npi := some "1234567890".toList, source := some mobile,
    phone := some "555-999-9999".toList, email := some "b@y.co".toList }

/-- The print record of scenarios C and D. -/
def scenarioPrint : Provider :=
  { npi := some "1234567890".toList, source := some print,
    phone := some "555-111-2222".toList }

/-- The trimmed values of the group's members for a field that are not
empty, in member order. -/
def memberValues (field : FieldName) (providers : List Provider) : List JsString :=
  providers.filterMap (fun p =>
    match p.get field with
    | some v => if trim v = [] then none else some (trim v)
    | none => none)

/-- The position of the first occurrence of `v` in a list of values (its
length when `v` does not occur). -/
def firstIndex (v : JsString) : List JsString → Nat
  | [] => 0
  | x :: xs => if x = v then 0 else firstIndex v xs + 1

/-- A key that `Object.prototype` does not define. -/
def ownKey (k : JsString) : Prop := k ≠ protoKey ∧ k ∉ inheritedKeys

/-- Whether a key is an own key can be computed. -/
instance ownKeyDecidable (k : JsString) : Decidable (ownKey k) := by
  unfold ownKey
  infer_instance

/-- A web record of a provider. -/
def caseWeb : Provider :=
  { npi := some "1234567890".toList, source := some web, city := some "Springfield".toList }

/-- A mobile record of the same provider, the city in capital letters. -/
def caseMobile : Provider :=
  { npi := some "1234567890".toList, source := some mobile, city := some "SPRINGFIELD".toList }

/-- A web record without a phone number. -/
def webNoPhone : Provider := { npi := some "1234567890".toList, source := some web }

/-- A second web record of the same provider, with a phone number. -/
def webPhone : Provider :=
  { npi := some "1234567890".toList, source := some web, phone := some "555-111-2222".toList }

/-- A mobile record of the same provider with another phone number. -/
def mobilePhone : Provider :=
  { npi := some "1234567890".toList, source := some mobile,
    phone := some "555-999-9999".toList }

/-- A second mobile record, with a short phone number. -/
def mobileShort : Provider :=
  { npi := some "1234567890".toList, source := some mobile, phone := some "555-1111".toList }

/-- A print record with the same short phone number. -/
def printShort : Provider :=
  { npi := some "1234567890".toList, source := some print, phone := some "555-1111".toList }

/-- A mobile record with a three-digit phone number. -/
def mobileTiny : Provider :=
  { npi := some "1234567890".toList, source := some mobile, phone := some "555".toList }

/-- A print record with a five-character phone number. -/
def printTiny : Provider :=
  { npi := some "1234567890".toList, source := some print, phone := some "555-1".toList }

/-- A web record with a four-digit zip. -/
def webZip : Provider :=
  { npi := some "1234567890".toList, source := some web, zip := some "1234".toList }

/-- A mobile record with a five-digit zip. -/
def mobileZip : Provider :=
  { npi := some "1234567890".toList, source := some mobile, zip := some "98765".toList }

/-- A print record with the same five-digit zip. -/
def printZip : Provider :=
  { npi := some "1234567890".toList, source := some print, zip := some "98765".toList }

/-- A print record with a nine-digit zip. -/
def printZipLong : Provider :=
  { npi := some "1234567890".toList, source := some print, zip := some "98765-4321".toList }

/-! ## Grouping (src/Pages/dashboard.jsx, lines 52-74) -/

/-- One call of the callback of `providers.reduce(..., {})`, on the own
properties of `acc` in creation order; `none` is a thrown `TypeError`.
When `key` is not an own property but a name defined by `Object.prototype`,
`acc[key]` is truthy, no array is stored, and `acc[key].push` is not a
function. -/
def groupStep (toLowerCase : JsString → JsString) (acc : List (JsString × List Provider))
    (provider : Provider) : Option (List (JsString × List Provider)) :=
  let key := identityKey toLowerCase provider
  if !truthy key then some acc
  else
    let k := key.getD []
    if acc.any (fun e => e.1 == k) then
      some (acc.map (fun e => if e.1 == k then (e.1, e.2 ++ [provider]) else e))
    else if k = protoKey ∨ k ∈ inheritedKeys then none
    else some (acc ++ [(k, [provider])])

/-- The reduce over the remaining records, from the accumulator `acc`. -/
def groupFrom (toLowerCase : JsString → JsString) :
    List (JsString × List Provider) → List Provider → Option (List (JsString × List Provider))
  | acc, [] => some acc
  | acc, provider :: rest =>
    match groupStep toLowerCase acc provider with
    | none => none
    | some acc' => groupFrom toLowerCase acc' rest

/-- The object `groupedProviders`, by its own properties in creation order;
`none` when the reduce throws. -/
def groupedProviders (toLowerCase : JsString → JsString) (providers : List Provider) :
    Option (List (JsString × List Provider)) :=
  groupFrom toLowerCase [] providers

/-- The array `[...new Set(group.map(p => p.source).filter(Boolean))]`. -/
def groupSources (group : List Provider) : List JsString :=
  jsSet (group.filterMap (fun p => if truthy p.source then p.source else none))

/-- An element of `multiSourceProviders`. -/
structure MultiSourceProvider where
  key : JsString
  providers : List Provider
  sources : List JsString
  name : Option JsString
  npi : Option JsString
  deriving DecidableEq, Repr

/-- The array `multiSourceProviders` built from the entries of a grouping. -/
def multiSourceOf (groups : List (JsString × List Provider)) : List MultiSourceProvider :=
  ((objectEntries groups).filter (fun e => decide (1 < (groupSources e.2).length))).map
    (fun e =>
      { key := e.1,
        providers := e.2,
        sources := groupSources e.2,
        name := e.2.head?.bind (fun p => p.name),
        npi := e.2.head?.bind (fun p => p.npi) })

/-- The array `multiSourceProviders`; `none` when the grouping throws. -/
def multiSourceProviders (toLowerCase : JsString → JsString) (providers : List Provider) :
    Option (List MultiSourceProvider) :=
  (groupedProviders toLowerCase providers).map multiSourceOf

/-! ## runConsistencyCheck (src/Pages/dashboard.jsx, lines 102-178) -/

/-- An element of `inconsistencies`. -/
structure Inconsistency where
  providerName : Option JsString
  npi : Option JsString
  sources : List (Option JsString)
  inconsistentFields : List InconsistentField
  cleanedProvider : CleanedProvider
  deriving DecidableEq, Repr

/-- The locals `inconsistencies` and `cleanedProviders`. -/
structure CheckState where
  inconsistencies : List Inconsistency := []
  cleanedProviders : List CleanedProvider := []
  deriving DecidableEq, Repr

/-- The loop over `multiSourceProviders`; `none` when `providers[0]` is
missing and reading it throws. -/
def checkLoop (toLowerCase : JsString → JsString) :
    List MultiSourceProvider → CheckState → Option CheckState
  | [], st => some st
  | m :: rest, st =>
    match m.providers with
    | [] => none
    | baseProvider :: others =>
      let r := checkGroup toLowerCase baseProvider others
      checkLoop toLowerCase rest
        { inconsistencies :=
            if 0 < r.inconsistentFields.length then
              st.inconsistencies ++
                [{ providerName := baseProvider.name,
                   npi := baseProvider.npi,
                   sources := (baseProvider :: others).map (fun p => p.source),
                   inconsistentFields := r.inconsistentFields,
                   cleanedProvider := r.cleanedProvider }]
            else st.inconsistencies,
          cleanedProviders := st.cleanedProviders ++ [r.cleanedProvider] }

/-- The object given to `setCheckResults`. -/
structure CheckResults where
  totalChecked : Nat
  inconsistentCount : Nat
  consistentCount : Int
  inconsistencies : List Inconsistency
  cleanedProviders : List CleanedProvider
  deriving DecidableEq, Repr

/-- The function `runConsistencyCheck` on the loaded records; `none` when it
throws. -/
def runConsistencyCheck (toLowerCase : JsString → JsString) (providers : List Provider) :
    Option CheckResults :=
  match multiSourceProviders toLowerCase providers with
  | none => none
  | some ms =>
    match checkLoop toLowerCase ms {} with
    | none => none
    | some st =>
      some
        { totalChecked := ms.length,
          inconsistentCount := st.inconsistencies.length,
          consistentCount := (ms.length : Int) - (st.inconsistencies.length : Int),
          inconsistencies := st.inconsistencies,
          cleanedProviders := st.cleanedProviders }

/-- The cleaned record of a group, when the group has a first member. -/
def cleanedOf (toLowerCase : JsString → JsString) : List Provider → Option CleanedProvider
  | [] => none
  | baseProvider :: others => some (checkGroup toLowerCase baseProvider others).cleanedProvider

/-- A record without identifier whose name is `Constructor`. -/
def constructorRecord : Provider :=
  { npi := some [], name := some "Constructor".toList, source := some web,
    phone := some "555-111-2222".toList }

/-- A web record without identifier, named `Ann Lee`. -/
def annWeb : Provider := { name := some "Ann Lee".toList, source := some web }

/-- A mobile record without identifier, named `ANN LEE`. -/
def annMobile : Provider := { name := some "ANN LEE".toList, source := some mobile }

/-- Whether the members of a group carry at least two distinct source
labels. -/
def spansTwoSources (group : List Provider) : Bool :=
  group.any (fun p => group.any (fun q =>
    truthy p.source && truthy q.source && decide (p.source ≠ q.source)))

/-- The groups of a grouping whose members carry at least two distinct source
labels, in the order of `Object.entries`. -/
def eligibleGroups (groups : List (JsString × List Provider)) : List (JsString × List Provider) :=
  (objectEntries groups).filter (fun e => spansTwoSources e.2)

/-- The name of a record as the key derivation normalizes it. -/
def normalizedName (toLowerCase : JsString → JsString) (p : Provider) : Option JsString :=
  p.name.map (fun n => keepLowerAZ (toLowerCase n))

/-- The keys of the groups of a list of records, in order of first
occurrence. -/
def groupKeys (toLowerCase : JsString → JsString) (providers : List Provider) : List JsString :=
  jsSet (providers.filterMap (fun p =>
    if truthy (identityKey toLowerCase p) then identityKey toLowerCase p else none))

/-- The grouping the specification describes: one group per non-empty key, in
order of first occurrence, holding the records of that key in input order. -/
def keyGroups (toLowerCase : JsString → JsString) (providers : List Provider) :
    List (JsString × List Provider) :=
  (groupKeys toLowerCase providers).map (fun k =>
    (k, providers.filter (fun p => decide (identityKey toLowerCase p = some k))))

/-- The groups built so far are not empty and hold records of their key. -/
def GroupsOk (toLowerCase : JsString → JsString) (acc : List (JsString × List Provider)) : Prop :=
  ∀ e ∈ acc, e.2 ≠ [] ∧ ∀ p ∈ e.2, identityKey toLowerCase p = some e.1

/-- A mobile record without identifier, named `Bo Chen`. -/
def boMobile : Provider := { name := some "Bo Chen".toList, source := some mobile }

/-- A web record whose phone is the empty string. -/
def webBlank : Provider :=
  { npi := some "1234567890".toList, source := some web, phone := some [] }

/-- A mobile record whose phone is the empty string. -/
def mobileBlank : Provider :=
  { npi := some "1234567890".toList, source := some mobile, phone := some [] }

/-- The value shown for a member in a recorded decision: its own value, or the
placeholder when it has none. -/
def shownValue (p : Provider) (field : FieldName) : Option JsString :=
  match p.get field with
  | some (c :: cs) => some (c :: cs)
  | _ => some emptyMarker

/-! ## The batch run (src/Pages/upload.jsx, lines 188-291) -/

/-- A parsed row: the own properties of the object `row`, header to value. -/
abbrev Row := List (JsString × JsString)

/-- The property access `row[column]`. -/
def rowGet (row : Row) (column : String) : Option JsString :=
  (row.find? (fun e => e.1 == column.toList)).map (fun e => e.2)

/-- The row as `validateProvider` reads it: the properties `npi`, `name`,
`phone`, `email`, `website`, `address`, `city`, `state`, `zip` and
`license_number`. -/
def rowView (row : Row) : Provider :=
  { npi := rowGet row "npi",
    name := rowGet row "name",
    phone := rowGet row "phone",
    email := rowGet row "email",
    website := rowGet row "website",
    address := rowGet row "address",
    city := rowGet row "city",
    state := rowGet row "state",
    zip := rowGet row "zip",
    license_number := rowGet row "license_number" }

/-- The field values given to `Provider.create` (lines 229-241 and 247). -/
def createFields (row : Row) (source : JsString) : Provider :=
  { npi := jsOr (jsOr (rowGet row "npi") (rowGet row "NPI")) (some []),
    name := jsOr (jsOr (jsOr (rowGet row "name") (rowGet row "Name")) (rowGet row "provider_name"))
      (some []),
    specialty := jsOr (jsOr (rowGet row "specialty") (rowGet row "Specialty")) (some []),
    organization := jsOr (jsOr (rowGet row "organization") (rowGet row "Organization")) (some []),
    phone := jsOr (jsOr (jsOr (rowGet row "phone") (rowGet row "Phone")) (rowGet row "telephone"))
      (some []),
    email := jsOr (jsOr (rowGet row "email") (rowGet row "Email")) (some []),
    website := jsOr (jsOr (rowGet row "website") (rowGet row "Website")) (some []),
    address := jsOr (jsOr (jsOr (rowGet row "address") (rowGet row "Address")) (rowGet row "street"))
      (some []),
    city := jsOr (jsOr (rowGet row "city") (rowGet row "City")) (some []),
    state := jsOr (jsOr (rowGet row "state") (rowGet row "State")) (some []),
    zip := jsOr (jsOr (jsOr (rowGet row "zip") (rowGet row "ZIP")) (rowGet row "zipcode")) (some []),
    license_number := jsOr (jsOr (rowGet row "license_number") (rowGet row "license")) (some []),
    license_state := jsOr (jsOr (rowGet row "license_state") (rowGet row "state")) (some []),
    source := some source }

/-- A stored `Provider` entity. The storage service assigns `id`; the time
stamp `last_validated` is left out. -/
structure StoredProvider where
  id : Nat
  fields : Provider
  status : Status
  confidence_score : Int
  validation_results : ValidationResults
  ai_suggestions : List (JsString × JsString)
  original_data : Row
  batch_id : Nat
  reviewed_by : Option JsString := none
  review_notes : Option JsString := none
  deriving DecidableEq, Repr

/-- The storage, the counters `validatedCount` and `flaggedCount`. -/
structure UploadState where
  storage : List StoredProvider
  validatedCount : Nat := 0
  flaggedCount : Nat := 0
  deriving DecidableEq, Repr

/-- The record `Provider.create` stores for a row (lines 228-250), under the
`id` the storage gives it. -/
def createdRecord (id : Nat) (row : Row) (source : JsString) (batchId : Nat)
    (validationResult : ValidationOutcome) : StoredProvider :=
  { id := id,
    fields := createFields row source,
    status := validationResult.status,
    confidence_score := validationResult.confidence_score,
    validation_results := validationResult.validation_results,
    ai_suggestions := validationResult.ai_suggestions,
    original_data := row,
    batch_id := batchId }

/-- The loop of lines 224-259 from row number `i` on. `ai i` is what the
enrichment call for row `i` does and `createOk i` tells whether
`Provider.create` succeeds for it; `none` is the exception of a failed
create, which ends the run. A created record gets its position in the
storage as `id`. -/
def uploadLoop (source : JsString) (batchId : Nat) (ai : Nat → Enrichment)
    (createOk : Nat → Bool) : Nat → List Row → UploadState → Option UploadState
  | _, [], st => some st
  | i, row :: rest, st =>
    let validationResult := validateProvider (rowView row) (ai i)
    if createOk i then
      uploadLoop source batchId ai createOk (i + 1) rest
        { storage := st.storage ++
            [createdRecord st.storage.length row source batchId validationResult],
          validatedCount :=
            if validationResult.status = .flagged then st.validatedCount
            else st.validatedCount + 1,
          flaggedCount :=
            if validationResult.status = .flagged then st.flaggedCount + 1
            else st.flaggedCount }
    else none

/-- The statistics of a completed batch: `total_records` as given to
`ValidationBatch.create`, the counts as given to `ValidationBatch.update`. -/
structure BatchSummary where
  total_records : Nat
  validated_count : Nat
  flagged_count : Nat
  deriving DecidableEq, Repr

/-- How a call of `handleUploadAndValidate` ends. -/
inductive RunOutcome where
  | notStarted
  | aborted
  | completed (storage : List StoredProvider) (summary : BatchSummary)
  deriving DecidableEq, Repr

/-- The function `handleUploadAndValidate` on the storage `storage`; the
writes of batch, audit log and notification are taken to succeed. -/
def handleUploadAndValidate (parsedData : List Row) (batchName source : JsString)
    (batchId : Nat) (ai : Nat → Enrichment) (createOk : Nat → Bool)
    (storage : List StoredProvider) : RunOutcome :=
  if parsedData.length = 0 ∨ batchName = [] then .notStarted
  else
    match uploadLoop source batchId ai createOk 0 parsedData { storage := storage } with
    | none => .aborted
    | some st =>
      .completed st.storage
        { total_records := parsedData.length,
          validated_count := st.validatedCount,
          flagged_count := st.flaggedCount }

/-- The results `validateProvider` returns for the rows from number `i` on. -/
def outcomesFrom (ai : Nat → Enrichment) : Nat → List Row → List ValidationOutcome
  | _, [] => []
  | i, row :: rest => validateProvider (rowView row) (ai i) :: outcomesFrom ai (i + 1) rest

/-- The row of scenario A. -/
def rowA : Row :=
  [("name".toList, "Ann Lee".toList), ("phone".toList, "555-123-4567".toList),
    ("address".toList, "12 Oak Street".toList), ("city".toList, "Springfield".toList),
    ("state".toList, "IL".toList), ("zip".toList, "12345".toList)]

/-- The row of scenario B. -/
def rowB : Row :=
  [("name".toList, "Bo Chen".toList), ("phone".toList, "123".toList),
    ("email".toList, "bad".toList)]

/-! ## Settings (src/Pages/settings.jsx) -/

/-- The settings object, with its thresholds and the auto-approve switch. -/
structure SystemSettings where
  confidence_threshold : Int := 70
  auto_approve_enabled : Bool := false
  low_confidence_threshold : Int := 50
  deriving DecidableEq, Repr

/-- The constant `defaultSettings`. -/
def defaultSettings : SystemSettings := {}

/-- The handler of the slider `Confidence Score Threshold`. -/
def setConfidenceThreshold (settings : SystemSettings) (v : Int) : SystemSettings :=
  { settings with confidence_threshold := v }

/-! ## The review screen (src/Pages/reviewapprove.jsx) -/

/-- The state of the review screen together with the stored records.
`selectedRef` is the position of `flaggedProviders` whose element is the very
object held in `selectedProvider`, when there is one: setting a state to the
object it already holds changes nothing and runs no effect. -/
structure ReviewState where
  storage : List StoredProvider
  flaggedProviders : List StoredProvider := []
  currentIndex : Nat := 0
  selectedProvider : Option StoredProvider := none
  selectedRef : Option Nat := none
  editedData : Option StoredProvider := none
  reviewNotes : JsString := []
  isEditing : Bool := false
  deriving DecidableEq, Repr

/-- The call `Provider.update(id, ...)` with the change `change`. -/
def updateProvider (storage : List StoredProvider) (id : Nat)
    (change : StoredProvider → StoredProvider) : List StoredProvider :=
  storage.map (fun r => if r.id = id then change r else r)

/-- The query `Provider.filter({ status: 'flagged' }, 'confidence_score', 500)`:
the flagged records by ascending score, equal scores in storage order, at
most 500. -/
def flaggedQuery (storage : List StoredProvider) : List StoredProvider :=
  (stableSort (fun a b => decide (a.confidence_score ≤ b.confidence_score))
    (storage.filter (fun r => decide (r.status = .flagged)))).take 500

/-- The call `setSelectedProvider(flaggedProviders[index])` followed by the
effect of lines 70-76, which runs when the selected object changes and resets
the form when there is a selected record. -/
def selectProvider (s : ReviewState) (index : Nat) : ReviewState :=
  if s.selectedRef = some index then s
  else
    match s.flaggedProviders[index]? with
    | some r => { s with selectedProvider := some r, selectedRef := some index,
                         editedData := some r, reviewNotes := [], isEditing := false }
    | none => { s with selectedProvider := none, selectedRef := none }

/-- The function `moveToNext`. -/
def moveToNext (s : ReviewState) : ReviewState :=
  if (s.currentIndex : Int) < (s.flaggedProviders.length : Int) - 1 then
    selectProvider { s with currentIndex := s.currentIndex + 1 } (s.currentIndex + 1)
  else s

/-- The function `moveToPrev`. -/
def moveToPrev (s : ReviewState) : ReviewState :=
  if 0 < s.currentIndex then
    selectProvider { s with currentIndex := s.currentIndex - 1 } (s.currentIndex - 1)
  else s

/-- The effect of lines 58-68, run when the list of flagged records changes. -/
def afterLoad (initialProviderId : Option Nat) (s : ReviewState) : ReviewState :=
  match initialProviderId with
  | some pid =>
    if 0 < s.flaggedProviders.length then
      match s.flaggedProviders.findIdx? (fun p => decide (p.id = pid)) with
      | some index => selectProvider { s with currentIndex := index } index
      | none => s
    else s
  | none =>
    if 0 < s.flaggedProviders.length ∧ s.selectedProvider = none then
      selectProvider s 0
    else s

/-- A refetch of the flagged records. The query keeps the objects of the
previous result wherever the new data equal the old: an unchanged result is
the same array and runs no effect; in a changed result the element at a
position is the previous object when its data are unchanged. Then the effect
of lines 58-68 runs. -/
def refetch (initialProviderId : Option Nat) (s : ReviewState) : ReviewState :=
  if flaggedQuery s.storage = s.flaggedProviders then s
  else
    afterLoad initialProviderId
      { s with flaggedProviders := flaggedQuery s.storage,
               selectedRef := s.selectedRef.bind (fun j =>
                 if (flaggedQuery s.storage)[j]? = s.flaggedProviders[j]? then some j else none) }

/-- What the reviewer, or the query client, can do. -/
inductive ReviewAction where
  | approve
  | reject
  | edit
  | change (field : FieldName) (value : JsString)
  | saveEdit
  | next
  | previous
  | refresh
  deriving DecidableEq, Repr

/-- The record `p` with the property `field` set to `value`. -/
def Provider.set (p : Provider) (field : FieldName) (value : JsString) : Provider :=
  match field with
  | .npi => { p with npi := some value }
  | .name => { p with name := some value }
  | .specialty => { p with specialty := some value }
  | .organization => { p with organization := some value }
  | .phone => { p with phone := some value }
  | .email => { p with email := some value }
  | .website => { p with website := some value }
  | .address => { p with address := some value }
  | .city => { p with city := some value }
  | .state => { p with state := some value }
  | .zip => { p with zip := some value }
  | .license_number => { p with license_number := some value }
  | .license_state => { p with license_state := some value }
  | .source => { p with source := some value }

/-- Whether the control of an action is rendered and enabled: nothing is
shown while the list is empty, the form and its buttons need a selected
record, `Save Changes` replaces `Edit` while editing, and the arrows are
disabled at the ends of the list. -/
def available (s : ReviewState) : ReviewAction → Bool
  | .approve => decide (0 < s.flaggedProviders.length) && s.selectedProvider.isSome
  | .reject => decide (0 < s.flaggedProviders.length) && s.selectedProvider.isSome
  | .edit => decide (0 < s.flaggedProviders.length) && s.selectedProvider.isSome && !s.isEditing
  | .change _ _ =>
    decide (0 < s.flaggedProviders.length) && s.selectedProvider.isSome && s.isEditing
  | .saveEdit =>
    decide (0 < s.flaggedProviders.length) && s.selectedProvider.isSome && s.isEditing
  | .next =>
    decide (0 < s.flaggedProviders.length) &&
      !decide ((s.currentIndex : Int) ≥ (s.flaggedProviders.length : Int) - 1)
  | .previous => decide (0 < s.flaggedProviders.length) && !decide (s.currentIndex = 0)
  | .refresh => true

/-- The payload `{ ...editedData, status: 'approved', reviewed_by, review_notes }`
merged into the stored record `r`. -/
def approvedRecord (s : ReviewState) (user : Option JsString) (r : StoredProvider) :
    StoredProvider :=
  { (s.editedData.getD r) with
    id := r.id, status := .approved, reviewed_by := user, review_notes := some s.reviewNotes }

/-- One action on the review screen, by the reviewer `user`. -/
def reviewStep (initialProviderId : Option Nat) (user : Option JsString) (s : ReviewState)
    (a : ReviewAction) : ReviewState :=
  if !available s a then s
  else
    match a, s.selectedProvider with
    | .approve, some sel =>
      moveToNext { s with storage := updateProvider s.storage sel.id (approvedRecord s user) }
    | .reject, some sel =>
      moveToNext
        { s with storage := updateProvider s.storage sel.id (fun r =>
            { r with status := .rejected, reviewed_by := user,
                     review_notes := some s.reviewNotes }) }
    | .edit, _ => { s with isEditing := true }
    | .change field value, _ =>
      { s with editedData := s.editedData.map (fun e =>
          { e with fields := e.fields.set field value }) }
    | .saveEdit, some sel =>
      { s with storage := updateProvider s.storage sel.id (fun r =>
                 { (s.editedData.getD r) with id := r.id }),
               isEditing := false }
    | .next, _ => moveToNext s
    | .previous, _ => moveToPrev s
    | .refresh, _ => refetch initialProviderId s
    | _, none => s

/-- The screen after its first load of the stored records. -/
def openReview (initialProviderId : Option Nat) (storage : List StoredProvider) : ReviewState :=
  afterLoad initialProviderId { storage := storage, flaggedProviders := flaggedQuery storage }

/-- A sequence of actions. -/
def reviewRun (initialProviderId : Option Nat) (user : Option JsString) :
    ReviewState → List ReviewAction → ReviewState
  | s, [] => s
  | s, a :: rest => reviewRun initialProviderId user (reviewStep initialProviderId user s a) rest

/-- Whether each action of a sequence is available when its turn comes. -/
def allAvailable (initialProviderId : Option Nat) (user : Option JsString) :
    ReviewState → List ReviewAction → Bool
  | _, [] => true
  | s, a :: rest =>
    available s a && allAvailable initialProviderId user (reviewStep initialProviderId user s a) rest

/-- The stored status of the record `id`. -/
def statusOf (s : ReviewState) (id : Nat) : Option Status :=
  (s.storage.find? (fun r => decide (r.id = id))).map (fun r => r.status)

/-- Two flagged records as the batch run stores them. -/
def flaggedPair : List StoredProvider :=
  [{ id := 0, fields := createFields rowB "web".toList, status := .flagged,
      confidence_score := 55, validation_results := ruleTable (rowView rowB),
      ai_suggestions := [], original_data := rowB, batch_id := 1 },
    { id := 1, fields := createFields rowB "mobile".toList, status := .flagged,
      confidence_score := 55, validation_results := ruleTable (rowView rowB),
      ai_suggestions := [], original_data := rowB, batch_id := 2 }]

/-! ## Suggestions on the review screen (src/Pages/reviewapprove.jsx, lines 138-141) -/

/-- The property name a field has in the source. -/
def FieldName.toJs : FieldName → JsString
  | .npi => "npi".toList
  | .name => "name".toList
  | .specialty => "specialty".toList
  | .organization => "organization".toList
  | .phone => "phone".toList
  | .email => "email".toList
  | .website => "website".toList
  | .address => "address".toList
  | .city => "city".toList
  | .state => "state".toList
  | .zip => "zip".toList
  | .license_number => "license_number".toList
  | .license_state => "license_state".toList
  | .source => "source".toList

/-- The expression `selectedProvider.ai_suggestions?.[field]`. -/
def suggestionFor (p : StoredProvider) (field : FieldName) : Option JsString :=
  (p.ai_suggestions.find? (fun e => e.1 == field.toJs)).map (fun e => e.2)

/-- The function `applySuggestion` on a screen with a selected record. -/
def applySuggestion (s : ReviewState) (field : FieldName) (value : JsString) : ReviewState :=
  { s with editedData := s.editedData.map (fun e => { e with fields := e.fields.set field value }),
           isEditing := true }

/-- Whether the button `Use Suggestion` of a field is rendered, and the value
it applies. -/
def suggestionOffered (s : ReviewState) (field : FieldName) : Option JsString :=
  if 0 < s.flaggedProviders.length then
    match s.selectedProvider with
    | some sel => if truthy (suggestionFor sel field) then suggestionFor sel field else none
    | none => none
  else none

/-- Two flagged records, the second with a suggested phone. -/
def flaggedWithSuggestion : List StoredProvider :=
  [{ id := 0, fields := createFields rowB "web".toList, status := .flagged,
      confidence_score := 55, validation_results := ruleTable (rowView rowB),
      ai_suggestions := [], original_data := rowB, batch_id := 1 },
    { id := 1, fields := createFields rowB "mobile".toList, status := .flagged,
      confidence_score := 55, validation_results := ruleTable (rowView rowB),
      ai_suggestions := [("phone".toList, "555-123-4567".toList)], original_data := rowB,
      batch_id := 2 }]

/-- The lookup `validation_results?.[field]`; the object has the keys
`phone`, `email`, `website`, `address`, `zip`, `license` and `npi`, and
`none` is `undefined`. -/
def ValidationResults.get (vr : ValidationResults) (field : JsString) : Option FieldResult :=
  if field = "phone".toList then vr.phone
  else if field = "email".toList then vr.email
  else if field = "website".toList then vr.website
  else if field = "address".toList then vr.address
  else if field = "zip".toList then vr.zip
  else if field = "license".toList then vr.license
  else if field = "npi".toList then vr.npi
  else none

/-- The function `getFieldStatus` of the review form. -/
def getFieldStatus (selectedProvider : Option StoredProvider) (field : JsString) :
    Option FieldResult :=
  selectedProvider.bind (fun p => p.validation_results.get field)

/-- A row with a license number of three characters. -/
def rowShortLicense : Row :=
  [("name".toList, "Ann Lee".toList), ("phone".toList, "555-123-4567".toList),
    ("license_number".toList, "AB1".toList)]

/-- A row whose phone is under the header `Phone`. -/
def rowAlias : Row :=
  [("Name".toList, "Ann Lee".toList), ("Phone".toList, "555-123-4567".toList),
    ("address".toList, "12 Oak Street".toList), ("city".toList, "Springfield".toList),
    ("state".toList, "IL".toList), ("zip".toList, "12345".toList)]

/-! ## The consistency page (src/Pages/dashboard.jsx) -/

/-- The state of the consistency page: the loaded records and the last
results. -/
structure ConsistencyPage where
  providers : List Provider
  checkResults : Option CheckResults := none
  isChecking : Bool := false
  deriving DecidableEq, Repr

/-- A click on `Start Check`: `runConsistencyCheck` followed by
`setCheckResults`; `none` when it throws. -/
def startCheck (toLowerCase : JsString → JsString) (page : ConsistencyPage) :
    Option ConsistencyPage :=
  (runConsistencyCheck toLowerCase page.providers).map (fun r =>
    { page with checkResults := some r, isChecking := false })

/-- The integer nearest to `a / b`, the even one of two equally near. -/
def roundHalfEven (a b : Nat) : Nat :=
  if 2 * (a % b) < b then a / b
  else if b < 2 * (a % b) then a / b + 1
  else if (a / b) % 2 = 0 then a / b
  else a / b + 1

/-- The double nearest to the quotient `a / b` of two natural numbers, as a
pair `(m, e)` standing for `m * 2 ^ e`: the quotient is scaled to 53
significant bits and rounded to nearest, ties to even. The exponent range of
a double is not modelled; it is not left for operands below `2 ^ 1000`. -/
def nearestDouble (a b : Nat) : Nat × Int :=
  if a = 0 ∨ b = 0 then (0, 0)
  else
    let e : Int := (Nat.log2 a : Int) - (Nat.log2 b : Int) - 52
    let e := if a * 2 ^ (-e).toNat < 2 ^ 52 * (b * 2 ^ e.toNat) then e - 1 else e
    (roundHalfEven (a * 2 ^ (-e).toNat) (b * 2 ^ e.toNat), e)

/-- The value `Math.round((consistentCount / totalChecked) * 100)` for
`totalChecked` > 0, in the arithmetic of doubles: the quotient is rounded to
a double, so is its product with 100, and `Math.round` takes the nearest
integer, the greater of two equally near. The counts are numbers below
`2 ^ 53`, which are doubles themselves. -/
def roundedPercent (consistentCount : Int) (totalChecked : Nat) : Int :=
  let quotient := nearestDouble consistentCount.natAbs totalChecked
  let product :=
    nearestDouble (100 * quotient.1 * 2 ^ quotient.2.toNat) (2 ^ (-quotient.2).toNat)
  let sign : Int := if consistentCount < 0 then -1 else 1
  Int.fdiv (2 * sign * (product.1 : Int) * 2 ^ product.2.toNat + 2 ^ (-product.2).toNat)
    (2 * 2 ^ (-product.2).toNat)

/-- The constant `consistencyScore` (lines 259-261), for results with
`totalChecked` > 0 or both counts 0:
`Math.round((consistentCount / totalChecked) * 100) || 100`. The quotient
`0 / 0` is `NaN`, which is falsy, as is a rounded value of 0. -/
def consistencyScore (checkResults : CheckResults) : Int :=
  if checkResults.totalChecked = 0 then 100
  else
    let rounded := roundedPercent checkResults.consistentCount checkResults.totalChecked
    if rounded = 0 then 100 else rounded

/-- The inconsistency record of a group, when the group has a first member
and an inconsistent field. -/
def inconsistencyOf (toLowerCase : JsString → JsString) : List Provider → Option Inconsistency
  | [] => none
  | baseProvider :: others =>
    if 0 < (checkGroup toLowerCase baseProvider others).inconsistentFields.length then
      some
        { providerName := baseProvider.name,
          npi := baseProvider.npi,
          sources := (baseProvider :: others).map (fun p => p.source),
          inconsistentFields := (checkGroup toLowerCase baseProvider others).inconsistentFields,
          cleanedProvider := (checkGroup toLowerCase baseProvider others).cleanedProvider }
    else none

/-- Whether a comparison field of the group has two trimmed non-empty member
values that differ after lowercasing. -/
def hasConflict (toLowerCase : JsString → JsString) (group : List Provider) : Bool :=
  fieldsToCompare.any (fun f =>
    (memberValues f group).any (fun v =>
      (memberValues f group).any (fun w => decide (toLowerCase v ≠ toLowerCase w))))

/-! ## CSV export (src/Pages/directoryoutput.jsx, src/Pages/dashboard.jsx) -/

/-- The call `xs.join(sep)`. -/
def joinWith (sep : JsString) : List JsString → JsString
  | [] => []
  | [x] => x
  | x :: y :: rest => x ++ sep ++ joinWith sep (y :: rest)

/-- The call `text.split(c)` for a one-character separator. -/
def splitOn (c : Char) : JsString → List JsString
  | [] => [[]]
  | x :: xs =>
    if x = c then [] :: splitOn c xs
    else
      match splitOn c xs with
      | [] => [[x]]
      | l :: ls => (x :: l) :: ls

/-- The decimal text of an integer, as a template literal prints it. -/
def numberText (n : Int) : JsString :=
  if n < 0 then '-' :: Nat.toDigits 10 n.natAbs else Nat.toDigits 10 n.natAbs

/-- The value `cell || ''` for a number: `0` is falsy and gives the empty
string. -/
def numberCell (n : Int) : Option JsString := if n = 0 then none else some (numberText n)

/-- The template literal `"${cell || ''}"`. -/
def cellText (cell : Option JsString) : JsString := '"' :: ((jsOr cell (some [])).getD [] ++ ['"'])

/-- The array `headers` of `exportToCSV`. -/
def directoryHeaders : List JsString :=
  ["NPI".toList, "Name".toList, "Specialty".toList, "Organization".toList, "Phone".toList,
    "Email".toList, "Website".toList, "Address".toList, "City".toList, "State".toList,
    "ZIP".toList, "License Number".toList, "Confidence Score".toList]

/-- The array `headers` of the button `Export Clean Directory`. -/
def cleanHeaders : List JsString :=
  ["NPI".toList, "Name".toList, "Specialty".toList, "Organization".toList, "Phone".toList,
    "Email".toList, "Website".toList, "Address".toList, "City".toList, "State".toList,
    "ZIP".toList, "License Number".toList, "Corrected Fields".toList]

/-- The twelve cells the two exports share. -/
def fieldCells (p : Provider) : List (Option JsString) :=
  [p.npi, p.name, p.specialty, p.organization, p.phone, p.email, p.website, p.address, p.city,
    p.state, p.zip, p.license_number]

/-- The cells of one record in `exportToCSV`. -/
def directoryCells (p : StoredProvider) : List (Option JsString) :=
  fieldCells p.fields ++ [numberCell p.confidence_score]

/-- The cells of one cleaned record in `Export Clean Directory`; the last is
`(p.corrected_fields || []).join('; ')`. -/
def cleanCells (p : CleanedProvider) : List (Option JsString) :=
  fieldCells p.toProvider ++
    [some (joinWith "; ".toList (p.corrected_fields.map FieldName.toJs))]

/-- The text of one record: `row.map(cell => ...).join(',')`. -/
def rowText (cells : List (Option JsString)) : JsString :=
  joinWith ",".toList (cells.map cellText)

/-- The text `csvContent` of `exportToCSV`. -/
def exportToCSV (cleanedProviders : List StoredProvider) : JsString :=
  joinWith "\n".toList
    (joinWith ",".toList directoryHeaders :: cleanedProviders.map (fun p => rowText (directoryCells p)))

/-- The text `csv` of the button `Export Clean Directory`. -/
def exportCleanDirectory (cleanedProviders : List CleanedProvider) : JsString :=
  joinWith "\n".toList
    (joinWith ",".toList cleanHeaders :: cleanedProviders.map (fun p => rowText (cleanCells p)))

/-! ## Directory output (src/Pages/directoryoutput.jsx, lines 44-49) -/

/-- The array `cleanedProviders` of the Directory Output page. -/
def cleanedProviders (providers : List StoredProvider) (sourceFilter : JsString) :
    List StoredProvider :=
  providers.filter (fun p =>
    let isClean := decide (p.status = .approved) || decide (p.status = .validated)
    if sourceFilter = "all".toList then isClean
    else isClean && decide (p.fields.source = some sourceFilter))

/-- The rows of the table `Cleaned Provider Directory`:
`cleanedProviders.slice(0, 20)`. -/
def shownProviders (providers : List StoredProvider) (sourceFilter : JsString) :
    List StoredProvider :=
  (cleanedProviders providers sourceFilter).take 20

/-- A validated web record with the given `id`. -/
def validatedRecord (id : Nat) : StoredProvider :=
  { id := id, fields := createFields rowA "web".toList, status := .validated,
    confidence_score := 100, validation_results := ruleTable (rowView rowA),
    ai_suggestions := [], original_data := rowA, batch_id := 1 }

/-- An approved record whose address has two lines. -/
def twoLineRecord : StoredProvider :=
  { id := 7,
    fields := { name := some "Ann Lee".toList, address := some "12 Oak Street\nSuite 4".toList,
                source := some "web".toList },
    status := .approved, confidence_score := 55, validation_results := {},
    ai_suggestions := [], original_data := [], batch_id := 1 }

/-! ## The matcher decides membership -/

namespace Regex
theorem test_nothing (s : JsString) : test nothing s = false := by
  induction s with
  | nil => rfl
  | cons c cs ih => simpa [test, deriv] using ih

theorem test_alt (r₁ r₂ : Regex) (s : JsString) :
    test (alt r₁ r₂) s = (test r₁ s || test r₂ s) := by
  induction s generalizing r₁ r₂ with
  | nil => rfl
  | cons c cs ih => simp [test, deriv, ih]

theorem test_eps (s : JsString) : test eps s = s.isEmpty := by
  cases s with
  | nil => rfl
  | cons c cs => simp [test, deriv, test_nothing]

theorem test_cls (p : Char → Bool) (s : JsString) :
    test (cls p) s = true ↔ ∃ c, s = [c] ∧ p c = true := by
  cases s with
  | nil => simp [test, nullable]
  | cons c cs =>
    by_cases h : p c = true
    · simp only [test, deriv, h, if_true, test_eps, List.isEmpty_iff]
      constructor
      · rintro rfl
        exact ⟨c, rfl, h⟩
      · rintro ⟨d, hd, -⟩
        simp only [List.cons.injEq] at hd
        exact hd.2
    · simp only [test, deriv, h, test_nothing]
      simp only [Bool.false_eq_true, if_false, test_nothing, false_iff]
      rintro ⟨d, hd, hp⟩
      simp only [List.cons.injEq] at hd
      rw [← hd.1] at hp
      exact h hp

theorem test_seq (r₁ r₂ : Regex) (s : JsString) :
    test (seq r₁ r₂) s = true ↔
      ∃ s₁ s₂, s = s₁ ++ s₂ ∧ test r₁ s₁ = true ∧ test r₂ s₂ = true := by
  induction s generalizing r₁ with
  | nil =>
    simp only [test, nullable, Bool.and_eq_true]
    constructor
    · rintro ⟨h₁, h₂⟩
      exact ⟨[], [], rfl, h₁, h₂⟩
    · rintro ⟨s₁, s₂, h, h₁, h₂⟩
      have h' := h.symm
      rw [List.append_eq_nil] at h'
      obtain ⟨rfl, rfl⟩ := h'
      exact ⟨h₁, h₂⟩
  | cons c cs ih =>
    have key : (∃ s₁ s₂, c :: cs = s₁ ++ s₂ ∧ test r₁ s₁ = true ∧ test r₂ s₂ = true) ↔
        ((∃ t₁ s₂, cs = t₁ ++ s₂ ∧ test (deriv c r₁) t₁ = true ∧ test r₂ s₂ = true) ∨
          (nullable r₁ = true ∧ test (deriv c r₂) cs = true)) := by
      constructor
      · rintro ⟨s₁, s₂, h, h₁, h₂⟩
        cases s₁ with
        | nil =>
          right
          simp only [List.nil_append] at h
          subst h
          exact ⟨h₁, h₂⟩
        | cons d t₁ =>
          left
          simp only [List.cons_append, List.cons.injEq] at h
          obtain ⟨rfl, rfl⟩ := h
          exact ⟨t₁, s₂, rfl, h₁, h₂⟩
      · rintro (⟨t₁, s₂, h, h₁, h₂⟩ | ⟨h₁, h₂⟩)
        · exact ⟨c :: t₁, s₂, by simp [h], h₁, h₂⟩
        · exact ⟨[], c :: cs, rfl, h₁, h₂⟩
    rw [key]
    by_cases hn : nullable r₁ = true
    · simp only [test, deriv, hn, if_true, test_alt, Bool.or_eq_true, ih, true_and]
    · simp only [test, deriv, hn, if_false, false_and, or_false, Bool.false_eq_true]
      exact ih _

theorem test_rep_cls (p : Char → Bool) (n : Nat) (s : JsString) :
    test (rep n (cls p)) s = (s.length == n && s.all p) := by
  induction n generalizing s with
  | zero =>
    cases s <;> simp [rep, test_eps]
  | succ n ih =>
    rw [Bool.eq_iff_iff]
    simp only [rep, test_seq, test_cls, ih]
    constructor
    · rintro ⟨s₁, s₂, rfl, ⟨c, rfl, hc⟩, h⟩
      simp at h ⊢
      exact ⟨h.1, hc, h.2⟩
    · intro h
      cases s with
      | nil => simp at h
      | cons c cs =>
        simp at h
        exact ⟨[c], cs, rfl, ⟨c, rfl, h.2.1⟩, by simpa [h.1] using h.2.2⟩
end Regex

theorem npiRegex_test (s : JsString) : npiRegex.test s = isDigits 10 s := by
  simp [npiRegex, isDigits, Regex.test_rep_cls]

theorem test_opt (r : Regex) (s : JsString) :
    (opt r).test s = (s.isEmpty || r.test s) := by
  simp [opt, Regex.test_alt, Regex.test_eps]

theorem test_chr (c : Char) (s : JsString) : (chr c).test s = true ↔ s = [c] := by
  rw [chr, Regex.test_cls]
  constructor
  · rintro ⟨d, rfl, h⟩
    simpa using h
  · rintro rfl
    exact ⟨c, rfl, by simp⟩

theorem zipRegex_test (s : JsString) : zipRegex.test s = isZipCode s := by
  rw [Bool.eq_iff_iff]
  simp only [zipRegex, isZipCode, Regex.test_seq, Regex.test_rep_cls, test_opt, test_chr,
    Bool.or_eq_true, Bool.and_eq_true, List.isEmpty_iff, beq_iff_eq, isDigits]
  constructor
  · rintro ⟨s₁, s₂, rfl, ⟨h₁, h₂⟩, (rfl | ⟨t₁, t₂, rfl, rfl, h₃, h₄⟩)⟩
    · left
      rw [List.append_nil]
      exact ⟨h₁, h₂⟩
    · right
      have e₁ : (s₁ ++ ([ '-' ] ++ t₂)).take 5 = s₁ := by
        rw [List.take_append_of_le_length (by omega), List.take_of_length_le (by omega)]
      have e₂ : (s₁ ++ ([ '-' ] ++ t₂)).drop 5 = '-' :: t₂ := by
        rw [← h₁, List.drop_left]; rfl
      have e₃ : (s₁ ++ ([ '-' ] ++ t₂)).drop 6 = t₂ := by
        have : (s₁ ++ ([ '-' ] ++ t₂)) = (s₁ ++ [ '-' ]) ++ t₂ := by simp
        rw [this]
        have hl : (s₁ ++ [ '-' ]).length = 6 := by simp [h₁]
        rw [← hl, List.drop_left]
      rw [e₁, e₂, e₃]
      exact ⟨⟨⟨h₁, h₂⟩, rfl⟩, h₃, h₄⟩
  · rintro (⟨h₁, h₂⟩ | ⟨⟨⟨h₁, h₂⟩, h₃⟩, h₄, h₅⟩)
    · exact ⟨s, [], by simp, ⟨h₁, h₂⟩, Or.inl rfl⟩
    · refine ⟨s.take 5, s.drop 5, (List.take_append_drop 5 s).symm, ⟨h₁, h₂⟩, Or.inr ?_⟩
      refine ⟨[ '-' ], s.drop 6, ?_, rfl, h₄, h₅⟩
      have : s.drop 5 = (s.drop 5).take 1 ++ (s.drop 5).drop 1 :=
        (List.take_append_drop 1 _).symm
      rw [h₃, List.drop_drop] at this
      simpa using this

/-! ## validateProvider -/

theorem checkPhone_eq (p : Provider) (st : ScoreState) :
    checkPhone p st =
      { validationResults :=
          { st.validationResults with phone := some (FieldResult.ofBool (phoneValid p)) },
        score := st.score - (if phoneValid p then 0 else 15) } := by
  unfold checkPhone phoneValid
  cases h : truthy p.phone <;>
    cases h' : phoneRegex.test (removeWhiteSpace (p.phone.getD [])) <;>
    simp [FieldResult.ofBool]

theorem checkEmail_eq (p : Provider) (st : ScoreState) :
    checkEmail p st =
      { validationResults := { st.validationResults with email := (ruleTable p).email },
        score := st.score -
          (if truthy p.email && !emailRegex.test (p.email.getD []) then 10 else 0) } := by
  unfold checkEmail ruleTable
  cases h : truthy p.email <;> cases h' : emailRegex.test (p.email.getD []) <;> simp

theorem checkWebsite_eq (p : Provider) (st : ScoreState) :
    checkWebsite p st =
      { validationResults := { st.validationResults with website := (ruleTable p).website },
        score := st.score -
          (if truthy p.website && !urlRegex.test (p.website.getD []) then 10 else 0) } := by
  unfold checkWebsite ruleTable
  cases h : truthy p.website <;> cases h' : urlRegex.test (p.website.getD []) <;> simp

theorem checkAddress_eq (p : Provider) (st : ScoreState) :
    checkAddress p st =
      { validationResults :=
          { st.validationResults with address := some (FieldResult.ofBool (addressComplete p)) },
        score := st.score - (if addressComplete p then 0 else 20) } := by
  unfold checkAddress addressComplete
  cases (truthy p.address && truthy p.city && truthy p.state && truthy p.zip) <;> simp

theorem checkZip_eq (p : Provider) (st : ScoreState) :
    checkZip p st =
      { validationResults :=
          { st.validationResults with
            zip := if truthy p.zip then (ruleTable p).zip else st.validationResults.zip },
        score := st.score -
          (if truthy p.zip && !isZipCode (p.zip.getD []) then 10 else 0) } := by
  unfold checkZip ruleTable
  rw [zipRegex_test]
  cases h : truthy p.zip <;> cases h' : isZipCode (p.zip.getD []) <;> simp

theorem checkLicense_eq (p : Provider) (st : ScoreState) :
    checkLicense p st =
      { validationResults := { st.validationResults with license := (ruleTable p).license },
        score := st.score -
          (if truthy p.license_number && decide (jsLength (p.license_number.getD []) < 5)
            then 15 else 0) } := by
  unfold checkLicense ruleTable
  cases h : truthy p.license_number <;>
    by_cases h' : 5 ≤ jsLength (p.license_number.getD []) <;>
    simp [h', Nat.not_le.mp, Nat.not_lt.mpr]

theorem checkNpi_eq (p : Provider) (st : ScoreState) :
    checkNpi p st =
      { validationResults :=
          { st.validationResults with
            npi := if truthy p.npi then (ruleTable p).npi else st.validationResults.npi },
        score := st.score -
          (if truthy p.npi && !isDigits 10 (p.npi.getD []) then 10 else 0) } := by
  unfold checkNpi ruleTable
  rw [npiRegex_test]
  cases h : truthy p.npi <;> cases h' : isDigits 10 (p.npi.getD []) <;> simp

theorem fieldChecks_eq (p : Provider) :
    fieldChecks p = { validationResults := ruleTable p, score := 100 - totalDeduction p } := by
  unfold fieldChecks
  rw [checkPhone_eq, checkEmail_eq, checkWebsite_eq, checkAddress_eq, checkZip_eq,
    checkLicense_eq, checkNpi_eq]
  simp only [ScoreState.mk.injEq]
  constructor
  · unfold ruleTable
    cases truthy p.zip <;> cases truthy p.npi <;> simp
  · unfold totalDeduction
    omega

theorem adjustScore_eq (score : Int) (r : AiResponse) :
    adjustScore score r = score + enrichmentAdjustment (.response r) := by
  unfold adjustScore enrichmentAdjustment
  cases h : r.confidence_adjustment with
  | none => simp [h]
  | some a =>
    by_cases ha : a = 0
    · simp [h, ha]
    · simp [h, ha]

theorem validateProvider_score (p : Provider) (ai : Enrichment) :
    (validateProvider p ai).confidence_score =
      max 0 (min 100 (100 - totalDeduction p + enrichmentAdjustment ai)) := by
  unfold validateProvider
  simp only [fieldChecks_eq]
  cases ai with
  | failed => simp [enrichmentAdjustment]
  | noResponse => simp [enrichmentAdjustment]
  | response r => simp only [adjustScore_eq]

theorem validateProvider_status (p : Provider) (ai : Enrichment) :
    (validateProvider p ai).status =
      if 70 ≤ 100 - totalDeduction p + enrichmentAdjustment ai then .validated else .flagged := by
  unfold validateProvider
  simp only [fieldChecks_eq]
  cases ai with
  | failed => simp [enrichmentAdjustment]
  | noResponse => simp [enrichmentAdjustment]
  | response r => simp only [adjustScore_eq, ge_iff_le]

theorem validateProvider_results (p : Provider) (ai : Enrichment) :
    (validateProvider p ai).validation_results = ruleTable p := by
  unfold validateProvider
  simp only [fieldChecks_eq]

/-- C1: for every record and every enrichment outcome (failed call, no
response, a response with or without an adjustment of any sign) the returned
confidence score lies between 0 and 100. -/
theorem confidence_score_bounds (p : Provider) (ai : Enrichment) :
    0 ≤ (validateProvider p ai).confidence_score ∧
      (validateProvider p ai).confidence_score ≤ 100 := by
  rw [validateProvider_score]
  omega

/-- C2: the returned score is `clamp(100 - D + a, 0, 100)`, where `D` is the
total deduction of the rule table (the phone pattern being applied to the
value without white space, lengths counted in UTF-16 code units) and `a` the
enrichment adjustment; in scenario B the deduction is 45 and the score 55. -/
theorem confidence_score_formula :
    (∀ (p : Provider) (ai : Enrichment),
        (validateProvider p ai).confidence_score =
          clamp (100 - totalDeduction p + enrichmentAdjustment ai) 0 100) ∧
      totalDeduction scenarioB = 45 ∧
      (validateProvider scenarioB .noResponse).confidence_score = 55 ∧
      (validateProvider scenarioB .failed).confidence_score = 55 := by
  refine ⟨?_, by decide, by decide, by decide⟩
  intro p ai
  rw [validateProvider_score]
  unfold clamp
  split_ifs <;> omega

/-- C3: the returned status is flagged exactly when the returned (clamped)
confidence score is below 70, and validated otherwise. -/
theorem status_flagged_iff (p : Provider) (ai : Enrichment) :
    ((validateProvider p ai).status = .flagged ↔ (validateProvider p ai).confidence_score < 70) ∧
      ((validateProvider p ai).status = .validated ↔
        ¬ (validateProvider p ai).confidence_score < 70) := by
  rw [validateProvider_score, validateProvider_status]
  constructor <;> split_ifs <;> simp <;> omega

/-- C4: the returned `validation_results` is the tri-state map of the rule
table (the license verdict being stored under the key `license`), whatever
the enrichment outcome; in scenario A phone, address and zip are Valid, email
is NotApplicable, the score is 100 and the status is validated. -/
theorem validation_results_table :
    (∀ (p : Provider) (ai : Enrichment), (validateProvider p ai).validation_results = ruleTable p) ∧
      (validateProvider scenarioA .noResponse).validation_results.phone = some .valid ∧
      (validateProvider scenarioA .noResponse).validation_results.email = some .notApplicable ∧
      (validateProvider scenarioA .noResponse).validation_results.address = some .valid ∧
      (validateProvider scenarioA .noResponse).validation_results.zip = some .valid ∧
      (validateProvider scenarioA .noResponse).confidence_score = 100 ∧
      (validateProvider scenarioA .noResponse).status = .validated := by
  refine ⟨validateProvider_results, by decide, by decide, by decide, by decide, by decide,
    by decide⟩

/-! ## Sets and sorting -/

theorem mem_jsSet {α : Type} [DecidableEq α] (l : List α) (y : α) : y ∈ jsSet l ↔ y ∈ l := by
  induction l with
  | nil => simp [jsSet]
  | cons x xs ih =>
    simp only [jsSet, List.mem_cons, List.mem_filter, ih, decide_eq_true_eq]
    by_cases h : y = x <;> simp [h]

theorem one_lt_length_jsSet {α : Type} [DecidableEq α] (l : List α) :
    1 < (jsSet l).length ↔ ∃ a ∈ l, ∃ b ∈ l, a ≠ b := by
  cases l with
  | nil => simp [jsSet]
  | cons x xs =>
    have h₁ : 1 < (jsSet (x :: xs)).length ↔ ∃ y ∈ xs, y ≠ x := by
      simp only [jsSet, List.length_cons]
      rw [show (1 < ((jsSet xs).filter (fun y => decide (y ≠ x))).length + 1) ↔
        0 < ((jsSet xs).filter (fun y => decide (y ≠ x))).length from by omega]
      rw [List.length_pos_iff_exists_mem]
      simp only [List.mem_filter, mem_jsSet, decide_eq_true_eq]
    rw [h₁]
    constructor
    · rintro ⟨y, hy, hne⟩
      exact ⟨y, List.mem_cons_of_mem _ hy, x, List.mem_cons_self _ _, hne⟩
    · rintro ⟨a, ha, b, hb, hne⟩
      by_cases hax : a = x
      · subst hax
        rcases List.mem_cons.mp hb with h | h
        · exact absurd h.symm hne
        · exact ⟨b, h, fun e => hne e.symm⟩
      · rcases List.mem_cons.mp ha with h | h
        · exact absurd h hax
        · exact ⟨a, h, hax⟩

theorem length_jsSet_pos {α : Type} [DecidableEq α] (l : List α) (h : l ≠ []) :
    0 < (jsSet l).length := by
  cases l with
  | nil => exact absurd rfl h
  | cons x xs => simp [jsSet]

/-! ## Identity key -/

/-- C5 (amended): the grouping key is the trimmed identifier when that is not
empty, and otherwise the name lowercased with every character other than the
letters `a` to `z` removed (no key when the name is missing); two records
with equal identifier and equal name have the same key. -/
theorem identityKey_spec (toLowerCase : JsString → JsString) (p q : Provider)
    (hnpi : p.npi = q.npi) (hname : p.name = q.name) :
    identityKey toLowerCase p =
        (match p.npi with
          | some id =>
            if trim id = [] then p.name.map (fun n => (toLowerCase n).filter isLowerAZ)
            else some (trim id)
          | none => p.name.map (fun n => (toLowerCase n).filter isLowerAZ)) ∧
      identityKey toLowerCase p = identityKey toLowerCase q := by
  constructor
  · unfold identityKey jsOr keepLowerAZ
    cases h : p.npi with
    | none => simp [truthy]
    | some id =>
      cases h' : trim id with
      | nil => simp [truthy, h']
      | cons c cs => simp [truthy, h']
  · unfold identityKey
    rw [hnpi, hname]

/-- Witness of C5: two records that share identifier and name and differ in
source and phone. -/
theorem identityKey_spec_witness :
    identityKey toLowerCaseAscii
        { npi := some " 1234567890 ".toList, name := some "Dr. Ann Lee".toList,
          source := some web } =
      identityKey toLowerCaseAscii
        { npi := some " 1234567890 ".toList, name := some "Dr. Ann Lee".toList,
          source := some mobile, phone := some "555-111-2222".toList } :=
  (identityKey_spec toLowerCaseAscii _ _ rfl rfl).2

/-- Counterexample of C5: a record without identifier named `José` gets the
key `jos`. The letter `é` of the lowercased name is dropped, so the key is
not the lowercased name without its non-alphabetic characters, whatever
notion of alphabetic counts `é` as a letter; the digit of `Unit 7 Clinic` is
dropped as well. A record named `李明` gets the empty key and is put in no
group. -/
theorem identityKey_counterexample :
    identityKey toLowerCaseAscii { name := some "José".toList } = some "jos".toList ∧
      toLowerCaseAscii "José".toList = "josé".toList ∧
      (∀ isAlphabetic : Char → Bool, isAlphabetic 'é' = true →
        identityKey toLowerCaseAscii { name := some "José".toList } ≠
          some (specNameKey isAlphabetic (toLowerCaseAscii "José".toList))) ∧
      identityKey toLowerCaseAscii { name := some "Unit 7 Clinic".toList } =
        some "unitclinic".toList ∧
      identityKey toLowerCaseAscii { name := some "李明".toList } = some [] ∧
      groupedProviders toLowerCaseAscii [{ name := some "李明".toList, source := some web }] =
        some [] := by
  refine ⟨by decide, by decide, ?_, by decide, by decide, by decide⟩
  intro isAlphabetic h hkey
  have hmem : 'é' ∈ specNameKey isAlphabetic (toLowerCaseAscii "José".toList) := by
    unfold specNameKey
    rw [List.mem_filter]
    exact ⟨by decide, h⟩
  have hjos : identityKey toLowerCaseAscii { name := some "José".toList } = some "jos".toList := by
    decide
  rw [hjos, Option.some.injEq] at hkey
  rw [← hkey] at hmem
  revert hmem
  decide

/-! ## Conflict detection -/

theorem fieldValues_value (f : FieldName) (ps : List Provider) :
    (fieldValues f ps).map (fun v => v.value) = (memberValues f ps).map some := by
  induction ps with
  | nil => rfl
  | cons p ps ih =>
    unfold fieldValues memberValues at ih ⊢
    simp only [List.map_cons, List.filter_cons, List.filterMap_cons]
    cases h : p.get f with
    | none => simpa [truthy] using ih
    | some v =>
      cases h' : trim v with
      | nil => simpa [truthy, h'] using ih
      | cons c cs => simpa [truthy, h'] using ih

theorem uniqueValues_eq (toLowerCase : JsString → JsString) (f : FieldName)
    (ps : List Provider) :
    uniqueValues toLowerCase f ps =
      jsSet ((memberValues f ps).map (fun v => some (toLowerCase v))) := by
  unfold uniqueValues
  have h : (fieldValues f ps).map (fun v => v.value.map toLowerCase) =
      ((fieldValues f ps).map (fun v => v.value)).map (Option.map toLowerCase) := by
    simp [List.map_map]
  rw [h, fieldValues_value, List.map_map]
  rfl

theorem conflict_iff (toLowerCase : JsString → JsString) (f : FieldName)
    (ps : List Provider) :
    1 < (uniqueValues toLowerCase f ps).length ↔
      ∃ v ∈ memberValues f ps, ∃ w ∈ memberValues f ps, toLowerCase v ≠ toLowerCase w := by
  rw [uniqueValues_eq, one_lt_length_jsSet]
  simp only [List.mem_map]
  constructor
  · rintro ⟨a, ⟨v, hv, rfl⟩, b, ⟨w, hw, rfl⟩, hne⟩
    exact ⟨v, hv, w, hw, fun e => hne (by rw [e])⟩
  · rintro ⟨v, hv, w, hw, hne⟩
    exact ⟨_, ⟨v, hv, rfl⟩, _, ⟨w, hw, rfl⟩, fun e => hne (Option.some.inj e)⟩

theorem compareField_field (toLowerCase : JsString → JsString) (base : Provider)
    (ps : List Provider) (f : FieldName) : (compareField toLowerCase base ps f).field = f := by
  unfold compareField
  split <;> rfl

theorem mem_inconsistentFields (toLowerCase : JsString → JsString) (base : Provider)
    (others : List Provider) (inc : InconsistentField) :
    inc ∈ (checkGroup toLowerCase base others).inconsistentFields ↔
      inc.field ∈ fieldsToCompare ∧
        1 < (uniqueValues toLowerCase inc.field (base :: others)).length ∧
        inc.values = (base :: others).map (fun p =>
          { source := p.source, value := jsOr (p.get inc.field) (some emptyMarker) }) ∧
        inc.correctedValue = resolveFieldValue inc.field (base :: others) := by
  simp only [checkGroup, List.mem_filterMap, List.mem_map]
  constructor
  · rintro ⟨d, ⟨f, hf, rfl⟩, hd⟩
    unfold compareField at hd
    split at hd
    · rename_i h
      simp only [Option.some.injEq] at hd
      subst hd
      exact ⟨hf, h, rfl, rfl⟩
    · simp at hd
  · rintro ⟨hf, h, hv, hc⟩
    refine ⟨_, ⟨inc.field, hf, rfl⟩, ?_⟩
    unfold compareField
    rw [if_pos h]
    simp only [Option.some.injEq]
    cases inc
    simp_all

/-- C6: a field is reported in `inconsistentFields` exactly when it is one of
the seven comparison fields and two of the members' trimmed non-empty values
for it differ after lowercasing. -/
theorem inconsistent_field_iff (toLowerCase : JsString → JsString) (base : Provider)
    (others : List Provider) (f : FieldName) :
    (∃ inc ∈ (checkGroup toLowerCase base others).inconsistentFields, inc.field = f) ↔
      (f = .phone ∨ f = .email ∨ f = .address ∨ f = .city ∨ f = .state ∨ f = .zip ∨
          f = .website) ∧
        ∃ v ∈ memberValues f (base :: others), ∃ w ∈ memberValues f (base :: others),
          toLowerCase v ≠ toLowerCase w := by
  have hf : f ∈ fieldsToCompare ↔
      (f = .phone ∨ f = .email ∨ f = .address ∨ f = .city ∨ f = .state ∨ f = .zip ∨
        f = .website) := by
    simp [fieldsToCompare]
  rw [← hf, ← conflict_iff]
  constructor
  · rintro ⟨inc, hinc, rfl⟩
    rw [mem_inconsistentFields] at hinc
    exact ⟨hinc.1, hinc.2.1⟩
  · rintro ⟨h₁, h₂⟩
    refine ⟨{ field := f,
              values := (base :: others).map (fun p =>
                { source := p.source, value := jsOr (p.get f) (some emptyMarker) }),
              correctedValue := resolveFieldValue f (base :: others) }, ?_, rfl⟩
    rw [mem_inconsistentFields]
    exact ⟨h₁, h₂, rfl, rfl⟩

theorem ne_nil_of_mem_memberValues (f : FieldName) (ps : List Provider) (v : JsString)
    (h : v ∈ memberValues f ps) : v ≠ [] := by
  unfold memberValues at h
  rw [List.mem_filterMap] at h
  obtain ⟨p, -, hp⟩ := h
  cases hg : p.get f with
  | none => simp [hg] at hp
  | some x =>
    simp only [hg] at hp
    split at hp
    · simp at hp
    · rename_i hx
      simp only [Option.some.injEq] at hp
      rw [← hp]
      exact hx

theorem truthy_some_iff (v : JsString) : truthy (some v) = true ↔ v ≠ [] := by
  cases v <;> simp [truthy]

theorem jsOr_some (v : JsString) (b : Option JsString) (h : v ≠ []) : jsOr (some v) b = some v := by
  unfold jsOr
  rw [if_pos ((truthy_some_iff v).mpr h)]

theorem cleanedProvider_get (toLowerCase : JsString → JsString) (base : Provider)
    (others : List Provider) (f : FieldName) (hf : f ∈ fieldsToCompare) :
    (checkGroup toLowerCase base others).cleanedProvider.toProvider.get f =
      jsOr (compareField toLowerCase base (base :: others) f).corrected (base.get f) := by
  simp only [fieldsToCompare, List.mem_cons, List.mem_singleton, List.not_mem_nil,
    or_false] at hf
  rcases hf with h | h | h | h | h | h | h <;> subst h <;>
    simp [checkGroup, fieldsToCompare, Provider.get, compareField_field]

theorem corrected_of_consistent (toLowerCase : JsString → JsString) (base : Provider)
    (ps : List Provider) (f : FieldName) (v : JsString) (rest : List JsString)
    (hc : ¬ 1 < (uniqueValues toLowerCase f ps).length)
    (hv : memberValues f ps = v :: rest) :
    (compareField toLowerCase base ps f).corrected = some v := by
  unfold compareField
  rw [if_neg hc]
  have h := fieldValues_value f ps
  rw [hv] at h
  have hne : v ≠ [] := ne_nil_of_mem_memberValues f ps v (by rw [hv]; exact List.mem_cons_self _ _)
  cases hfv : fieldValues f ps with
  | nil => rw [hfv] at h; simp at h
  | cons x xs =>
    rw [hfv] at h
    simp only [List.map_cons, List.cons.injEq] at h
    simp only [List.head?_cons, Option.some_bind, h.1]
    exact jsOr_some v _ hne

/-- C7 (amended): a comparison field whose trimmed non-empty member values
all lowercase to one value `u` is not reported as inconsistent, and the
cleaned record carries the first of those member values, which lowercases to
`u`; when all those member values are the same string `w`, it carries `w`. -/
theorem unanimity (toLowerCase : JsString → JsString) (base : Provider)
    (others : List Provider) (f : FieldName) (u : JsString)
    (hf : f ∈ fieldsToCompare) (hne : memberValues f (base :: others) ≠ [])
    (hu : ∀ v ∈ memberValues f (base :: others), toLowerCase v = u) :
    (∀ inc ∈ (checkGroup toLowerCase base others).inconsistentFields, inc.field ≠ f) ∧
      (∃ v, (memberValues f (base :: others)).head? = some v ∧
        (checkGroup toLowerCase base others).cleanedProvider.toProvider.get f = some v ∧
        toLowerCase v = u) ∧
      (∀ w, (∀ v ∈ memberValues f (base :: others), v = w) →
        (checkGroup toLowerCase base others).cleanedProvider.toProvider.get f = some w) := by
  have hc : ¬ 1 < (uniqueValues toLowerCase f (base :: others)).length := by
    rw [conflict_iff]
    rintro ⟨v, hv, w, hw, hvw⟩
    exact hvw ((hu v hv).trans (hu w hw).symm)
  obtain ⟨v, rest, hv⟩ := List.exists_cons_of_ne_nil hne
  have hvne : v ≠ [] :=
    ne_nil_of_mem_memberValues f _ v (by rw [hv]; exact List.mem_cons_self _ _)
  have hget : (checkGroup toLowerCase base others).cleanedProvider.toProvider.get f = some v := by
    rw [cleanedProvider_get toLowerCase base others f hf,
      corrected_of_consistent toLowerCase base _ f v rest hc hv]
    exact jsOr_some v _ hvne
  refine ⟨?_, ⟨v, by rw [hv]; rfl, hget, hu v (by rw [hv]; exact List.mem_cons_self _ _)⟩, ?_⟩
  · intro inc hinc hfield
    rw [mem_inconsistentFields] at hinc
    rw [hfield] at hinc
    exact hc hinc.2.1
  · intro w hw
    rw [hget, hw v (by rw [hv]; exact List.mem_cons_self _ _)]

/-- Witness of C7: the city of a group that spells it in two letter cases. -/
theorem unanimity_witness :
    (∀ inc ∈ (checkGroup toLowerCaseAscii caseWeb [caseMobile]).inconsistentFields,
        inc.field ≠ .city) ∧
      (∃ v, (memberValues .city [caseWeb, caseMobile]).head? = some v ∧
        (checkGroup toLowerCaseAscii caseWeb [caseMobile]).cleanedProvider.toProvider.get .city =
          some v ∧
        toLowerCaseAscii v = "springfield".toList) ∧
      (∀ w, (∀ v ∈ memberValues .city [caseWeb, caseMobile], v = w) →
        (checkGroup toLowerCaseAscii caseWeb [caseMobile]).cleanedProvider.toProvider.get .city =
          some w) :=
  unanimity toLowerCaseAscii caseWeb [caseMobile] .city "springfield".toList (by decide)
    (by decide) (by decide)

/-- Counterexample to C7 as stated: the two members' cities `Springfield` and
`SPRINGFIELD` both normalize to `springfield`, the field is not reported, and
the cleaned record carries `Springfield`, which is not the normalized value. -/
theorem unanimity_counterexample :
    (∀ v ∈ memberValues .city [caseWeb, caseMobile],
        toLowerCaseAscii v = "springfield".toList) ∧
      (∀ inc ∈ (checkGroup toLowerCaseAscii caseWeb [caseMobile]).inconsistentFields,
        inc.field ≠ .city) ∧
      (checkGroup toLowerCaseAscii caseWeb [caseMobile]).cleanedProvider.city =
        some "Springfield".toList ∧
      (checkGroup toLowerCaseAscii caseWeb [caseMobile]).cleanedProvider.city ≠
        some "springfield".toList := by
  decide

/-! ## Sorting by length -/

theorem head?_insertSorted {α : Type} (le : α → α → Bool) (a : α) (l : List α) :
    (insertSorted le a l).head? =
      match l.head? with
      | none => some a
      | some b => if le a b then some a else some b := by
  cases l with
  | nil => rfl
  | cons b bs =>
    simp only [insertSorted, List.head?_cons]
    split <;> rfl

theorem head?_sortByLength_cons (x : JsString) (xs : List JsString) :
    (sortByLength (x :: xs)).head? =
      match (sortByLength xs).head? with
      | none => some x
      | some m => if jsLength m ≤ jsLength x then some x else some m := by
  unfold sortByLength
  simp only [stableSort, head?_insertSorted]
  cases (stableSort (fun a b => decide (jsLength b ≤ jsLength a)) xs).head? with
  | none => rfl
  | some m => simp

theorem head?_sortByLength (vs : List JsString) (hne : vs ≠ []) :
    ∃ r, (sortByLength vs).head? = some r ∧ r ∈ vs ∧ (∀ v ∈ vs, jsLength v ≤ jsLength r) ∧
      ∀ v ∈ vs, jsLength v = jsLength r → firstIndex r vs ≤ firstIndex v vs := by
  induction vs with
  | nil => exact absurd rfl hne
  | cons x xs ih =>
    rw [head?_sortByLength_cons]
    by_cases hxs : xs = []
    · subst hxs
      refine ⟨x, by simp [sortByLength, stableSort], by simp, by simp, by simp [firstIndex]⟩
    · obtain ⟨m, hm, hmem, hmax, hfirst⟩ := ih hxs
      rw [hm]
      by_cases hle : jsLength m ≤ jsLength x
      · refine ⟨x, by simp [hle], by simp, ?_, ?_⟩
        · intro v hv
          rcases List.mem_cons.mp hv with h | h
          · rw [h]
          · exact le_trans (hmax v h) hle
        · intro v _ _
          simp [firstIndex]
      · refine ⟨m, by simp [hle], List.mem_cons_of_mem _ hmem, ?_, ?_⟩
        · intro v hv
          rcases List.mem_cons.mp hv with h | h
          · rw [h]; omega
          · exact hmax v h
        · intro v hv hlen
          have hmx : m ≠ x := fun e => hle (by rw [e])
          have hvx : v ≠ x := fun e => hle (by rw [← hlen, e])
          rcases List.mem_cons.mp hv with h | h
          · exact absurd h hvx
          · simp only [firstIndex, if_neg (Ne.symm hmx), if_neg (Ne.symm hvx)]
            exact Nat.succ_le_succ (hfirst v h hlen)

/-! ## Enumeration of an object -/

theorem mem_insertSorted {α : Type} (le : α → α → Bool) (a x : α) (l : List α) :
    x ∈ insertSorted le a l ↔ x = a ∨ x ∈ l := by
  induction l with
  | nil => simp [insertSorted]
  | cons b bs ih =>
    simp only [insertSorted]
    split
    · simp
    · simp only [List.mem_cons, ih]
      tauto

theorem mem_stableSort {α : Type} (le : α → α → Bool) (x : α) (l : List α) :
    x ∈ stableSort le l ↔ x ∈ l := by
  induction l with
  | nil => simp [stableSort]
  | cons a as ih => simp [stableSort, mem_insertSorted, ih]

theorem mem_objectEntries {α : Type} (obj : List (JsString × α)) (e : JsString × α) :
    e ∈ objectEntries obj ↔ e ∈ obj := by
  unfold objectEntries
  simp only [List.mem_append, mem_stableSort, List.mem_filter]
  cases h : arrayIndex e.1 <;> simp

/-! ## The tally of values -/

theorem count_snoc_le (seen : List JsString) (v k : JsString) :
    seen.count k ≤ (seen ++ [v]).count k := by
  rw [List.count_append]
  omega

theorem count_snoc_self (seen : List JsString) (v : JsString) :
    (seen ++ [v]).count v = seen.count v + 1 := by
  rw [List.count_append]
  simp

theorem count_snoc_ne (seen : List JsString) (v k : JsString) (h : v ≠ k) :
    (seen ++ [v]).count k = seen.count k := by
  rw [List.count_append]
  simp [List.count_cons, h]

theorem tallyStep_sound (acc : List (JsString × Option Nat)) (seen : List JsString)
    (v : JsString) (h : ∀ k n, (k, some n) ∈ acc → n ≤ seen.count k) :
    ∀ k n, (k, some n) ∈ tallyStep acc v → n ≤ (seen ++ [v]).count k := by
  intro k n hm
  have mono : ∀ k n, (k, some n) ∈ acc → n ≤ (seen ++ [v]).count k :=
    fun k n hk => le_trans (h k n hk) (count_snoc_le seen v k)
  unfold tallyStep at hm
  split at hm
  · rw [List.mem_map] at hm
    obtain ⟨e, he, heq⟩ := hm
    by_cases hev : e.1 = v
    · simp only [hev, beq_self_eq_true, if_true, Prod.mk.injEq] at heq
      obtain ⟨hk, hn⟩ := heq
      subst hk
      obtain ⟨key, c⟩ := e
      simp only at hev
      subst hev
      cases c with
      | none => simp at hn
      | some m =>
        simp only [Option.map_some', Option.some.injEq] at hn
        rw [count_snoc_self, ← hn]
        exact Nat.succ_le_succ (h _ m he)
    · have hb : (e.1 == v) = false := by simpa using hev
      simp only [hb, Bool.false_eq_true, if_false] at heq
      rw [heq] at he
      exact mono k n he
  · split at hm
    · exact mono k n hm
    · split at hm
      · rw [List.mem_append] at hm
        rcases hm with hm | hm
        · exact mono k n hm
        · simp at hm
      · rw [List.mem_append] at hm
        rcases hm with hm | hm
        · exact mono k n hm
        · simp only [List.mem_singleton, Prod.mk.injEq, Option.some.injEq] at hm
          rw [hm.1, hm.2, count_snoc_self]
          omega

theorem foldl_tallyStep_sound (vs : List JsString) :
    ∀ (acc : List (JsString × Option Nat)) (seen : List JsString),
      (∀ k n, (k, some n) ∈ acc → n ≤ seen.count k) →
      ∀ k n, (k, some n) ∈ vs.foldl tallyStep acc → n ≤ (seen ++ vs).count k := by
  induction vs with
  | nil =>
    intro acc seen h k n hm
    simpa using h k n hm
  | cons v vs ih =>
    intro acc seen h k n hm
    have := ih (tallyStep acc v) (seen ++ [v]) (tallyStep_sound acc seen v h) k n hm
    simpa using this

theorem tally_sound (vs : List JsString) (k : JsString) (n : Nat)
    (h : (k, some n) ∈ vs.foldl tallyStep []) : n ≤ vs.count k := by
  have := foldl_tallyStep_sound vs [] [] (by simp) k n h
  simpa using this

theorem tallyStep_complete (acc : List (JsString × Option Nat)) (seen : List JsString)
    (v : JsString)
    (h₁ : ∀ k, ownKey k → k ∈ seen → (k, some (seen.count k)) ∈ acc)
    (h₂ : ∀ e ∈ acc, e.1 ∈ seen) :
    (∀ k, ownKey k → k ∈ seen ++ [v] → (k, some ((seen ++ [v]).count k)) ∈ tallyStep acc v) ∧
      ∀ e ∈ tallyStep acc v, e.1 ∈ seen ++ [v] := by
  unfold tallyStep
  split
  · rename_i hany
    rw [List.any_eq_true] at hany
    obtain ⟨e₀, he₀, hv₀⟩ := hany
    have hv₀' : e₀.1 = v := by simpa using hv₀
    have hvseen : v ∈ seen := hv₀' ▸ h₂ e₀ he₀
    constructor
    · intro k hk hmem
      rw [List.mem_map]
      by_cases hkv : v = k
      · subst hkv
        refine ⟨(v, some (seen.count v)), h₁ v hk hvseen, ?_⟩
        simp [count_snoc_self]
      · have hks : k ∈ seen := by
          rcases List.mem_append.mp hmem with h | h
          · exact h
          · exact absurd (List.mem_singleton.mp h).symm hkv
        refine ⟨(k, some (seen.count k)), h₁ k hk hks, ?_⟩
        have : (k == v) = false := by simpa using fun e => hkv e.symm
        simp [this, count_snoc_ne seen v k hkv]
    · intro e he
      rw [List.mem_map] at he
      obtain ⟨e', he', heq⟩ := he
      by_cases hb : e'.1 = v
      · simp only [hb, beq_self_eq_true, if_true] at heq
        rw [← heq]
        simp
      · have : (e'.1 == v) = false := by simpa using hb
        simp only [this, Bool.false_eq_true, if_false] at heq
        rw [← heq]
        exact List.mem_append_left _ (h₂ e' he')
  · rename_i hany
    have hnew : ∀ e ∈ acc, e.1 ≠ v := by
      intro e he hev
      apply hany
      rw [List.any_eq_true]
      exact ⟨e, he, by simpa using hev⟩
    have hold : ∀ k, ownKey k → k ∈ seen ++ [v] → k ≠ v →
        (k, some ((seen ++ [v]).count k)) ∈ acc := by
      intro k hk hmem hkv
      have hks : k ∈ seen := by
        rcases List.mem_append.mp hmem with h | h
        · exact h
        · exact absurd (List.mem_singleton.mp h) hkv
      rw [count_snoc_ne seen v k (Ne.symm hkv)]
      exact h₁ k hk hks
    split
    · rename_i hp
      refine ⟨fun k hk hmem => hold k hk hmem (fun e => hk.1 (e.trans hp)),
        fun e he => List.mem_append_left _ (h₂ e he)⟩
    · split
      · rename_i hi
        constructor
        · intro k hk hmem
          exact List.mem_append_left _ (hold k hk hmem (fun e => hk.2 (e ▸ hi)))
        · intro e he
          rcases List.mem_append.mp he with h | h
          · exact List.mem_append_left _ (h₂ e h)
          · rw [List.mem_singleton.mp h]
            simp
      · constructor
        · intro k hk hmem
          by_cases hkv : k = v
          · subst hkv
            have hns : k ∉ seen := fun hs => hnew _ (h₁ k hk hs) rfl
            rw [count_snoc_self, List.count_eq_zero_of_not_mem hns]
            simp
          · exact List.mem_append_left _ (hold k hk hmem hkv)
        · intro e he
          rcases List.mem_append.mp he with h | h
          · exact List.mem_append_left _ (h₂ e h)
          · rw [List.mem_singleton.mp h]
            simp

theorem foldl_tallyStep_complete (vs : List JsString) :
    ∀ (acc : List (JsString × Option Nat)) (seen : List JsString),
      (∀ k, ownKey k → k ∈ seen → (k, some (seen.count k)) ∈ acc) →
      (∀ e ∈ acc, e.1 ∈ seen) →
      ∀ k, ownKey k → k ∈ seen ++ vs →
        (k, some ((seen ++ vs).count k)) ∈ vs.foldl tallyStep acc := by
  induction vs with
  | nil =>
    intro acc seen h₁ _ k hk hmem
    simpa using h₁ k hk (by simpa using hmem)
  | cons v vs ih =>
    intro acc seen h₁ h₂ k hk hmem
    obtain ⟨h₁', h₂'⟩ := tallyStep_complete acc seen v h₁ h₂
    have := ih (tallyStep acc v) (seen ++ [v]) h₁' h₂' k hk (by simpa using hmem)
    simpa using this

theorem tally_complete (vs : List JsString) (k : JsString) (hk : ownKey k) (hmem : k ∈ vs) :
    (k, some (vs.count k)) ∈ vs.foldl tallyStep [] := by
  have := foldl_tallyStep_complete vs [] [] (by simp) (by simp) k hk (by simpa using hmem)
  simpa using this

theorem length_of_not_ownKey (k : JsString) (h : ¬ ownKey k) : 5 < jsLength k := by
  unfold ownKey at h
  have h' : k = protoKey ∨ k ∈ inheritedKeys := by
    by_cases hp : k = protoKey
    · exact Or.inl hp
    · right
      by_contra hi
      exact h ⟨hp, hi⟩
  simp only [inheritedKeys, List.mem_cons, List.mem_singleton, List.not_mem_nil, or_false] at h'
  rcases h' with h | h | h | h | h | h | h | h | h | h | h | h <;> subst h <;> decide

/-! ## The values of the three sources -/

theorem sourceValues_length_le (f : FieldName) (ps : List Provider) :
    (sourceValues f ps).length ≤ 3 := by
  unfold sourceValues
  exact le_trans (List.length_filterMap_le _ _) (by simp)

theorem sourceValues_of_web (f : FieldName) (ps : List Provider) (w : JsString)
    (hw : sourceValue web f ps = some w) (hne : w ≠ []) :
    ∃ rest, sourceValues f ps = w :: rest := by
  unfold sourceValues
  simp [hw, (truthy_some_iff w).mpr hne, List.filterMap_cons]

theorem sourceValues_full (f : FieldName) (ps : List Provider)
    (h : (sourceValues f ps).length = 3) :
    ∃ a b c, sourceValue web f ps = some a ∧ sourceValues f ps = [a, b, c] := by
  unfold sourceValues at h ⊢
  have key : ∀ (x y z : Option JsString),
      ([x, y, z].filterMap (fun v => if truthy v then v else none)).length = 3 →
      ∃ a b c, x = some a ∧
        [x, y, z].filterMap (fun v => if truthy v then v else none) = [a, b, c] := by
    intro x y z hl
    rcases x with _ | (_ | ⟨c₁, s₁⟩) <;> rcases y with _ | (_ | ⟨c₂, s₂⟩) <;>
      rcases z with _ | (_ | ⟨c₃, s₃⟩) <;>
      simp [truthy, List.filterMap_cons] at hl ⊢
  exact key _ _ _ h

theorem count_add_count_le (l : List JsString) (u v : JsString) (h : u ≠ v) :
    l.count u + l.count v ≤ l.length := by
  induction l with
  | nil => simp
  | cons x xs ih =>
    simp only [List.count_cons, List.length_cons, beq_iff_eq]
    by_cases h₁ : x = u
    · have h₂ : x ≠ v := fun e => h (h₁.symm.trans e)
      simp only [h₁, if_true]
      rw [if_neg (h₁ ▸ h₂)]
      omega
    · rw [if_neg h₁]
      split <;> omega

theorem shortcut_off (f : FieldName) (ps : List Provider)
    (hs : ∀ w, sourceValue web f ps = some w → jsLength w ≤ 5) :
    (truthy (sourceValue web f ps) &&
      decide (5 < jsLength ((sourceValue web f ps).getD []))) = false := by
  cases h : sourceValue web f ps with
  | none => simp [truthy]
  | some w =>
    have := hs w h
    simp only [Option.getD_some, Bool.and_eq_false_imp, decide_eq_false_iff_not]
    intro _
    omega

theorem resolve_shortcut (f : FieldName) (ps : List Provider) (w : JsString)
    (hw : sourceValue web f ps = some w) (hlen : 5 < jsLength w) :
    resolveFieldValue f ps = some w := by
  have hne : w ≠ [] := by
    rintro rfl
    simp [jsLength] at hlen
  obtain ⟨rest, hvs⟩ := sourceValues_of_web f ps w hw hne
  unfold resolveFieldValue
  simp only [hvs, hw, List.length_cons, Nat.add_one_ne_zero, if_false, List.head?_cons,
    Option.getD_some, (truthy_some_iff w).mpr hne, Bool.true_and, decide_eq_true_eq, hlen,
    if_true]
  split <;> rfl

theorem resolve_all_same (f : FieldName) (ps : List Provider) (v : JsString)
    (hv : v ∈ sourceValues f ps) (h₁ : (jsSet (sourceValues f ps)).length = 1) :
    resolveFieldValue f ps = some v := by
  have hlenne : (sourceValues f ps).length ≠ 0 := by
    intro h
    rw [List.length_eq_zero] at h
    rw [h] at hv
    simp at hv
  have hsame : ∀ a ∈ sourceValues f ps, ∀ b ∈ sourceValues f ps, a = b := by
    intro a ha b hb
    by_contra hab
    have := (one_lt_length_jsSet (sourceValues f ps)).mpr ⟨a, ha, b, hb, hab⟩
    omega
  unfold resolveFieldValue
  simp only [hlenne, if_false, h₁, if_true]
  cases hvs : sourceValues f ps with
  | nil => rw [hvs] at hv; simp at hv
  | cons x xs =>
    rw [hvs] at hv hsame
    simp only [List.head?_cons, Option.some.injEq]
    exact hsame x (List.mem_cons_self _ _) v hv

theorem resolve_by_rules (f : FieldName) (ps : List Provider)
    (hs : ∀ w, sourceValue web f ps = some w → jsLength w ≤ 5)
    (hne : sourceValues f ps ≠ []) (h₁ : (jsSet (sourceValues f ps)).length ≠ 1) :
    resolveFieldValue f ps =
      match (objectEntries ((sourceValues f ps).foldl tallyStep [])).find?
          (fun e => atLeastTwo e.2) with
      | some majority => some majority.1
      | none => (sortByLength (sourceValues f ps)).head? := by
  have hlenne : (sourceValues f ps).length ≠ 0 := by
    intro h
    exact hne (List.length_eq_zero.mp h)
  unfold resolveFieldValue
  simp only [hlenne, if_false, h₁, shortcut_off f ps hs, Bool.false_eq_true]

theorem resolve_majority (f : FieldName) (ps : List Provider) (v : JsString)
    (hs : ∀ w, sourceValue web f ps = some w → jsLength w ≤ 5)
    (hm : 2 ≤ (sourceValues f ps).count v) :
    resolveFieldValue f ps = some v := by
  have hlen := sourceValues_length_le f ps
  have hv : v ∈ sourceValues f ps := List.count_pos_iff.mp (by omega)
  have hne : sourceValues f ps ≠ [] := List.ne_nil_of_mem hv
  by_cases h₁ : (jsSet (sourceValues f ps)).length = 1
  · exact resolve_all_same f ps v hv h₁
  · rw [resolve_by_rules f ps hs hne h₁]
    have huniq : ∀ k, 2 ≤ (sourceValues f ps).count k → k = v := by
      intro k hk
      by_contra hkv
      have := count_add_count_le (sourceValues f ps) k v hkv
      omega
    split
    · rename_i majority hfind
      have hp := List.find?_some hfind
      have hmem := (mem_objectEntries _ _).mp (List.mem_of_find?_eq_some hfind)
      obtain ⟨k, c⟩ := majority
      cases c with
      | none => simp [atLeastTwo] at hp
      | some n =>
        simp only [atLeastTwo, decide_eq_true_eq] at hp
        have := tally_sound _ k n hmem
        simp only [Option.some.injEq]
        exact huniq k (le_trans hp this)
    · rename_i hfind
      rw [List.find?_eq_none] at hfind
      have hown : ¬ ownKey v := by
        intro hown
        have hmem := (mem_objectEntries _ _).mpr (tally_complete _ v hown hv)
        have := hfind _ hmem
        simp [atLeastTwo, hm] at this
      have hvlen := length_of_not_ownKey v hown
      have hpos := length_jsSet_pos _ hne
      obtain ⟨a, ha, b, hb, hab⟩ :=
        (one_lt_length_jsSet (sourceValues f ps)).mp (by omega)
      have hother : ∃ u ∈ sourceValues f ps, u ≠ v := by
        by_cases hav : a = v
        · exact ⟨b, hb, fun e => hab (hav.trans e.symm)⟩
        · exact ⟨a, ha, hav⟩
      obtain ⟨u, hu, huv⟩ := hother
      have hcu : 1 ≤ (sourceValues f ps).count u := List.count_pos_iff.mpr hu
      have hsum := count_add_count_le (sourceValues f ps) u v huv
      obtain ⟨x, y, z, hweb, hvs⟩ := sourceValues_full f ps (by omega)
      have hx := hs x hweb
      obtain ⟨r, hr, hrmem, hmax, -⟩ := head?_sortByLength (sourceValues f ps) hne
      rw [hr]
      have hrlen := hmax v hv
      rw [hvs] at hm hrmem
      have hxv : x ≠ v := fun e => by rw [e] at hx; omega
      have hxr : x ≠ r := fun e => by rw [e] at hx; omega
      simp only [List.count_cons, List.count_nil, beq_iff_eq, if_neg hxv] at hm
      have hy : y = v := by
        by_contra hy
        rw [if_neg hy] at hm
        split at hm <;> omega
      have hz : z = v := by
        by_contra hz
        rw [if_neg hz] at hm
        split at hm <;> omega
      simp only [List.mem_cons, List.mem_singleton, List.not_mem_nil, or_false] at hrmem
      rcases hrmem with h | h | h
      · exact absurd h.symm hxr
      · rw [h, hy]
      · rw [h, hz]

theorem resolve_longest (f : FieldName) (ps : List Provider)
    (hs : ∀ w, sourceValue web f ps = some w → jsLength w ≤ 5)
    (hm : ∀ v, (sourceValues f ps).count v < 2) (hne : sourceValues f ps ≠ []) :
    ∃ r, resolveFieldValue f ps = some r ∧ r ∈ sourceValues f ps ∧
      (∀ v ∈ sourceValues f ps, jsLength v ≤ jsLength r) ∧
      ∀ v ∈ sourceValues f ps, jsLength v = jsLength r →
        firstIndex r (sourceValues f ps) ≤ firstIndex v (sourceValues f ps) := by
  by_cases h₁ : (jsSet (sourceValues f ps)).length = 1
  · obtain ⟨x, xs, hvs⟩ := List.exists_cons_of_ne_nil hne
    have hx : x ∈ sourceValues f ps := by rw [hvs]; exact List.mem_cons_self _ _
    have hsame : ∀ a ∈ sourceValues f ps, a = x := by
      intro a ha
      by_contra hab
      have := (one_lt_length_jsSet (sourceValues f ps)).mpr ⟨a, ha, x, hx, hab⟩
      omega
    refine ⟨x, resolve_all_same f ps x hx h₁, hx, ?_, ?_⟩
    · intro v hv
      rw [hsame v hv]
    · intro v _ _
      rw [hvs]
      simp [firstIndex]
  · rw [resolve_by_rules f ps hs hne h₁]
    have hnone : (objectEntries ((sourceValues f ps).foldl tallyStep [])).find?
        (fun e => atLeastTwo e.2) = none := by
      rw [List.find?_eq_none]
      intro e he
      have hmem := (mem_objectEntries _ _).mp he
      obtain ⟨k, c⟩ := e
      cases c with
      | none => simp [atLeastTwo]
      | some n =>
        have := tally_sound _ k n hmem
        have := hm k
        simp only [atLeastTwo, decide_eq_true_eq]
        omega
    rw [hnone]
    exact head?_sortByLength _ hne

/-! ## The reconciliation policy -/

/-- C8 (amended): for every field reported as inconsistent, when the first
web-sourced member of the group has a trimmed value longer than 5 UTF-16
code units, the corrected value is that value, whatever the other sources
say; in scenario D the corrected email is `a@longmail.com`. -/
theorem web_shortcut (toLowerCase : JsString → JsString) (base : Provider)
    (others : List Provider) (inc : InconsistentField) (w : JsString)
    (hinc : inc ∈ (checkGroup toLowerCase base others).inconsistentFields)
    (hw : sourceValue web inc.field (base :: others) = some w) (hlen : 5 < jsLength w) :
    inc.correctedValue = some w ∧
      ∃ d ∈ (checkGroup toLowerCaseAscii scenarioWeb [scenarioMobile, scenarioPrint]).inconsistentFields,
        d.field = .email ∧ d.correctedValue = some "a@longmail.com".toList := by
  constructor
  · rw [((mem_inconsistentFields toLowerCase base others inc).mp hinc).2.2.2]
    exact resolve_shortcut inc.field (base :: others) w hw hlen
  · decide

/-- Witness of C8: the phone of the scenario group, whose web value has 12
characters. -/
theorem web_shortcut_witness :
    ∃ d ∈ (checkGroup toLowerCaseAscii scenarioWeb [scenarioMobile, scenarioPrint]).inconsistentFields,
      d.field = .phone ∧
        sourceValue web d.field [scenarioWeb, scenarioMobile, scenarioPrint] =
          some "555-111-2222".toList ∧
        d.correctedValue = some "555-111-2222".toList :=
  ⟨⟨.phone,
      [⟨some web, some "555-111-2222".toList⟩, ⟨some mobile, some "555-999-9999".toList⟩,
        ⟨some print, some "555-111-2222".toList⟩],
      some "555-111-2222".toList⟩,
    by decide, rfl, by decide,
    (web_shortcut toLowerCaseAscii scenarioWeb [scenarioMobile, scenarioPrint]
      ⟨.phone,
        [⟨some web, some "555-111-2222".toList⟩, ⟨some mobile, some "555-999-9999".toList⟩,
          ⟨some print, some "555-111-2222".toList⟩],
        some "555-111-2222".toList⟩
      "555-111-2222".toList (by decide) (by decide) (by decide)).1⟩

/-- Counterexample to C8 as stated: the group holds two web records, the
first without a phone and the second with `555-111-2222`, and a mobile record
with `555-999-9999`; the phone is inconsistent and the corrected value is the
mobile one, which no web record carries. -/
theorem web_shortcut_counterexample :
    webPhone ∈ [webNoPhone, webPhone, mobilePhone] ∧ webPhone.source = some web ∧
      webPhone.phone = some "555-111-2222".toList ∧ 5 < jsLength "555-111-2222".toList ∧
      (∃ d ∈ (checkGroup toLowerCaseAscii webNoPhone [webPhone, mobilePhone]).inconsistentFields,
        d.field = .phone ∧ d.correctedValue = some "555-999-9999".toList) ∧
      ∀ p ∈ [webNoPhone, webPhone, mobilePhone], p.source = some web →
        p.phone ≠ some "555-999-9999".toList := by
  decide

/-- C9 (amended): for every field reported as inconsistent to which the
shortcut does not apply (the first web member's trimmed value is missing or
at most 5 long), when a value `v` occurs at least twice among the trimmed
values of the first web, first mobile and first print member, the corrected
value is `v`, which is the most frequent of those values, and the earliest in
the order web, mobile, print among equally frequent ones; in scenario C the
corrected phone is `555-111-2222`. -/
theorem majority_rule (toLowerCase : JsString → JsString) (base : Provider)
    (others : List Provider) (inc : InconsistentField) (v : JsString)
    (hinc : inc ∈ (checkGroup toLowerCase base others).inconsistentFields)
    (hs : ∀ w, sourceValue web inc.field (base :: others) = some w → jsLength w ≤ 5)
    (hm : 2 ≤ (sourceValues inc.field (base :: others)).count v) :
    inc.correctedValue = some v ∧
      (∀ u ∈ sourceValues inc.field (base :: others),
        (sourceValues inc.field (base :: others)).count u ≤
          (sourceValues inc.field (base :: others)).count v) ∧
      (∀ u ∈ sourceValues inc.field (base :: others),
        (sourceValues inc.field (base :: others)).count u =
            (sourceValues inc.field (base :: others)).count v →
          firstIndex v (sourceValues inc.field (base :: others)) ≤
            firstIndex u (sourceValues inc.field (base :: others))) ∧
      ∃ d ∈ (checkGroup toLowerCaseAscii scenarioWeb [scenarioMobile, scenarioPrint]).inconsistentFields,
        d.field = .phone ∧ d.correctedValue = some "555-111-2222".toList := by
  have hlen := sourceValues_length_le inc.field (base :: others)
  have hother : ∀ u, u ≠ v → (sourceValues inc.field (base :: others)).count u < 2 := by
    intro u huv
    have := count_add_count_le (sourceValues inc.field (base :: others)) u v huv
    omega
  refine ⟨?_, ?_, ?_, by decide⟩
  · rw [((mem_inconsistentFields toLowerCase base others inc).mp hinc).2.2.2]
    exact resolve_majority inc.field (base :: others) v hs hm
  · intro u _
    by_cases huv : u = v
    · rw [huv]
    · have := hother u huv
      omega
  · intro u _ hcount
    by_cases huv : u = v
    · rw [huv]
    · have := hother u huv
      omega

/-- Witness of C9: web zip `1234` against mobile and print zip `98765`. -/
theorem majority_rule_witness :
    ∃ d ∈ (checkGroup toLowerCaseAscii webZip [mobileZip, printZip]).inconsistentFields,
      d.field = .zip ∧
        sourceValues d.field [webZip, mobileZip, printZip] =
          ["1234".toList, "98765".toList, "98765".toList] ∧
        d.correctedValue = some "98765".toList :=
  ⟨⟨.zip,
      [⟨some web, some "1234".toList⟩, ⟨some mobile, some "98765".toList⟩,
        ⟨some print, some "98765".toList⟩],
      some "98765".toList⟩,
    by decide, rfl, by decide,
    (majority_rule toLowerCaseAscii webZip [mobileZip, printZip]
      ⟨.zip,
        [⟨some web, some "1234".toList⟩, ⟨some mobile, some "98765".toList⟩,
          ⟨some print, some "98765".toList⟩],
        some "98765".toList⟩
      "98765".toList (by decide)
      (by
        intro w hw
        have h : sourceValue web .zip [webZip, mobileZip, printZip] = some "1234".toList := by
          decide
        rw [h] at hw
        cases hw
        decide)
      (by decide)).1⟩

/-- Counterexample to C9 as stated: no web record, two mobile records with
`555-999-9999` and `555-1111` and a print record with `555-1111`; the value
`555-1111` is carried by two sources and is the most frequent one, and the
corrected value is `555-999-9999`. -/
theorem majority_rule_counterexample :
    (∀ p ∈ [mobilePhone, mobileShort, printShort], p.source ≠ some web) ∧
      mobileShort.phone = some "555-1111".toList ∧ mobileShort.source = some mobile ∧
      printShort.phone = some "555-1111".toList ∧ printShort.source = some print ∧
      (∀ u ∈ memberValues .phone [mobilePhone, mobileShort, printShort],
        (memberValues .phone [mobilePhone, mobileShort, printShort]).count u ≤
          (memberValues .phone [mobilePhone, mobileShort, printShort]).count
            "555-1111".toList) ∧
      ∃ d ∈ (checkGroup toLowerCaseAscii mobilePhone [mobileShort, printShort]).inconsistentFields,
        d.field = .phone ∧ d.correctedValue = some "555-999-9999".toList ∧
          d.correctedValue ≠ some "555-1111".toList := by
  decide

/-- C10 (amended): for every field reported as inconsistent to which neither
the shortcut applies (the first web member's trimmed value is missing or at
most 5 long) nor the majority rule (no value occurs twice among the trimmed
values of the first web, first mobile and first print member), and for which
one of those three members has a value, the corrected value is the longest of
those values (in UTF-16 code units), and the earliest in the order web,
mobile, print among the longest. -/
theorem longest_value_rule (toLowerCase : JsString → JsString) (base : Provider)
    (others : List Provider) (inc : InconsistentField)
    (hinc : inc ∈ (checkGroup toLowerCase base others).inconsistentFields)
    (hs : ∀ w, sourceValue web inc.field (base :: others) = some w → jsLength w ≤ 5)
    (hm : ∀ v, (sourceValues inc.field (base :: others)).count v < 2)
    (hne : sourceValues inc.field (base :: others) ≠ []) :
    ∃ r, inc.correctedValue = some r ∧ r ∈ sourceValues inc.field (base :: others) ∧
      (∀ v ∈ sourceValues inc.field (base :: others), jsLength v ≤ jsLength r) ∧
      ∀ v ∈ sourceValues inc.field (base :: others), jsLength v = jsLength r →
        firstIndex r (sourceValues inc.field (base :: others)) ≤
          firstIndex v (sourceValues inc.field (base :: others)) := by
  rw [((mem_inconsistentFields toLowerCase base others inc).mp hinc).2.2.2]
  exact resolve_longest inc.field (base :: others) hs hm hne

/-- Witness of C10: web zip `1234`, mobile zip `98765`, print zip
`98765-4321`. -/
theorem longest_value_rule_witness :
    ∃ r, (⟨.zip,
          [⟨some web, some "1234".toList⟩, ⟨some mobile, some "98765".toList⟩,
            ⟨some print, some "98765-4321".toList⟩],
          some "98765-4321".toList⟩ : InconsistentField).correctedValue = some r ∧
      r ∈ sourceValues .zip [webZip, mobileZip, printZipLong] ∧
      (∀ v ∈ sourceValues .zip [webZip, mobileZip, printZipLong], jsLength v ≤ jsLength r) ∧
      ∀ v ∈ sourceValues .zip [webZip, mobileZip, printZipLong], jsLength v = jsLength r →
        firstIndex r (sourceValues .zip [webZip, mobileZip, printZipLong]) ≤
          firstIndex v (sourceValues .zip [webZip, mobileZip, printZipLong]) :=
  longest_value_rule toLowerCaseAscii webZip [mobileZip, printZipLong]
    ⟨.zip,
      [⟨some web, some "1234".toList⟩, ⟨some mobile, some "98765".toList⟩,
        ⟨some print, some "98765-4321".toList⟩],
      some "98765-4321".toList⟩
    (by decide)
    (by
      intro w hw
      have h : sourceValue web .zip [webZip, mobileZip, printZipLong] = some "1234".toList := by
        decide
      rw [h] at hw
      cases hw
      decide)
    (by
      intro v
      have h : sourceValues .zip [webZip, mobileZip, printZipLong] =
          ["1234".toList, "98765".toList, "98765-4321".toList] := by decide
      rw [h]
      simp only [List.count_cons, List.count_nil, beq_iff_eq]
      by_cases h₁ : "1234".toList = v
      · subst h₁
        decide
      · by_cases h₂ : "98765".toList = v
        · subst h₂
          decide
        · simp only [h₁, h₂, if_false]
          split <;> omega)
    (by decide)

/-- Counterexample to C10 as stated: no web record, two mobile records with
`555` and `555-999-9999` and a print record with `555-1`; the three values
differ, the longest is `555-999-9999`, and the corrected value is `555-1`. -/
theorem longest_value_rule_counterexample :
    (∀ p ∈ [mobileTiny, mobilePhone, printTiny], p.source ≠ some web) ∧
      (∀ u ∈ memberValues .phone [mobileTiny, mobilePhone, printTiny],
        (memberValues .phone [mobileTiny, mobilePhone, printTiny]).count u < 2) ∧
      (∃ d ∈ (checkGroup toLowerCaseAscii mobileTiny [mobilePhone, printTiny]).inconsistentFields,
        d.field = .phone ∧ d.correctedValue = some "555-1".toList) ∧
      "555-999-9999".toList ∈ memberValues .phone [mobileTiny, mobilePhone, printTiny] ∧
      jsLength "555-1".toList < jsLength "555-999-9999".toList := by
  decide

/-! ## Grouping -/

theorem jsSet_snoc {α : Type} [DecidableEq α] (l : List α) (x : α) :
    jsSet (l ++ [x]) = if x ∈ l then jsSet l else jsSet l ++ [x] := by
  induction l with
  | nil => simp [jsSet]
  | cons a l ih =>
    rw [List.cons_append]
    simp only [jsSet]
    rw [ih]
    by_cases hx : x ∈ l
    · simp [hx]
    · simp only [hx, if_false, List.filter_append, List.mem_cons]
      by_cases hxa : x = a
      · subst hxa
        simp
      · simp [hxa]

theorem groupStep_ok (toLowerCase : JsString → JsString) (acc acc' : List (JsString × List Provider))
    (p : Provider) (h : GroupsOk toLowerCase acc) (hs : groupStep toLowerCase acc p = some acc') :
    GroupsOk toLowerCase acc' := by
  unfold groupStep at hs
  simp only at hs
  split at hs
  · simp only [Option.some.injEq] at hs
    rw [← hs]
    exact h
  · rename_i htr
    have hkey : identityKey toLowerCase p = some ((identityKey toLowerCase p).getD []) := by
      cases hk : identityKey toLowerCase p with
      | none => simp [hk, truthy] at htr
      | some k => rfl
    split at hs
    · simp only [Option.some.injEq] at hs
      rw [← hs]
      intro e he
      rw [List.mem_map] at he
      obtain ⟨e₀, he₀, heq⟩ := he
      by_cases hb : e₀.1 = (identityKey toLowerCase p).getD []
      · simp only [hb, beq_self_eq_true, if_true] at heq
        rw [← heq]
        refine ⟨by simp, ?_⟩
        intro q hq
        rcases List.mem_append.mp hq with hq | hq
        · rw [← hb]
          exact (h e₀ he₀).2 q hq
        · rw [List.mem_singleton.mp hq]
          exact hkey
      · have : (e₀.1 == (identityKey toLowerCase p).getD []) = false := by simpa using hb
        simp only [this, Bool.false_eq_true, if_false] at heq
        rw [← heq]
        exact h e₀ he₀
    · split at hs
      · simp at hs
      · simp only [Option.some.injEq] at hs
        rw [← hs]
        intro e he
        rcases List.mem_append.mp he with he | he
        · exact h e he
        · rw [List.mem_singleton.mp he]
          refine ⟨by simp, ?_⟩
          intro q hq
          rw [List.mem_singleton.mp hq]
          exact hkey

theorem groupFrom_ok (toLowerCase : JsString → JsString) (ps : List Provider) :
    ∀ (acc groups : List (JsString × List Provider)), GroupsOk toLowerCase acc →
      groupFrom toLowerCase acc ps = some groups → GroupsOk toLowerCase groups := by
  induction ps with
  | nil =>
    intro acc groups h hg
    simp only [groupFrom, Option.some.injEq] at hg
    rw [← hg]
    exact h
  | cons p ps ih =>
    intro acc groups h hg
    simp only [groupFrom] at hg
    cases hs : groupStep toLowerCase acc p with
    | none => simp [hs] at hg
    | some acc' =>
      simp only [hs] at hg
      exact ih acc' groups (groupStep_ok toLowerCase acc acc' p h hs) hg

theorem groupedProviders_ok (toLowerCase : JsString → JsString) (ps : List Provider)
    (groups : List (JsString × List Provider))
    (h : groupedProviders toLowerCase ps = some groups) : GroupsOk toLowerCase groups :=
  groupFrom_ok toLowerCase ps [] groups (by intro e he; simp at he) h

theorem truthy_iff (v : Option JsString) :
    truthy v = true ↔ ∃ k, v = some k ∧ k ≠ [] := by
  cases v with
  | none => simp [truthy]
  | some k => cases k <;> simp [truthy]

theorem mem_groupKeys (toLowerCase : JsString → JsString) (ps : List Provider) (k : JsString) :
    k ∈ groupKeys toLowerCase ps ↔ k ≠ [] ∧ ∃ p ∈ ps, identityKey toLowerCase p = some k := by
  unfold groupKeys
  rw [mem_jsSet, List.mem_filterMap]
  constructor
  · rintro ⟨p, hp, hk⟩
    split at hk
    · rename_i ht
      obtain ⟨k', hk', hne⟩ := (truthy_iff _).mp ht
      rw [hk'] at hk
      simp only [Option.some.injEq] at hk
      subst hk
      exact ⟨hne, p, hp, hk'⟩
    · simp at hk
  · rintro ⟨hne, p, hp, hk⟩
    refine ⟨p, hp, ?_⟩
    rw [if_pos ((truthy_iff _).mpr ⟨k, hk, hne⟩)]
    exact hk

theorem groupKeys_snoc_falsy (toLowerCase : JsString → JsString) (pre : List Provider)
    (p : Provider) (h : truthy (identityKey toLowerCase p) = false) :
    groupKeys toLowerCase (pre ++ [p]) = groupKeys toLowerCase pre := by
  unfold groupKeys
  rw [List.filterMap_append]
  simp [List.filterMap_cons, h]

theorem groupKeys_snoc_truthy (toLowerCase : JsString → JsString) (pre : List Provider)
    (p : Provider) (k : JsString) (hk : identityKey toLowerCase p = some k) (hne : k ≠ []) :
    groupKeys toLowerCase (pre ++ [p]) =
      if k ∈ groupKeys toLowerCase pre then groupKeys toLowerCase pre
      else groupKeys toLowerCase pre ++ [k] := by
  have ht : truthy (some k) = true := (truthy_iff _).mpr ⟨k, rfl, hne⟩
  by_cases hmem : k ∈ groupKeys toLowerCase pre
  · rw [if_pos hmem]
    unfold groupKeys at hmem ⊢
    rw [List.filterMap_append]
    simp only [List.filterMap_cons, hk, ht, if_true, List.filterMap_nil]
    rw [jsSet_snoc, if_pos ((mem_jsSet _ _).mp hmem)]
  · rw [if_neg hmem]
    unfold groupKeys at hmem ⊢
    rw [List.filterMap_append]
    simp only [List.filterMap_cons, hk, ht, if_true, List.filterMap_nil]
    rw [jsSet_snoc, if_neg (fun h => hmem ((mem_jsSet _ _).mpr h))]

theorem any_key_keyGroups (toLowerCase : JsString → JsString) (pre : List Provider)
    (k : JsString) :
    (keyGroups toLowerCase pre).any (fun e => e.1 == k) = decide (k ∈ groupKeys toLowerCase pre) := by
  rw [Bool.eq_iff_iff, List.any_eq_true]
  simp only [decide_eq_true_eq, beq_iff_eq]
  constructor
  · rintro ⟨e, he, rfl⟩
    unfold keyGroups at he
    rw [List.mem_map] at he
    obtain ⟨k', hk', rfl⟩ := he
    exact hk'
  · intro h
    exact ⟨(k, pre.filter (fun p => decide (identityKey toLowerCase p = some k))),
      List.mem_map.mpr ⟨k, h, rfl⟩, rfl⟩

theorem groupStep_keyGroups (toLowerCase : JsString → JsString) (pre : List Provider)
    (p : Provider)
    (hown : ∀ k, identityKey toLowerCase p = some k → k ≠ [] → ownKey k) :
    groupStep toLowerCase (keyGroups toLowerCase pre) p =
      some (keyGroups toLowerCase (pre ++ [p])) := by
  unfold groupStep
  simp only
  by_cases ht : truthy (identityKey toLowerCase p) = true
  · obtain ⟨k, hk, hne⟩ := (truthy_iff _).mp ht
    have hsnoc := groupKeys_snoc_truthy toLowerCase pre p k hk hne
    have ht' : truthy (some k) = true := (truthy_iff _).mpr ⟨k, rfl, hne⟩
    simp only [hk, ht', Bool.not_true, Bool.false_eq_true, if_false, Option.getD_some,
      any_key_keyGroups, decide_eq_true_eq]
    by_cases hmem : k ∈ groupKeys toLowerCase pre
    · rw [if_pos hmem] at hsnoc
      rw [if_pos hmem]
      simp only [keyGroups, hsnoc, List.map_map, Option.some.injEq]
      apply List.map_congr_left
      intro k' _
      simp only [Function.comp, List.filter_append, List.filter_cons, List.filter_nil, hk,
        Option.some.injEq, beq_iff_eq]
      by_cases hkk : k' = k
      · simp [hkk]
      · have : ¬ (k = k') := fun e => hkk e.symm
        simp [hkk, this]
    · rw [if_neg hmem] at hsnoc
      rw [if_neg hmem]
      have hok := hown k hk hne
      have hnot : ¬ (k = protoKey ∨ k ∈ inheritedKeys) := by
        rintro (h | h)
        · exact hok.1 h
        · exact hok.2 h
      rw [if_neg hnot]
      simp only [keyGroups, hsnoc, List.map_append, List.map_cons, List.map_nil,
        Option.some.injEq]
      congr 1
      · apply List.map_congr_left
        intro k' hk'
        have hkk : ¬ (k = k') := fun e => hmem (e ▸ hk')
        simp [List.filter_append, List.filter_cons, hk, hkk]
      · have hnone : pre.filter (fun q => decide (identityKey toLowerCase q = some k)) = [] := by
          rw [List.filter_eq_nil_iff]
          intro q hq hqk
          simp only [decide_eq_true_eq] at hqk
          exact hmem ((mem_groupKeys toLowerCase pre _).mpr ⟨hne, q, hq, hqk⟩)
        simp [List.filter_append, hnone, hk]
  · have hfalse : truthy (identityKey toLowerCase p) = false := by simpa using ht
    simp only [hfalse, Bool.not_false, if_true, Option.some.injEq]
    simp only [keyGroups, groupKeys_snoc_falsy toLowerCase pre p hfalse]
    apply List.map_congr_left
    intro k' hk'
    have hk'ne := ((mem_groupKeys toLowerCase pre k').mp hk').1
    have : ¬ (identityKey toLowerCase p = some k') := by
      intro e
      exact ht ((truthy_iff _).mpr ⟨k', e, hk'ne⟩)
    simp [List.filter_append, List.filter_cons, this]

theorem groupFrom_keyGroups (toLowerCase : JsString → JsString) (rest : List Provider) :
    ∀ pre : List Provider,
      (∀ p ∈ rest, ∀ k, identityKey toLowerCase p = some k → k ≠ [] → ownKey k) →
      groupFrom toLowerCase (keyGroups toLowerCase pre) rest =
        some (keyGroups toLowerCase (pre ++ rest)) := by
  induction rest with
  | nil =>
    intro pre _
    simp [groupFrom]
  | cons p rest ih =>
    intro pre hown
    simp only [groupFrom]
    rw [groupStep_keyGroups toLowerCase pre p (hown p (List.mem_cons_self _ _))]
    simp only
    rw [ih (pre ++ [p]) (fun q hq => hown q (List.mem_cons_of_mem _ hq))]
    simp

/-- Where no record has a key that `Object.prototype` defines, the grouping is
the one the specification describes: one group per non-empty key in order of
first occurrence, each holding the records of its key in input order. -/
theorem groupedProviders_eq_keyGroups (toLowerCase : JsString → JsString)
    (ps : List Provider)
    (hown : ∀ p ∈ ps, ∀ k, identityKey toLowerCase p = some k → k ≠ [] → ownKey k) :
    groupedProviders toLowerCase ps = some (keyGroups toLowerCase ps) := by
  have := groupFrom_keyGroups toLowerCase ps [] hown
  simpa [groupedProviders, keyGroups, groupKeys, jsSet] using this

/-! ## Eligibility and grouping -/

theorem spansTwoSources_iff (g : List Provider) :
    spansTwoSources g = true ↔
      ∃ p ∈ g, ∃ q ∈ g, truthy p.source = true ∧ truthy q.source = true ∧ p.source ≠ q.source := by
  unfold spansTwoSources
  simp only [List.any_eq_true, Bool.and_eq_true, decide_eq_true_eq]
  constructor
  · rintro ⟨p, hp, q, hq, ⟨h₁, h₂⟩, h₃⟩
    exact ⟨p, hp, q, hq, h₁, h₂, h₃⟩
  · rintro ⟨p, hp, q, hq, h₁, h₂, h₃⟩
    exact ⟨p, hp, q, hq, ⟨h₁, h₂⟩, h₃⟩

theorem groupSources_two (g : List Provider) :
    decide (1 < (groupSources g).length) = spansTwoSources g := by
  rw [Bool.eq_iff_iff, decide_eq_true_eq, spansTwoSources_iff]
  unfold groupSources
  rw [one_lt_length_jsSet]
  simp only [List.mem_filterMap]
  constructor
  · rintro ⟨a, ⟨p, hp, hpa⟩, b, ⟨q, hq, hqb⟩, hab⟩
    split at hpa
    · split at hqb
      · rename_i h₁ h₂
        refine ⟨p, hp, q, hq, h₁, h₂, ?_⟩
        rw [hpa, hqb]
        exact fun e => hab (Option.some.inj e)
      · simp at hqb
    · simp at hpa
  · rintro ⟨p, hp, q, hq, h₁, h₂, hne⟩
    obtain ⟨a, ha, -⟩ := (truthy_iff _).mp h₁
    obtain ⟨b, hb, -⟩ := (truthy_iff _).mp h₂
    refine ⟨a, ⟨p, hp, by rw [if_pos h₁]; exact ha⟩, b, ⟨q, hq, by rw [if_pos h₂]; exact hb⟩, ?_⟩
    intro e
    apply hne
    rw [ha, hb, e]

theorem multiSourceOf_map_providers (groups : List (JsString × List Provider)) :
    (multiSourceOf groups).map (fun m => m.providers) =
      (eligibleGroups groups).map (fun e => e.2) := by
  unfold multiSourceOf eligibleGroups
  rw [List.map_map]
  have : (fun e : JsString × List Provider => decide (1 < (groupSources e.2).length)) =
      fun e => spansTwoSources e.2 := by
    funext e
    exact groupSources_two e.2
  rw [this]
  rfl

theorem checkLoop_cleaned (toLowerCase : JsString → JsString) (ms : List MultiSourceProvider) :
    ∀ st : CheckState, (∀ m ∈ ms, m.providers ≠ []) →
      ∃ st', checkLoop toLowerCase ms st = some st' ∧
        st'.cleanedProviders.map some =
          st.cleanedProviders.map some ++ ms.map (fun m => cleanedOf toLowerCase m.providers) := by
  induction ms with
  | nil =>
    intro st _
    exact ⟨st, rfl, by simp⟩
  | cons m ms ih =>
    intro st hne
    cases hp : m.providers with
    | nil => exact absurd hp (hne m (List.mem_cons_self _ _))
    | cons base others =>
      simp only [checkLoop, hp]
      obtain ⟨st', hst', hcl⟩ := ih
        { inconsistencies :=
            if 0 < (checkGroup toLowerCase base others).inconsistentFields.length then
              st.inconsistencies ++
                [{ providerName := base.name,
                   npi := base.npi,
                   sources := (base :: others).map (fun p => p.source),
                   inconsistentFields := (checkGroup toLowerCase base others).inconsistentFields,
                   cleanedProvider := (checkGroup toLowerCase base others).cleanedProvider }]
            else st.inconsistencies,
          cleanedProviders :=
            st.cleanedProviders ++ [(checkGroup toLowerCase base others).cleanedProvider] }
        (fun m' hm' => hne m' (List.mem_cons_of_mem _ hm'))
      refine ⟨st', hst', ?_⟩
      rw [hcl]
      simp [cleanedOf, hp]

/-- C11: whenever the grouping yields groups, the check succeeds, counts in
`totalChecked` exactly the groups whose members carry at least two distinct
source labels, and produces the cleaned record of each of these groups and of
no other; a group is among them exactly when two of its members have
different non-empty sources. -/
theorem eligible_iff_two_sources (toLowerCase : JsString → JsString) (ps : List Provider)
    (groups : List (JsString × List Provider))
    (h : groupedProviders toLowerCase ps = some groups) :
    ∃ res, runConsistencyCheck toLowerCase ps = some res ∧
      res.totalChecked = (eligibleGroups groups).length ∧
      res.cleanedProviders.map some =
        (eligibleGroups groups).map (fun e => cleanedOf toLowerCase e.2) ∧
      ∀ e, e ∈ eligibleGroups groups ↔
        e ∈ objectEntries groups ∧
          ∃ p ∈ e.2, ∃ q ∈ e.2,
            truthy p.source = true ∧ truthy q.source = true ∧ p.source ≠ q.source := by
  have hok := groupedProviders_ok toLowerCase ps groups h
  have hprov := multiSourceOf_map_providers groups
  have hne : ∀ m ∈ multiSourceOf groups, m.providers ≠ [] := by
    intro m hm
    have hm' : m.providers ∈ (multiSourceOf groups).map (fun m => m.providers) :=
      List.mem_map.mpr ⟨m, hm, rfl⟩
    rw [hprov, List.mem_map] at hm'
    obtain ⟨e, he, heq⟩ := hm'
    unfold eligibleGroups at he
    rw [List.mem_filter, mem_objectEntries] at he
    rw [← heq]
    exact (hok e he.1).1
  obtain ⟨st', hst', hcl⟩ := checkLoop_cleaned toLowerCase (multiSourceOf groups) {} hne
  have hrun : runConsistencyCheck toLowerCase ps = some
      { totalChecked := (multiSourceOf groups).length,
        inconsistentCount := st'.inconsistencies.length,
        consistentCount := ((multiSourceOf groups).length : Int) - (st'.inconsistencies.length : Int),
        inconsistencies := st'.inconsistencies,
        cleanedProviders := st'.cleanedProviders } := by
    simp only [runConsistencyCheck, multiSourceProviders, h, Option.map_some', hst']
  refine ⟨_, hrun, ?_, ?_, ?_⟩
  · simp only
    rw [← List.length_map (multiSourceOf groups) (fun m => m.providers), hprov, List.length_map]
  · simp only
    rw [hcl]
    have : (multiSourceOf groups).map (fun m => cleanedOf toLowerCase m.providers) =
        ((multiSourceOf groups).map (fun m => m.providers)).map (cleanedOf toLowerCase) := by
      rw [List.map_map]
      rfl
    rw [this, hprov, List.map_map]
    rfl
  · intro e
    unfold eligibleGroups
    rw [List.mem_filter, spansTwoSources_iff]

/-- Witness of C11: the web and mobile records of one provider and a single
web record of another. -/
theorem eligible_iff_two_sources_witness :
    ∃ res, runConsistencyCheck toLowerCaseAscii [scenarioWeb, annWeb, scenarioMobile] = some res ∧
      res.totalChecked =
        (eligibleGroups [("1234567890".toList, [scenarioWeb, scenarioMobile]),
          ("annlee".toList, [annWeb])]).length ∧
      res.cleanedProviders.map some =
        (eligibleGroups [("1234567890".toList, [scenarioWeb, scenarioMobile]),
          ("annlee".toList, [annWeb])]).map (fun e => cleanedOf toLowerCaseAscii e.2) ∧
      ∀ e, e ∈ eligibleGroups [("1234567890".toList, [scenarioWeb, scenarioMobile]),
          ("annlee".toList, [annWeb])] ↔
        e ∈ objectEntries [("1234567890".toList, [scenarioWeb, scenarioMobile]),
          ("annlee".toList, [annWeb])] ∧
          ∃ p ∈ e.2, ∃ q ∈ e.2,
            truthy p.source = true ∧ truthy q.source = true ∧ p.source ≠ q.source :=
  eligible_iff_two_sources toLowerCaseAscii [scenarioWeb, annWeb, scenarioMobile]
    [("1234567890".toList, [scenarioWeb, scenarioMobile]), ("annlee".toList, [annWeb])]
    (by decide)

/-- C12 (defect): a record without identifier whose name is `Constructor` has
the non-empty key `constructor`, and the grouping of a list that holds it
throws instead of placing it in a group, because `acc["constructor"]` is the
inherited `Object` function; without the record the other records are
grouped. -/
theorem grouping_throws_on_inherited_key :
    identityKey toLowerCaseAscii constructorRecord = some "constructor".toList ∧
      groupedProviders toLowerCaseAscii [scenarioWeb, constructorRecord, scenarioMobile] = none ∧
      groupedProviders toLowerCaseAscii [scenarioWeb, scenarioMobile] =
        some [("1234567890".toList, [scenarioWeb, scenarioMobile])] := by
  decide

/-- C13 (amended): two records without identifier whose names differ after
normalization (lowercasing, then removing every character outside `a`-`z`)
are never members of one group. -/
theorem different_names_apart (toLowerCase : JsString → JsString) (ps : List Provider)
    (groups : List (JsString × List Provider)) (p q : Provider)
    (hg : groupedProviders toLowerCase ps = some groups)
    (hp : truthy (p.npi.map trim) = false) (hq : truthy (q.npi.map trim) = false)
    (hne : normalizedName toLowerCase p ≠ normalizedName toLowerCase q) :
    ∀ e ∈ groups, ¬ (p ∈ e.2 ∧ q ∈ e.2) := by
  intro e he hpq
  have hok := (groupedProviders_ok toLowerCase ps groups hg e he).2
  have h₁ := hok p hpq.1
  have h₂ := hok q hpq.2
  unfold identityKey jsOr at h₁ h₂
  simp only [hp, hq, Bool.false_eq_true, if_false] at h₁ h₂
  exact hne (h₁.trans h₂.symm)

/-- Witness of C13: records named `Ann Lee` and `Bo Chen`, both without
identifier. -/
theorem different_names_apart_witness :
    groupedProviders toLowerCaseAscii [annWeb, boMobile] =
        some [("annlee".toList, [annWeb]), ("bochen".toList, [boMobile])] ∧
      ∀ e ∈ [("annlee".toList, [annWeb]), ("bochen".toList, [boMobile])],
        ¬ (annWeb ∈ e.2 ∧ boMobile ∈ e.2) :=
  ⟨by decide,
    different_names_apart toLowerCaseAscii [annWeb, boMobile]
      [("annlee".toList, [annWeb]), ("bochen".toList, [boMobile])] annWeb boMobile
      (by decide) (by decide) (by decide) (by decide)⟩

/-- Counterexample to C13 as stated: the names `Ann Lee` and `ANN LEE` are
different strings, neither record has an identifier, and both records are
members of the group with key `annlee`. -/
theorem different_names_apart_counterexample :
    annWeb.npi = none ∧ annMobile.npi = none ∧ annWeb.name ≠ annMobile.name ∧
      groupedProviders toLowerCaseAscii [annWeb, annMobile] =
        some [("annlee".toList, [annWeb, annMobile])] := by
  decide

/-! ## The cleaned record and the recorded decisions -/

theorem tallyStep_keys (acc : List (JsString × Option Nat)) (seen : List JsString) (v : JsString)
    (h : ∀ e ∈ acc, e.1 ∈ seen) : ∀ e ∈ tallyStep acc v, e.1 ∈ seen ++ [v] := by
  intro e he
  unfold tallyStep at he
  split at he
  · rw [List.mem_map] at he
    obtain ⟨e', he', heq⟩ := he
    by_cases hb : e'.1 = v
    · simp only [hb, beq_self_eq_true, if_true] at heq
      rw [← heq]
      simp
    · have : (e'.1 == v) = false := by simpa using hb
      simp only [this, Bool.false_eq_true, if_false] at heq
      rw [← heq]
      exact List.mem_append_left _ (h e' he')
  · split at he
    · exact List.mem_append_left _ (h e he)
    · split at he
      · rcases List.mem_append.mp he with h' | h'
        · exact List.mem_append_left _ (h e h')
        · rw [List.mem_singleton.mp h']
          simp
      · rcases List.mem_append.mp he with h' | h'
        · exact List.mem_append_left _ (h e h')
        · rw [List.mem_singleton.mp h']
          simp

theorem foldl_tallyStep_keys (vs : List JsString) :
    ∀ (acc : List (JsString × Option Nat)) (seen : List JsString),
      (∀ e ∈ acc, e.1 ∈ seen) → ∀ e ∈ vs.foldl tallyStep acc, e.1 ∈ seen ++ vs := by
  induction vs with
  | nil =>
    intro acc seen h e he
    simpa using h e he
  | cons v vs ih =>
    intro acc seen h e he
    have := ih (tallyStep acc v) (seen ++ [v]) (tallyStep_keys acc seen v h) e he
    simpa using this

theorem mem_sourceValues_ne_nil (f : FieldName) (ps : List Provider) (v : JsString)
    (h : v ∈ sourceValues f ps) : v ≠ [] := by
  unfold sourceValues at h
  rw [List.mem_filterMap] at h
  obtain ⟨x, -, hx⟩ := h
  split at hx
  · rename_i ht
    obtain ⟨k, hk, hne⟩ := (truthy_iff _).mp ht
    rw [hk] at hx
    simp only [Option.some.injEq] at hx
    rw [← hx]
    exact hne
  · simp at hx

theorem resolveFieldValue_mem (f : FieldName) (ps : List Provider) (v : JsString)
    (h : resolveFieldValue f ps = some v) : v ∈ sourceValues f ps := by
  unfold resolveFieldValue at h
  simp only at h
  split at h
  · simp at h
  · split at h
    · exact List.mem_of_mem_head? h
    · split at h
      · rename_i hw
        simp only [Bool.and_eq_true, decide_eq_true_eq] at hw
        obtain ⟨w, hweb, hne⟩ := (truthy_iff _).mp hw.1
        obtain ⟨rest, hvs⟩ := sourceValues_of_web f ps w hweb hne
        rw [hweb] at h
        simp only [Option.some.injEq] at h
        rw [hvs, ← h]
        exact List.mem_cons_self _ _
      · split at h
        · rename_i majority hfind
          have hmem := (mem_objectEntries _ _).mp (List.mem_of_find?_eq_some hfind)
          have := foldl_tallyStep_keys (sourceValues f ps) [] [] (by simp) majority hmem
          simp only [Option.some.injEq] at h
          rw [← h]
          simpa using this
        · have := List.mem_of_mem_head? h
          unfold sortByLength at this
          exact (mem_stableSort _ _ _).mp this

theorem jsOr_jsOr (a b : Option JsString) : jsOr (jsOr a b) b = jsOr a b := by
  unfold jsOr
  by_cases ha : truthy a = true
  · simp [ha]
  · simp [ha]

theorem correctedFields_get (toLowerCase : JsString → JsString) (base : Provider)
    (ps : List Provider) (f : FieldName) (hf : f ∈ fieldsToCompare) :
    ((fieldsToCompare.map (compareField toLowerCase base ps)).find?
        (fun d => decide (d.field = f))).bind (fun d => d.corrected) =
      (compareField toLowerCase base ps f).corrected := by
  simp only [fieldsToCompare, List.mem_cons, List.mem_singleton, List.not_mem_nil,
    or_false] at hf
  rcases hf with h | h | h | h | h | h | h <;> subst h <;>
    simp [fieldsToCompare, compareField_field]

theorem head?_memberValues (f : FieldName) (ps : List Provider) :
    (fieldValues f ps).head?.bind (fun v => v.value) = (memberValues f ps).head? := by
  have h := fieldValues_value f ps
  cases hfv : fieldValues f ps with
  | nil =>
    rw [hfv] at h
    cases hmv : memberValues f ps with
    | nil => rfl
    | cons v vs => rw [hmv] at h; simp at h
  | cons x xs =>
    rw [hfv] at h
    cases hmv : memberValues f ps with
    | nil => rw [hmv] at h; simp at h
    | cons v vs =>
      rw [hmv] at h
      simp only [List.map_cons, List.cons.injEq] at h
      simp [h.1]

theorem not_reported_iff (toLowerCase : JsString → JsString) (base : Provider)
    (others : List Provider) (f : FieldName) (hf : f ∈ fieldsToCompare) :
    (∀ inc ∈ (checkGroup toLowerCase base others).inconsistentFields, inc.field ≠ f) ↔
      ¬ 1 < (uniqueValues toLowerCase f (base :: others)).length := by
  constructor
  · intro h hlt
    refine h { field := f,
               values := (base :: others).map (fun p =>
                 { source := p.source, value := jsOr (p.get f) (some emptyMarker) }),
               correctedValue := resolveFieldValue f (base :: others) } ?_ rfl
    rw [mem_inconsistentFields]
    exact ⟨hf, hlt, rfl, rfl⟩
  · intro h inc hinc hfield
    rw [mem_inconsistentFields, hfield] at hinc
    exact h hinc.2.1

theorem corrected_of_reported (toLowerCase : JsString → JsString) (base : Provider)
    (ps : List Provider) (f : FieldName)
    (h : 1 < (uniqueValues toLowerCase f ps).length) :
    (compareField toLowerCase base ps f).corrected = resolveFieldValue f ps := by
  unfold compareField
  rw [if_pos h]

theorem corrected_of_not_reported (toLowerCase : JsString → JsString) (base : Provider)
    (ps : List Provider) (f : FieldName)
    (h : ¬ 1 < (uniqueValues toLowerCase f ps).length) :
    (compareField toLowerCase base ps f).corrected =
      jsOr (memberValues f ps).head? (base.get f) := by
  unfold compareField
  rw [if_neg h, head?_memberValues]

/-- C14 (amended): the cleaned record takes identifier, name, specialty,
organization, license number and license state from the first member; a
comparison field that is not reported as inconsistent carries the first
trimmed non-empty member value, or the first member's own value when no
member has one; a field reported as inconsistent carries the recorded
corrected value when that is not null, and the first member's own value when
it is null. -/
theorem cleaned_record (toLowerCase : JsString → JsString) (base : Provider)
    (others : List Provider) :
    (checkGroup toLowerCase base others).cleanedProvider.npi = base.npi ∧
      (checkGroup toLowerCase base others).cleanedProvider.name = base.name ∧
      (checkGroup toLowerCase base others).cleanedProvider.specialty = base.specialty ∧
      (checkGroup toLowerCase base others).cleanedProvider.organization = base.organization ∧
      (checkGroup toLowerCase base others).cleanedProvider.license_number = base.license_number ∧
      (checkGroup toLowerCase base others).cleanedProvider.license_state = base.license_state ∧
      ∀ f ∈ fieldsToCompare,
        ((∀ inc ∈ (checkGroup toLowerCase base others).inconsistentFields, inc.field ≠ f) →
          (checkGroup toLowerCase base others).cleanedProvider.toProvider.get f =
            match (memberValues f (base :: others)).head? with
            | some v => some v
            | none => base.get f) ∧
        ∀ inc ∈ (checkGroup toLowerCase base others).inconsistentFields, inc.field = f →
          (checkGroup toLowerCase base others).cleanedProvider.toProvider.get f =
            match inc.correctedValue with
            | some v => some v
            | none => base.get f := by
  refine ⟨rfl, rfl, rfl, rfl, rfl, rfl, ?_⟩
  intro f hf
  rw [cleanedProvider_get toLowerCase base others f hf]
  constructor
  · intro hnot
    have hc := (not_reported_iff toLowerCase base others f hf).mp hnot
    rw [corrected_of_not_reported toLowerCase base _ f hc, jsOr_jsOr]
    cases hmv : memberValues f (base :: others) with
    | nil => simp [jsOr, truthy]
    | cons v vs =>
      have hne : v ≠ [] :=
        ne_nil_of_mem_memberValues f _ v (by rw [hmv]; exact List.mem_cons_self _ _)
      simp only [List.head?_cons]
      exact jsOr_some v _ hne
  · intro inc hinc hfield
    have hmem := (mem_inconsistentFields toLowerCase base others inc).mp hinc
    rw [hfield] at hmem
    rw [corrected_of_reported toLowerCase base _ f hmem.2.1, hmem.2.2.2]
    cases hr : resolveFieldValue f (base :: others) with
    | none => simp [jsOr, truthy]
    | some v =>
      have hne := mem_sourceValues_ne_nil f _ v (resolveFieldValue_mem f _ v hr)
      simp only
      exact jsOr_some v _ hne

/-- Counterexample to C14 as stated: in a group of two web and two mobile
records whose first web and first mobile record have an empty phone, the
phone is inconsistent, the recorded corrected value is null, and the cleaned
record carries the first member's empty string. -/
theorem cleaned_record_counterexample :
    ∃ inc ∈ (checkGroup toLowerCaseAscii webBlank [webPhone, mobileBlank, mobilePhone]).inconsistentFields,
      inc.field = .phone ∧ inc.correctedValue = none ∧
        (checkGroup toLowerCaseAscii webBlank [webPhone, mobileBlank, mobilePhone]).cleanedProvider.phone =
          some [] ∧
        (checkGroup toLowerCaseAscii webBlank [webPhone, mobileBlank, mobilePhone]).cleanedProvider.phone ≠
          inc.correctedValue := by
  decide

/-- C15 (amended): `corrected_fields` holds exactly the comparison fields that
are reported as inconsistent or whose value in the cleaned record differs
from the first member's original value. -/
theorem corrected_fields_iff (toLowerCase : JsString → JsString) (base : Provider)
    (others : List Provider) (f : FieldName) :
    f ∈ (checkGroup toLowerCase base others).cleanedProvider.corrected_fields ↔
      f ∈ fieldsToCompare ∧
        ((∃ inc ∈ (checkGroup toLowerCase base others).inconsistentFields, inc.field = f) ∨
          (checkGroup toLowerCase base others).cleanedProvider.toProvider.get f ≠ base.get f) := by
  have hkeys : (fieldsToCompare.map (compareField toLowerCase base (base :: others))).map
      (fun d => d.field) = fieldsToCompare := by
    rw [List.map_map]
    conv_rhs => rw [← List.map_id fieldsToCompare]
    apply List.map_congr_left
    intro a _
    exact compareField_field toLowerCase base _ a
  have hmem : f ∈ (checkGroup toLowerCase base others).cleanedProvider.corrected_fields ↔
      f ∈ fieldsToCompare ∧
        ((compareField toLowerCase base (base :: others) f).corrected ≠ base.get f ∨
          ∃ inc ∈ (checkGroup toLowerCase base others).inconsistentFields, inc.field = f) := by
    constructor
    · intro h
      simp only [checkGroup, List.mem_filter, hkeys, Bool.or_eq_true, decide_eq_true_eq,
        List.any_eq_true] at h
      obtain ⟨hf, h⟩ := h
      rw [correctedFields_get toLowerCase base _ f hf] at h
      refine ⟨hf, ?_⟩
      rcases h with h | ⟨inc, hinc, hfield⟩
      · exact Or.inl h
      · exact Or.inr ⟨inc, hinc, hfield⟩
    · rintro ⟨hf, h⟩
      simp only [checkGroup, List.mem_filter, hkeys, Bool.or_eq_true, decide_eq_true_eq,
        List.any_eq_true]
      rw [correctedFields_get toLowerCase base _ f hf]
      refine ⟨hf, ?_⟩
      rcases h with h | ⟨inc, hinc, hfield⟩
      · exact Or.inl h
      · exact Or.inr ⟨inc, hinc, hfield⟩
  rw [hmem]
  constructor
  · rintro ⟨hf, h⟩
    refine ⟨hf, ?_⟩
    by_cases hrep : ∃ inc ∈ (checkGroup toLowerCase base others).inconsistentFields, inc.field = f
    · exact Or.inl hrep
    · right
      rcases h with h | h
      · have hnot : ∀ inc ∈ (checkGroup toLowerCase base others).inconsistentFields,
            inc.field ≠ f := fun inc hinc hfield => hrep ⟨inc, hinc, hfield⟩
        have hc := (not_reported_iff toLowerCase base others f hf).mp hnot
        rw [cleanedProvider_get toLowerCase base others f hf]
        rw [corrected_of_not_reported toLowerCase base _ f hc] at h ⊢
        rw [jsOr_jsOr]
        exact h
      · exact absurd h hrep
  · rintro ⟨hf, h⟩
    refine ⟨hf, ?_⟩
    rcases h with h | h
    · exact Or.inr h
    · by_cases hrep : ∃ inc ∈ (checkGroup toLowerCase base others).inconsistentFields,
          inc.field = f
      · exact Or.inr hrep
      · left
        have hnot : ∀ inc ∈ (checkGroup toLowerCase base others).inconsistentFields,
            inc.field ≠ f := fun inc hinc hfield => hrep ⟨inc, hinc, hfield⟩
        have hc := (not_reported_iff toLowerCase base others f hf).mp hnot
        rw [cleanedProvider_get toLowerCase base others f hf] at h
        rw [corrected_of_not_reported toLowerCase base _ f hc] at h ⊢
        rw [jsOr_jsOr] at h
        exact h

/-- Counterexample to C15 as stated: in the scenario group the phone is
listed in `corrected_fields` although the cleaned record carries the first
member's own phone. -/
theorem corrected_fields_counterexample :
    FieldName.phone ∈
        (checkGroup toLowerCaseAscii scenarioWeb [scenarioMobile, scenarioPrint]).cleanedProvider.corrected_fields ∧
      (checkGroup toLowerCaseAscii scenarioWeb [scenarioMobile, scenarioPrint]).cleanedProvider.phone =
        scenarioWeb.phone := by
  decide

/-- C16: the decision recorded for an inconsistent field lists one entry per
group member, in member order, with the member's source and its value for the
field, or the placeholder `(empty)` when it has none, and its corrected value
is the value `resolveFieldValue` returns. -/
theorem decision_record (toLowerCase : JsString → JsString) (base : Provider)
    (others : List Provider) (inc : InconsistentField)
    (hinc : inc ∈ (checkGroup toLowerCase base others).inconsistentFields) :
    inc.values.length = (base :: others).length ∧
      inc.values =
        (base :: others).map (fun p => { source := p.source, value := shownValue p inc.field }) ∧
      inc.correctedValue = resolveFieldValue inc.field (base :: others) := by
  have h := (mem_inconsistentFields toLowerCase base others inc).mp hinc
  have hv : inc.values =
      (base :: others).map (fun p => { source := p.source, value := shownValue p inc.field }) := by
    rw [h.2.2.1]
    apply List.map_congr_left
    intro p _
    unfold shownValue jsOr
    cases hg : p.get inc.field with
    | none => simp [truthy]
    | some v => cases v <;> simp [truthy]
  refine ⟨?_, hv, h.2.2.2⟩
  rw [hv, List.length_map]

/-- Witness of C16: the email of the scenario group, which the print record
lacks. -/
theorem decision_record_witness :
    ∃ d ∈ (checkGroup toLowerCaseAscii scenarioWeb [scenarioMobile, scenarioPrint]).inconsistentFields,
      d.field = .email ∧
        d.values =
          [⟨some web, some "a@longmail.com".toList⟩, ⟨some mobile, some "b@y.co".toList⟩,
            ⟨some print, some "(empty)".toList⟩] ∧
        d.values =
          [scenarioWeb, scenarioMobile, scenarioPrint].map
            (fun p => { source := p.source, value := shownValue p d.field }) :=
  ⟨⟨.email,
      [⟨some web, some "a@longmail.com".toList⟩, ⟨some mobile, some "b@y.co".toList⟩,
        ⟨some print, some "(empty)".toList⟩],
      some "a@longmail.com".toList⟩,
    by decide, rfl, rfl,
    (decision_record toLowerCaseAscii scenarioWeb [scenarioMobile, scenarioPrint]
      ⟨.email,
        [⟨some web, some "a@longmail.com".toList⟩, ⟨some mobile, some "b@y.co".toList⟩,
          ⟨some print, some "(empty)".toList⟩],
        some "a@longmail.com".toList⟩
      (by decide)).2.1⟩

/-- C17: when the enrichment call throws, `validateProvider` still returns a
result; its suggestions are empty, and its validation results, score and
status are those obtained when the call returns nothing or returns a response
without adjustment or with adjustment 0, whatever else the response holds. -/
theorem enrichment_failure (p : Provider) (properties : List (JsString × JsString)) :
    (validateProvider p .failed).ai_suggestions = [] ∧
      validateProvider p .failed = validateProvider p .noResponse ∧
      (validateProvider p .failed).validation_results =
        (validateProvider p (.response ⟨properties, none⟩)).validation_results ∧
      (validateProvider p .failed).confidence_score =
        (validateProvider p (.response ⟨properties, none⟩)).confidence_score ∧
      (validateProvider p .failed).status =
        (validateProvider p (.response ⟨properties, none⟩)).status ∧
      (validateProvider p .failed).confidence_score =
        (validateProvider p (.response ⟨properties, some 0⟩)).confidence_score ∧
      (validateProvider p .failed).status =
        (validateProvider p (.response ⟨properties, some 0⟩)).status ∧
      (validateProvider p .failed).confidence_score = clamp (100 - totalDeduction p) 0 100 := by
  refine ⟨rfl, rfl, ?_, ?_, ?_, ?_, ?_, ?_⟩
  · rw [validateProvider_results, validateProvider_results]
  · rw [validateProvider_score, validateProvider_score]
    simp [enrichmentAdjustment]
  · rw [validateProvider_status, validateProvider_status]
    simp [enrichmentAdjustment]
  · rw [validateProvider_score, validateProvider_score]
    simp [enrichmentAdjustment]
  · rw [validateProvider_status, validateProvider_status]
    simp [enrichmentAdjustment]
  · rw [validateProvider_score]
    simp only [enrichmentAdjustment, add_zero]
    unfold clamp
    split_ifs <;> omega

/-! ## The batch run -/

theorem validateProvider_status_cases (p : Provider) (ai : Enrichment) :
    (validateProvider p ai).status = .validated ∨ (validateProvider p ai).status = .flagged := by
  rw [validateProvider_status]
  split
  · exact Or.inl rfl
  · exact Or.inr rfl

theorem uploadLoop_spec (source : JsString) (batchId : Nat) (ai : Nat → Enrichment)
    (createOk : Nat → Bool) (rows : List Row) :
    ∀ (i : Nat) (st : UploadState), (∀ j, j < rows.length → createOk (i + j) = true) →
      ∃ new : List StoredProvider,
        uploadLoop source batchId ai createOk i rows st =
          some
            { storage := st.storage ++ new,
              validatedCount := st.validatedCount +
                ((outcomesFrom ai i rows).filter (fun o => decide (o.status = .validated))).length,
              flaggedCount := st.flaggedCount +
                ((outcomesFrom ai i rows).filter (fun o => decide (o.status = .flagged))).length } ∧
          new.map (fun r => r.original_data) = rows ∧
          new.map (fun r => r.status) = (outcomesFrom ai i rows).map (fun o => o.status) ∧
          new.map (fun r => r.fields) = rows.map (fun row => createFields row source) := by
  induction rows with
  | nil =>
    intro i st _
    exact ⟨[], by simp [uploadLoop, outcomesFrom], rfl, rfl, rfl⟩
  | cons row rest ih =>
    intro i st hok
    have h0 : createOk i = true := by
      have := hok 0 (by simp)
      simpa using this
    have hrest : ∀ j, j < rest.length → createOk (i + 1 + j) = true := by
      intro j hj
      have := hok (j + 1) (by simp; omega)
      rw [show i + 1 + j = i + (j + 1) from by omega]
      exact this
    simp only [uploadLoop, h0, if_true]
    obtain ⟨new, hrun, hdata, hstatus, hfields⟩ := ih (i + 1)
      { storage := st.storage ++
          [createdRecord st.storage.length row source batchId
            (validateProvider (rowView row) (ai i))],
        validatedCount :=
          if (validateProvider (rowView row) (ai i)).status = .flagged then st.validatedCount
          else st.validatedCount + 1,
        flaggedCount :=
          if (validateProvider (rowView row) (ai i)).status = .flagged then st.flaggedCount + 1
          else st.flaggedCount } hrest
    refine ⟨createdRecord st.storage.length row source batchId
      (validateProvider (rowView row) (ai i)) :: new, ?_, ?_, ?_, ?_⟩
    · rw [hrun]
      simp only [outcomesFrom, List.filter_cons, List.append_assoc, List.singleton_append,
        Option.some.injEq, UploadState.mk.injEq, true_and]
      rcases validateProvider_status_cases (rowView row) (ai i) with h | h
      · simp [h]
        omega
      · simp [h]
        omega
    · simp [hdata, createdRecord]
    · simp [hstatus, outcomesFrom, createdRecord]
    · simp [hfields, createdRecord]

theorem uploadLoop_some (source : JsString) (batchId : Nat) (ai : Nat → Enrichment)
    (createOk : Nat → Bool) (rows : List Row) :
    ∀ (i : Nat) (st st' : UploadState),
      uploadLoop source batchId ai createOk i rows st = some st' →
      ∀ j, j < rows.length → createOk (i + j) = true := by
  induction rows with
  | nil =>
    intro i st st' _ j hj
    simp at hj
  | cons row rest ih =>
    intro i st st' h j hj
    simp only [uploadLoop] at h
    by_cases h0 : createOk i = true
    · rw [if_pos h0] at h
      cases j with
      | zero => simpa using h0
      | succ j =>
        have := ih (i + 1) _ st' h j (by simpa using hj)
        rw [show i + (j + 1) = i + 1 + j from by omega]
        exact this
    · rw [if_neg h0] at h
      simp at h

/-- A run completes only for a non-empty sequence of rows and a batch name,
and only when every `Provider.create` succeeds. -/
theorem completed_only_if (rows : List Row) (batchName source : JsString) (batchId : Nat)
    (ai : Nat → Enrichment) (createOk : Nat → Bool) (storage storage' : List StoredProvider)
    (summary : BatchSummary)
    (h : handleUploadAndValidate rows batchName source batchId ai createOk storage =
      .completed storage' summary) :
    rows ≠ [] ∧ batchName ≠ [] ∧ ∀ i, i < rows.length → createOk i = true := by
  unfold handleUploadAndValidate at h
  split at h
  · simp at h
  · rename_i hne
    have h₁ : rows ≠ [] := fun e => hne (Or.inl (by rw [e]; rfl))
    have h₂ : batchName ≠ [] := fun e => hne (Or.inr e)
    refine ⟨h₁, h₂, ?_⟩
    cases hl : uploadLoop source batchId ai createOk 0 rows { storage := storage } with
    | none => simp [hl] at h
    | some st =>
      intro i hi
      have := uploadLoop_some source batchId ai createOk rows 0 _ st hl i hi
      simpa using this

/-- C18: for a non-empty sequence of rows and a batch name, when every
`Provider.create` succeeds the run completes; it has appended exactly one
record per row to the storage, in input order, each with the status
`validateProvider` returned for its row; the flagged count is the number of
rows with status flagged, the validated count the number of rows with status
validated, and the two counts add up to the number of rows, which is the
reported total. -/
theorem batch_run (rows : List Row) (batchName source : JsString) (batchId : Nat)
    (ai : Nat → Enrichment) (createOk : Nat → Bool) (storage : List StoredProvider)
    (hrows : rows ≠ []) (hname : batchName ≠ [])
    (hok : ∀ i, i < rows.length → createOk i = true) :
    ∃ new summary,
      handleUploadAndValidate rows batchName source batchId ai createOk storage =
          .completed (storage ++ new) summary ∧
        new.length = rows.length ∧
        new.map (fun r => r.original_data) = rows ∧
        new.map (fun r => r.status) = (outcomesFrom ai 0 rows).map (fun o => o.status) ∧
        summary.flagged_count =
          ((outcomesFrom ai 0 rows).filter (fun o => decide (o.status = .flagged))).length ∧
        summary.validated_count =
          ((outcomesFrom ai 0 rows).filter (fun o => decide (o.status = .validated))).length ∧
        summary.validated_count + summary.flagged_count = rows.length ∧
        summary.total_records = rows.length := by
  obtain ⟨new, hrun, hdata, hstatus, -⟩ :=
    uploadLoop_spec source batchId ai createOk rows 0 { storage := storage }
      (fun j hj => by simpa using hok j hj)
  have hlen : new.length = rows.length := by
    rw [← hdata, List.length_map]
  have hlen' : (outcomesFrom ai 0 rows).length = rows.length := by
    have := congrArg List.length hstatus
    simp only [List.length_map] at this
    omega
  have hsplit : ∀ os : List ValidationOutcome,
      (∀ o ∈ os, o.status = .validated ∨ o.status = .flagged) →
      (os.filter (fun o => decide (o.status = .validated))).length +
        (os.filter (fun o => decide (o.status = .flagged))).length = os.length := by
    intro os
    induction os with
    | nil => intro _; rfl
    | cons o os ih =>
      intro h
      have ih' := ih (fun o' ho' => h o' (List.mem_cons_of_mem _ ho'))
      rcases h o (List.mem_cons_self _ _) with ho | ho
      · simp [List.filter_cons, ho]
        omega
      · simp [List.filter_cons, ho]
        omega
  have hall : ∀ rows' : List Row, ∀ i, ∀ o ∈ outcomesFrom ai i rows',
      o.status = .validated ∨ o.status = .flagged := by
    intro rows'
    induction rows' with
    | nil => intro i o ho; simp [outcomesFrom] at ho
    | cons row rest ih =>
      intro i o ho
      simp only [outcomesFrom, List.mem_cons] at ho
      rcases ho with ho | ho
      · rw [ho]
        exact validateProvider_status_cases _ _
      · exact ih (i + 1) o ho
  have hne : ¬ (rows.length = 0 ∨ batchName = []) := by
    rintro (h | h)
    · exact hrows (List.length_eq_zero.mp h)
    · exact hname h
  refine ⟨new,
    { total_records := rows.length,
      validated_count :=
        0 + ((outcomesFrom ai 0 rows).filter (fun o => decide (o.status = .validated))).length,
      flagged_count :=
        0 + ((outcomesFrom ai 0 rows).filter (fun o => decide (o.status = .flagged))).length },
    ?_, hlen, hdata, hstatus, ?_, ?_, ?_, ?_⟩
  · unfold handleUploadAndValidate
    rw [if_neg hne, hrun]
  · simp
  · simp
  · simp only [Nat.zero_add]
    rw [hsplit _ (hall rows 0), hlen']
  · rfl

/-- Witness of C18: the rows of scenarios A and B, uploaded as web records
while enrichment is unavailable. -/
theorem batch_run_witness :
    handleUploadAndValidate [rowA, rowB] "directory".toList web 1 (fun _ => .failed)
        (fun _ => true) [] =
      .completed
        [{ id := 0, fields := createFields rowA web, status := .validated,
            confidence_score := 100, validation_results := ruleTable (rowView rowA),
            ai_suggestions := [], original_data := rowA, batch_id := 1 },
          { id := 1, fields := createFields rowB web, status := .flagged,
            confidence_score := 55, validation_results := ruleTable (rowView rowB),
            ai_suggestions := [], original_data := rowB, batch_id := 1 }]
        { total_records := 2, validated_count := 1, flagged_count := 1 } ∧
      ∃ new summary,
        handleUploadAndValidate [rowA, rowB] "directory".toList web 1 (fun _ => .failed)
            (fun _ => true) [] = .completed ([] ++ new) summary ∧
          new.length = 2 ∧ summary.validated_count + summary.flagged_count = 2 :=
  ⟨by decide,
    (batch_run [rowA, rowB] "directory".toList web 1 (fun _ => .failed) (fun _ => true) []
      (by decide) (by decide) (fun _ _ => rfl)).imp fun _ h =>
        h.imp fun _ h' => ⟨h'.1, h'.2.1, h'.2.2.2.2.2.2.1⟩⟩

/-! ## The threshold and the review screen -/

/-- C19 (defect): with the threshold of the settings set to 50, the record
of scenario B has score 55, which is not below the threshold, and
`validateProvider` returns the status flagged: the status is decided
against the constant 70 for every record and every setting. -/
theorem threshold_not_applied :
    (setConfidenceThreshold defaultSettings 50).confidence_threshold = 50 ∧
      (validateProvider scenarioB .noResponse).confidence_score = 55 ∧
      ¬ (validateProvider scenarioB .noResponse).confidence_score <
          (setConfidenceThreshold defaultSettings 50).confidence_threshold ∧
      (validateProvider scenarioB .noResponse).status = .flagged ∧
      ∀ (_ : SystemSettings) (p : Provider) (ai : Enrichment),
        ((validateProvider p ai).status = .flagged ↔
          (validateProvider p ai).confidence_score < defaultSettings.confidence_threshold) := by
  refine ⟨rfl, by decide, by decide, by decide, ?_⟩
  intro _ p ai
  rw [validateProvider_score, validateProvider_status]
  simp only [defaultSettings]
  split_ifs <;> simp <;> omega

/-- C20 (defect): with two flagged records loaded, the reviewer moves to the
second and approves it; it is the last of the list, so it stays selected, also
after the list is refreshed. The buttons are still there: `Reject Record`
then stores the status rejected, and `Edit` followed by `Save Changes` stores
the status flagged of the copy taken at selection. -/
theorem approved_record_regresses :
    statusOf (reviewRun none none (openReview none flaggedPair) [.next, .approve]) 1 =
        some .approved ∧
      allAvailable none none (openReview none flaggedPair) [.next, .approve, .refresh, .reject] =
        true ∧
      statusOf (reviewRun none none (openReview none flaggedPair)
          [.next, .approve, .refresh, .reject]) 1 = some .rejected ∧
      allAvailable none none (openReview none flaggedPair)
          [.next, .approve, .refresh, .edit, .saveEdit] = true ∧
      statusOf (reviewRun none none (openReview none flaggedPair)
          [.next, .approve, .refresh, .edit, .saveEdit]) 1 = some .flagged ∧
      statusOf (reviewRun none none (openReview none flaggedPair) [.next, .approve, .reject]) 1 =
        some .rejected := by
  decide

/-! ## Saving an edit, stored values and the verdict shown -/

theorem statusOf_updateProvider (storage : List StoredProvider) (id : Nat)
    (change : StoredProvider → StoredProvider) (hid : ∀ r, (change r).id = r.id)
    (hex : ∃ r ∈ storage, r.id = id) :
    ∃ r ∈ storage, r.id = id ∧
      (((updateProvider storage id change).find? (fun r => decide (r.id = id))).map
        (fun r => r.status)) = some (change r).status := by
  induction storage with
  | nil =>
    obtain ⟨r, hr, _⟩ := hex
    cases hr
  | cons a rest ih =>
    by_cases ha : a.id = id
    · refine ⟨a, List.mem_cons_self _ _, ha, ?_⟩
      simp [updateProvider, ha, hid]
    · have hex' : ∃ r ∈ rest, r.id = id := by
        obtain ⟨r, hr, hrid⟩ := hex
        rcases List.mem_cons.mp hr with h | h
        · exact absurd (h ▸ hrid) ha
        · exact ⟨r, h, hrid⟩
      obtain ⟨r, hr, hrid, hst⟩ := ih hex'
      refine ⟨r, List.mem_cons_of_mem _ hr, hrid, ?_⟩
      simpa [updateProvider, ha] using hst

/-- C21 (defect): `Save Changes` stores the status of the copy `editedData`,
whatever the stored record's status is at that moment. With two flagged
records loaded, the reviewer moves to the second and approves it; it stays
selected after the refresh, with the copy taken while it was flagged. The
button `Use Suggestion` of its phone is offered; applying it and saving turns
the stored status from approved back to flagged. -/
theorem save_edit_overwrites_status :
    (∀ (initialProviderId : Option Nat) (user : Option JsString) (s : ReviewState)
        (sel e : StoredProvider),
        s.selectedProvider = some sel → s.editedData = some e →
        available s .saveEdit = true → (∃ r ∈ s.storage, r.id = sel.id) →
        statusOf (reviewStep initialProviderId user s .saveEdit) sel.id = some e.status) ∧
      suggestionOffered
          (reviewRun none none (openReview none flaggedWithSuggestion) [.next, .approve, .refresh])
          .phone = some "555-123-4567".toList ∧
      statusOf
          (applySuggestion
            (reviewRun none none (openReview none flaggedWithSuggestion)
              [.next, .approve, .refresh])
            .phone "555-123-4567".toList) 1 = some .approved ∧
      available
          (applySuggestion
            (reviewRun none none (openReview none flaggedWithSuggestion)
              [.next, .approve, .refresh])
            .phone "555-123-4567".toList) .saveEdit = true ∧
      statusOf
          (reviewStep none none
            (applySuggestion
              (reviewRun none none (openReview none flaggedWithSuggestion)
                [.next, .approve, .refresh])
              .phone "555-123-4567".toList) .saveEdit) 1 = some .flagged := by
  refine ⟨?_, by decide, by decide, by decide, by decide⟩
  intro initialProviderId user s sel e hsel he hav hex
  obtain ⟨r, _, _, hst⟩ := statusOf_updateProvider s.storage sel.id
    (fun r => { e with id := r.id }) (fun _ => rfl) hex
  simp only [reviewStep, hav, hsel, he, statusOf, Option.getD_some]
  simpa using hst

/-- C25 (defect): a row whose phone is under the header `Phone` is stored with
that phone, which matches the phone pattern, but `validateProvider` reads the
column `phone` only: the record is stored with the phone verdict invalid and
the score 85, where the same row with the header `phone` gets 100. -/
theorem alias_phone_judged_missing :
    (createFields rowAlias web).phone = some "555-123-4567".toList ∧
      phoneRegex.test (removeWhiteSpace "555-123-4567".toList) = true ∧
      (rowView rowAlias).phone = none ∧
      handleUploadAndValidate [rowAlias] "directory".toList web 1 (fun _ => .failed)
          (fun _ => true) [] =
        .completed
          [{ id := 0, fields := createFields rowAlias web, status := .validated,
             confidence_score := 85,
             validation_results :=
               { phone := some .invalid, email := some .notApplicable,
                 website := some .notApplicable, address := some .valid, zip := some .valid,
                 license := some .notApplicable, npi := none },
             ai_suggestions := [], original_data := rowAlias, batch_id := 1 }]
          { total_records := 1, validated_count := 1, flagged_count := 0 } ∧
      (validateProvider (rowView (("phone".toList, "555-123-4567".toList) :: rowAlias))
          .failed).confidence_score = 100 := by
  decide

/-- C27 (defect): `validateProvider` writes the license verdict under the key
`license`, and the form looks it up under `license_number`, a key the object
never has: the status of the License Number input is `undefined` for every
record, also for the stored record of a row with the license `AB1`, whose
verdict is invalid. -/
theorem license_verdict_not_shown :
    (∀ (p : Provider) (ai : Enrichment) (id : Nat) (row : Row) (source : JsString)
        (batchId : Nat),
        getFieldStatus (some (createdRecord id row source batchId (validateProvider p ai)))
          "license_number".toList = none) ∧
      handleUploadAndValidate [rowShortLicense] "directory".toList web 1 (fun _ => .failed)
          (fun _ => true) [] =
        .completed
          [createdRecord 0 rowShortLicense web 1
            (validateProvider (rowView rowShortLicense) .failed)]
          { total_records := 1, validated_count := 0, flagged_count := 1 } ∧
      (createdRecord 0 rowShortLicense web 1
          (validateProvider (rowView rowShortLicense) .failed)).fields.license_number =
        some "AB1".toList ∧
      (createdRecord 0 rowShortLicense web 1
          (validateProvider (rowView rowShortLicense) .failed)).validation_results.license =
        some .invalid ∧
      getFieldStatus
          (some (createdRecord 0 rowShortLicense web 1
            (validateProvider (rowView rowShortLicense) .failed)))
          "license".toList = some .invalid ∧
      getFieldStatus
          (some (createdRecord 0 rowShortLicense web 1
            (validateProvider (rowView rowShortLicense) .failed)))
          "license_number".toList = none := by
  refine ⟨?_, by decide, by decide, by decide, by decide, by decide⟩
  intro p ai id row source batchId
  simp only [getFieldStatus, Option.bind, ValidationResults.get]
  rw [if_neg (by decide), if_neg (by decide), if_neg (by decide), if_neg (by decide),
    if_neg (by decide), if_neg (by decide), if_neg (by decide)]

/-! ## Idempotence, the consistency score and the directory output -/

/-- C22: the results of a click on `Start Check` are a function of the loaded
records only. Whatever the page showed before, two runs on the same records
give identical `inconsistencies` and `cleanedProviders` (or both throw); a run
leaves the loaded records as they are, so a second run right after the first
gives the page of the first. -/
theorem reconciliation_idempotent (toLowerCase : JsString → JsString) (providers : List Provider)
    (before₁ before₂ : Option CheckResults) (checking₁ checking₂ : Bool) :
    (startCheck toLowerCase
          { providers := providers, checkResults := before₁, isChecking := checking₁ }).map
        (fun page => page.checkResults) =
      (startCheck toLowerCase
          { providers := providers, checkResults := before₂, isChecking := checking₂ }).map
        (fun page => page.checkResults) ∧
      (startCheck toLowerCase
          { providers := providers, checkResults := before₁, isChecking := checking₁ }).map
        (fun page => page.checkResults) =
        (runConsistencyCheck toLowerCase providers).map some ∧
      (∀ page, startCheck toLowerCase
          { providers := providers, checkResults := before₁, isChecking := checking₁ } =
          some page →
        page.providers = providers ∧ startCheck toLowerCase page = some page ∧
          ∀ first second, page.checkResults = some first →
            (startCheck toLowerCase page).bind (fun page => page.checkResults) = some second →
            second.inconsistencies = first.inconsistencies ∧
              second.cleanedProviders = first.cleanedProviders) := by
  have hmap : ∀ (b : Option CheckResults) (c : Bool),
      (startCheck toLowerCase { providers := providers, checkResults := b, isChecking := c }).map
          (fun page => page.checkResults) =
        (runConsistencyCheck toLowerCase providers).map some := by
    intro b c
    simp only [startCheck]
    cases runConsistencyCheck toLowerCase providers <;> rfl
  refine ⟨by rw [hmap, hmap], hmap _ _, ?_⟩
  intro page hpage
  simp only [startCheck] at hpage
  cases hrun : runConsistencyCheck toLowerCase providers with
  | none => simp [hrun] at hpage
  | some r =>
    simp only [hrun, Option.map_some', Option.some.injEq] at hpage
    subst hpage
    have hagain : startCheck toLowerCase
        { providers := providers, checkResults := some r, isChecking := false } =
        some { providers := providers, checkResults := some r, isChecking := false } := by
      simp [startCheck, hrun]
    refine ⟨rfl, hagain, ?_⟩
    intro first second hfirst hsecond
    rw [hagain] at hsecond
    simp only [Option.bind, Option.some.injEq] at hfirst hsecond
    rw [← hfirst, ← hsecond]
    exact ⟨rfl, rfl⟩

/-- C26 (defect): when no group is consistent the rounded quotient is 0, which
is falsy, and `|| 100` turns it into 100. The check of the three records of
the reconciliation scenario finds one group, inconsistent, and the page shows
the consistency score 100. -/
theorem consistency_score_zero_shown_as_100 :
    (∀ r : CheckResults, 0 < r.totalChecked → r.consistentCount = 0 → consistencyScore r = 100) ∧
      (runConsistencyCheck toLowerCaseAscii [scenarioWeb, scenarioMobile, scenarioPrint]).map
          (fun r => (r.totalChecked, r.inconsistentCount, r.consistentCount, consistencyScore r)) =
        some (1, 1, 0, 100) := by
  refine ⟨?_, by decide⟩
  intro r ht hc
  have h0 : roundedPercent 0 r.totalChecked = 0 := by
    have hq : nearestDouble 0 r.totalChecked = (0, 0) := by
      unfold nearestDouble
      rw [if_pos (Or.inl rfl)]
    unfold roundedPercent
    simp only [Int.natAbs_zero, hq]
    decide
  unfold consistencyScore
  rw [if_neg (by omega)]
  simp only [hc, h0]
  rfl

/-- Counterexample of C28: of 21 validated records, all clean, the table shows
the first 20 only; the last one is exported but not shown. -/
theorem directory_output_counterexample :
    cleanedProviders ((List.range 21).map validatedRecord) "all".toList =
        (List.range 21).map validatedRecord ∧
      (shownProviders ((List.range 21).map validatedRecord) "all".toList).length = 20 ∧
      validatedRecord 20 ∈ cleanedProviders ((List.range 21).map validatedRecord) "all".toList ∧
      validatedRecord 20 ∉ shownProviders ((List.range 21).map validatedRecord) "all".toList := by
  decide

/-- C28 (amended): the records `exportToCSV` writes are exactly the loaded
records whose status is approved or validated and, when the filter is not
`all`, whose source equals the filter, in their original order; none of them
is flagged, rejected or pending. The table shows the first 20 of them. -/
theorem directory_output_records (providers : List StoredProvider) (sourceFilter : JsString) :
    (∀ p, p ∈ cleanedProviders providers sourceFilter ↔
        p ∈ providers ∧ (p.status = .approved ∨ p.status = .validated) ∧
          (sourceFilter = "all".toList ∨ p.fields.source = some sourceFilter)) ∧
      List.Sublist (cleanedProviders providers sourceFilter) providers ∧
      (∀ p ∈ cleanedProviders providers sourceFilter,
        p.status ≠ .flagged ∧ p.status ≠ .rejected ∧ p.status ≠ .pending) ∧
      shownProviders providers sourceFilter =
        (cleanedProviders providers sourceFilter).take 20 ∧
      List.Sublist (shownProviders providers sourceFilter) providers ∧
      ((cleanedProviders providers sourceFilter).length ≤ 20 →
        shownProviders providers sourceFilter = cleanedProviders providers sourceFilter) := by
  have hmem : ∀ p, p ∈ cleanedProviders providers sourceFilter ↔
      p ∈ providers ∧ (p.status = .approved ∨ p.status = .validated) ∧
        (sourceFilter = "all".toList ∨ p.fields.source = some sourceFilter) := by
    intro p
    unfold cleanedProviders
    rw [List.mem_filter]
    by_cases hf : sourceFilter = "all".toList
    · simp [hf]
    · have hf' : ¬ sourceFilter = ['a', 'l', 'l'] := hf
      simp [hf']
  refine ⟨hmem, List.filter_sublist _, ?_, rfl, ?_, ?_⟩
  · intro p hp
    rcases ((hmem p).mp hp).2.1 with h | h <;> simp [h]
  · exact (List.take_sublist _ _).trans (List.filter_sublist _)
  · intro hle
    exact List.take_of_length_le hle

/-- C30: the deductions of the rule table add up to at most 90, so without an
enrichment adjustment (the call failed, gave no response, gave no adjustment
or gave 0) the returned score is 100 minus the deduction, untouched by the
clamp, and lies between 10 and 100. -/
theorem unadjusted_score_range (p : Provider) (properties : List (JsString × JsString)) :
    0 ≤ totalDeduction p ∧ totalDeduction p ≤ 90 ∧
      (validateProvider p .failed).confidence_score = 100 - totalDeduction p ∧
      (validateProvider p .noResponse).confidence_score = 100 - totalDeduction p ∧
      (validateProvider p
          (.response { properties := properties, confidence_adjustment := none })).confidence_score =
        100 - totalDeduction p ∧
      (validateProvider p
          (.response { properties := properties,
                       confidence_adjustment := some 0 })).confidence_score =
        100 - totalDeduction p ∧
      10 ≤ 100 - totalDeduction p ∧ 100 - totalDeduction p ≤ 100 := by
  have hD : 0 ≤ totalDeduction p ∧ totalDeduction p ≤ 90 := by
    unfold totalDeduction
    constructor <;> split_ifs <;> omega
  refine ⟨hD.1, hD.2, ?_, ?_, ?_, ?_, by omega, by omega⟩ <;>
    · rw [validateProvider_score]
      simp only [enrichmentAdjustment, Option.getD]
      omega

/-! ## The exported text -/

theorem splitOn_free (c : Char) (x : JsString) (h : c ∉ x) : splitOn c x = [x] := by
  induction x with
  | nil => rfl
  | cons a x ih =>
    have ha : a ≠ c := fun e => h (e ▸ List.mem_cons_self _ _)
    have hx : c ∉ x := fun m => h (List.mem_cons_of_mem _ m)
    simp [splitOn, ha, ih hx]

theorem splitOn_append (c : Char) (x rest : JsString) (h : c ∉ x) :
    splitOn c (x ++ c :: rest) = x :: splitOn c rest := by
  induction x with
  | nil => simp [splitOn]
  | cons a x ih =>
    have ha : a ≠ c := fun e => h (e ▸ List.mem_cons_self _ _)
    have hx : c ∉ x := fun m => h (List.mem_cons_of_mem _ m)
    simp [splitOn, ha, ih hx]

theorem splitOn_joinWith (c : Char) (xs : List JsString) (hne : xs ≠ [])
    (h : ∀ x ∈ xs, c ∉ x) : splitOn c (joinWith [c] xs) = xs := by
  induction xs with
  | nil => exact absurd rfl hne
  | cons x rest ih =>
    cases rest with
    | nil => exact splitOn_free c x (h x (List.mem_cons_self _ _))
    | cons y rest =>
      have hrest := ih (List.cons_ne_nil _ _) (fun z hz => h z (List.mem_cons_of_mem _ hz))
      simp only [joinWith, List.append_assoc, List.singleton_append]
      rw [splitOn_append c x _ (h x (List.mem_cons_self _ _)), hrest]

theorem not_mem_joinWith (c : Char) (sep : JsString) (xs : List JsString) (hsep : c ∉ sep)
    (h : ∀ x ∈ xs, c ∉ x) : c ∉ joinWith sep xs := by
  induction xs with
  | nil => simp [joinWith]
  | cons x rest ih =>
    cases rest with
    | nil => exact h x (List.mem_cons_self _ _)
    | cons y rest =>
      have hrest := ih (fun z hz => h z (List.mem_cons_of_mem _ hz))
      simp only [joinWith, List.mem_append, not_or]
      exact ⟨⟨h x (List.mem_cons_self _ _), hsep⟩, hrest⟩

theorem cellText_eq (cell : Option JsString) : cellText cell = '"' :: (cell.getD [] ++ ['"']) := by
  cases cell with
  | none => rfl
  | some v => cases v <;> rfl

theorem not_mem_rowText (cells : List (Option JsString))
    (h : ∀ cell ∈ cells, '\n' ∉ cell.getD []) : '\n' ∉ rowText cells := by
  unfold rowText
  refine not_mem_joinWith _ _ _ (by decide) ?_
  intro x hx
  obtain ⟨cell, hcell, rfl⟩ := List.mem_map.mp hx
  rw [cellText_eq]
  simp only [List.mem_cons, List.mem_append, List.mem_singleton, not_or]
  exact ⟨by decide, h cell hcell, ⟨by decide, List.not_mem_nil _⟩⟩

theorem digitChar_ne_newline : ∀ n < 10, Nat.digitChar n ≠ '\n' := by
  decide

theorem not_mem_toDigitsCore (fuel : Nat) :
    ∀ (n : Nat) (ds : List Char), '\n' ∉ ds → '\n' ∉ Nat.toDigitsCore 10 fuel n ds := by
  induction fuel with
  | zero => intro n ds h; simpa [Nat.toDigitsCore] using h
  | succ fuel ih =>
    intro n ds h
    have hcons : '\n' ∉ Nat.digitChar (n % 10) :: ds := by
      simp only [List.mem_cons, not_or]
      exact ⟨fun e => digitChar_ne_newline _ (Nat.mod_lt _ (by decide)) e.symm, h⟩
    simp only [Nat.toDigitsCore]
    split_ifs
    · exact hcons
    · exact ih _ _ hcons

theorem not_mem_numberText (n : Int) : '\n' ∉ numberText n := by
  have h : ∀ k, '\n' ∉ Nat.toDigits 10 k := fun k =>
    not_mem_toDigitsCore _ _ _ (List.not_mem_nil _)
  unfold numberText
  split_ifs
  · simp only [List.mem_cons, not_or]
    exact ⟨by decide, h _⟩
  · exact h _

theorem not_mem_toJs (f : FieldName) : '\n' ∉ f.toJs := by
  cases f <;> decide

theorem not_mem_directoryRow (p : StoredProvider)
    (h : ∀ cell ∈ fieldCells p.fields, '\n' ∉ cell.getD []) :
    '\n' ∉ rowText (directoryCells p) := by
  refine not_mem_rowText _ ?_
  intro cell hcell
  rcases List.mem_append.mp hcell with hc | hc
  · exact h cell hc
  · rw [List.mem_singleton.mp hc]
    unfold numberCell
    split_ifs
    · exact List.not_mem_nil _
    · exact not_mem_numberText _

theorem not_mem_cleanRow (p : CleanedProvider)
    (h : ∀ cell ∈ fieldCells p.toProvider, '\n' ∉ cell.getD []) :
    '\n' ∉ rowText (cleanCells p) := by
  refine not_mem_rowText _ ?_
  intro cell hcell
  rcases List.mem_append.mp hcell with hc | hc
  · exact h cell hc
  · rw [List.mem_singleton.mp hc]
    refine not_mem_joinWith _ _ _ (by decide) ?_
    intro x hx
    obtain ⟨f, _, rfl⟩ := List.mem_map.mp hx
    exact not_mem_toJs f

/-- Counterexample of C23: an approved record whose address has two lines is
exported as two lines, so the text of this one record has three lines; and a
score of 0 is written as the empty cell. -/
theorem export_lines_counterexample :
    splitOn '\n' (exportToCSV [twoLineRecord]) =
        ["NPI,Name,Specialty,Organization,Phone,Email,Website,Address,City,State,ZIP,License Number,Confidence Score".toList,
          "\"\",\"Ann Lee\",\"\",\"\",\"\",\"\",\"\",\"12 Oak Street".toList,
          "Suite 4\",\"\",\"\",\"\",\"\",\"55\"".toList] ∧
      (splitOn '\n' (exportToCSV [twoLineRecord])).length ≠ 1 + [twoLineRecord].length ∧
      cellText (numberCell 0) = "\"\"".toList ∧
      cellText (numberCell 55) = "\"55\"".toList := by
  decide

/-- C23 (amended): when no field value of the records contains a line break,
the exported text split at the line breaks is the header line followed by one
line per record, in order. Each record line is 13 cells joined by commas; a
cell is the text of the value between double quotes, empty for a missing
value; the cells are npi, name, specialty, organization, phone, email,
website, address, city, state, zip and license_number, followed by the
confidence_score in decimal when it is not 0 (directory export) or by the names
of the corrected fields joined by `; ` (reconciliation export). -/
theorem export_lines (records : List StoredProvider) (cleaned : List CleanedProvider)
    (hrecords : ∀ p ∈ records, ∀ cell ∈ fieldCells p.fields, '\n' ∉ cell.getD [])
    (hcleaned : ∀ p ∈ cleaned, ∀ cell ∈ fieldCells p.toProvider, '\n' ∉ cell.getD []) :
    splitOn '\n' (exportToCSV records) =
        joinWith ",".toList directoryHeaders ::
          records.map (fun p => joinWith ",".toList ((directoryCells p).map cellText)) ∧
      splitOn '\n' (exportCleanDirectory cleaned) =
        joinWith ",".toList cleanHeaders ::
          cleaned.map (fun p => joinWith ",".toList ((cleanCells p).map cellText)) ∧
      (∀ p : StoredProvider, (directoryCells p).length = 13 ∧
        (directoryCells p).take 12 =
          [p.fields.npi, p.fields.name, p.fields.specialty, p.fields.organization,
            p.fields.phone, p.fields.email, p.fields.website, p.fields.address, p.fields.city,
            p.fields.state, p.fields.zip, p.fields.license_number] ∧
        (p.confidence_score ≠ 0 →
          (directoryCells p).drop 12 = [some (numberText p.confidence_score)])) ∧
      (∀ p : CleanedProvider, (cleanCells p).length = 13 ∧
        (cleanCells p).take 12 =
          [p.npi, p.name, p.specialty, p.organization, p.phone, p.email, p.website, p.address,
            p.city, p.state, p.zip, p.license_number] ∧
        (cleanCells p).drop 12 =
          [some (joinWith "; ".toList (p.corrected_fields.map FieldName.toJs))]) ∧
      (∀ cell : Option JsString, cellText cell = '"' :: (cell.getD [] ++ ['"'])) := by
  refine ⟨?_, ?_, ?_, ?_, cellText_eq⟩
  · unfold exportToCSV
    have h := splitOn_joinWith '\n'
      (joinWith ",".toList directoryHeaders :: records.map (fun p => rowText (directoryCells p)))
      (List.cons_ne_nil _ _) (by
        intro x hx
        rcases List.mem_cons.mp hx with rfl | hx
        · decide
        · obtain ⟨p, hp, rfl⟩ := List.mem_map.mp hx
          exact not_mem_directoryRow p (hrecords p hp))
    exact h
  · unfold exportCleanDirectory
    have h := splitOn_joinWith '\n'
      (joinWith ",".toList cleanHeaders :: cleaned.map (fun p => rowText (cleanCells p)))
      (List.cons_ne_nil _ _) (by
        intro x hx
        rcases List.mem_cons.mp hx with rfl | hx
        · decide
        · obtain ⟨p, hp, rfl⟩ := List.mem_map.mp hx
          exact not_mem_cleanRow p (hcleaned p hp))
    exact h
  · intro p
    refine ⟨rfl, rfl, ?_⟩
    intro h
    simp [directoryCells, fieldCells, numberCell, h]
  · intro p
    exact ⟨rfl, rfl, rfl⟩

/-- Witness of C23: the directory export of a validated record and the
reconciliation export of the cleaned record of the scenario. -/
theorem export_lines_witness :
    splitOn '\n' (exportToCSV [validatedRecord 1]) =
        ["NPI,Name,Specialty,Organization,Phone,Email,Website,Address,City,State,ZIP,License Number,Confidence Score".toList,
          "\"\",\"Ann Lee\",\"\",\"\",\"555-123-4567\",\"\",\"\",\"12 Oak Street\",\"Springfield\",\"IL\",\"12345\",\"\",\"100\"".toList] ∧
      splitOn '\n' (exportCleanDirectory
          [(checkGroup toLowerCaseAscii scenarioWeb [scenarioMobile, scenarioPrint]).cleanedProvider]) =
        ["NPI,Name,Specialty,Organization,Phone,Email,Website,Address,City,State,ZIP,License Number,Corrected Fields".toList,
          "\"1234567890\",\"\",\"\",\"\",\"555-111-2222\",\"a@longmail.com\",\"\",\"\",\"\",\"\",\"\",\"\",\"phone; email\"".toList] :=
  have h := export_lines [validatedRecord 1]
    [(checkGroup toLowerCaseAscii scenarioWeb [scenarioMobile, scenarioPrint]).cleanedProvider]
    (by decide) (by decide)
  ⟨h.1.trans (by decide), h.2.1.trans (by decide)⟩

/-! ## Where a corrected value comes from -/

theorem resolveFieldValue_isSome (f : FieldName) (ps : List Provider)
    (h : sourceValues f ps ≠ []) : ∃ v, resolveFieldValue f ps = some v := by
  unfold resolveFieldValue
  simp only
  split
  · rename_i h0
    exact absurd (List.length_eq_zero.mp h0) h
  · split
    · cases hv : sourceValues f ps with
      | nil => exact absurd hv h
      | cons v vs => exact ⟨v, rfl⟩
    · split
      · rename_i hw
        simp only [Bool.and_eq_true, decide_eq_true_eq] at hw
        obtain ⟨w, hweb, _⟩ := (truthy_iff _).mp hw.1
        exact ⟨w, hweb⟩
      · split
        · rename_i majority _
          exact ⟨majority.1, rfl⟩
        · obtain ⟨r, hr, _⟩ := head?_sortByLength (sourceValues f ps) h
          exact ⟨r, hr⟩

theorem resolveFieldValue_eq_none_iff (f : FieldName) (ps : List Provider) :
    resolveFieldValue f ps = none ↔ sourceValues f ps = [] := by
  constructor
  · intro hnone
    by_contra hne
    obtain ⟨v, hv⟩ := resolveFieldValue_isSome f ps hne
    rw [hv] at hnone
    cases hnone
  · intro h
    unfold resolveFieldValue
    simp [h]

theorem mem_sourceValues (f : FieldName) (ps : List Provider) (v : JsString) :
    v ∈ sourceValues f ps ↔
      v ≠ [] ∧ ∃ src ∈ [web, mobile, print], sourceValue src f ps = some v := by
  unfold sourceValues
  rw [List.mem_filterMap]
  constructor
  · rintro ⟨x, hx, hv⟩
    split at hv
    · rename_i ht
      subst hv
      refine ⟨(truthy_some_iff v).mp ht, ?_⟩
      simp only [List.mem_cons, List.mem_singleton, List.not_mem_nil, or_false] at hx
      rcases hx with hx | hx | hx
      · exact ⟨web, by simp, hx.symm⟩
      · exact ⟨mobile, by simp, hx.symm⟩
      · exact ⟨print, by simp, hx.symm⟩
    · cases hv
  · rintro ⟨hne, src, hsrc, hv⟩
    refine ⟨some v, ?_, by rw [if_pos ((truthy_some_iff v).mpr hne)]⟩
    simp only [List.mem_cons, List.mem_singleton, List.not_mem_nil, or_false] at hsrc ⊢
    rcases hsrc with rfl | rfl | rfl
    · exact Or.inl hv.symm
    · exact Or.inr (Or.inl hv.symm)
    · exact Or.inr (Or.inr hv.symm)

theorem sourceValue_member (src : JsString) (f : FieldName) (ps : List Provider) (v : JsString)
    (h : sourceValue src f ps = some v) :
    ∃ p ∈ ps, p.source = some src ∧ (p.get f).map trim = some v := by
  unfold sourceValue at h
  cases hfind : ps.find? (fun p => decide (p.source = some src)) with
  | none => simp [hfind] at h
  | some p =>
    rw [hfind] at h
    have hsrc := List.find?_some hfind
    simp only [decide_eq_true_eq] at hsrc
    exact ⟨p, List.mem_of_find?_eq_some hfind, hsrc, h⟩

theorem mem_memberValues (f : FieldName) (ps : List Provider) (p : Provider) (v : JsString)
    (hp : p ∈ ps) (hv : (p.get f).map trim = some v) (hne : v ≠ []) : v ∈ memberValues f ps := by
  unfold memberValues
  rw [List.mem_filterMap]
  refine ⟨p, hp, ?_⟩
  cases hg : p.get f with
  | none => simp [hg] at hv
  | some x =>
    simp only [hg, Option.map_some', Option.some.injEq] at hv
    simp only [hv, if_neg hne]

/-- Counterexample of C24: in a group of two web and two mobile records whose
first web and first mobile record have an empty phone, two members carry
phone numbers and they differ, so the phone is reported; the recorded
corrected value is null. -/
theorem corrected_value_counterexample :
    spansTwoSources [webBlank, webPhone, mobileBlank, mobilePhone] = true ∧
      memberValues .phone [webBlank, webPhone, mobileBlank, mobilePhone] =
        ["555-111-2222".toList, "555-999-9999".toList] ∧
      sourceValues .phone [webBlank, webPhone, mobileBlank, mobilePhone] = [] ∧
      (checkGroup toLowerCaseAscii webBlank
          [webPhone, mobileBlank, mobilePhone]).inconsistentFields.map
          (fun inc => (inc.field, inc.correctedValue)) = [(.phone, none)] := by
  decide

/-- C24 (amended): for a field reported as inconsistent, the corrected value is
null exactly when none of the first web, the first mobile and the first print
record of the group has a non-empty trimmed value of the field; otherwise it is
not empty, it is the trimmed value of the field in the first record of one of
these three sources, and so the trimmed value of a member of the group. -/
theorem corrected_value_source (toLowerCase : JsString → JsString) (base : Provider)
    (others : List Provider) (inc : InconsistentField)
    (hinc : inc ∈ (checkGroup toLowerCase base others).inconsistentFields) :
    (inc.correctedValue = none ↔
        ∀ src ∈ [web, mobile, print],
          truthy (sourceValue src inc.field (base :: others)) = false) ∧
      ∀ v, inc.correctedValue = some v →
        v ≠ [] ∧
          (∃ src ∈ [web, mobile, print], sourceValue src inc.field (base :: others) = some v) ∧
          (∃ p ∈ base :: others, (p.get inc.field).map trim = some v) ∧
          v ∈ memberValues inc.field (base :: others) := by
  have hcv := ((mem_inconsistentFields toLowerCase base others inc).mp hinc).2.2.2
  rw [hcv]
  constructor
  · rw [resolveFieldValue_eq_none_iff]
    constructor
    · intro hnil src hsrc
      by_contra ht
      obtain ⟨k, hk, hne⟩ := (truthy_iff _).mp (by simpa using ht)
      have hmem : k ∈ sourceValues inc.field (base :: others) :=
        (mem_sourceValues _ _ _).mpr ⟨hne, src, hsrc, hk⟩
      rw [hnil] at hmem
      cases hmem
    · intro hall
      apply List.eq_nil_iff_forall_not_mem.mpr
      intro v hv
      obtain ⟨hne, src, hsrc, hsv⟩ := (mem_sourceValues _ _ _).mp hv
      have ht := hall src hsrc
      rw [hsv, (truthy_some_iff v).mpr hne] at ht
      cases ht
  · intro v hv
    obtain ⟨hne, src, hsrc, hsv⟩ :=
      (mem_sourceValues _ _ _).mp (resolveFieldValue_mem _ _ _ hv)
    obtain ⟨p, hp, _, hget⟩ := sourceValue_member _ _ _ _ hsv
    exact ⟨hne, ⟨src, hsrc, hsv⟩, ⟨p, hp, hget⟩, mem_memberValues _ _ p v hp hget hne⟩

/-- Witness of C24: the phone of the reconciliation scenario is reported with
the corrected value of the web record. -/
theorem corrected_value_source_witness :
    ∃ inc ∈ (checkGroup toLowerCaseAscii scenarioWeb [scenarioMobile, scenarioPrint]).inconsistentFields,
      inc.field = .phone ∧ inc.correctedValue = some "555-111-2222".toList ∧
        "555-111-2222".toList ∈ memberValues .phone [scenarioWeb, scenarioMobile, scenarioPrint] :=
  ⟨{ field := .phone,
     values := [scenarioWeb, scenarioMobile, scenarioPrint].map (fun p =>
       { source := p.source, value := jsOr (p.get .phone) (some emptyMarker) }),
     correctedValue := some "555-111-2222".toList },
    by decide, rfl, rfl,
    ((corrected_value_source toLowerCaseAscii scenarioWeb [scenarioMobile, scenarioPrint]
      { field := .phone,
        values := [scenarioWeb, scenarioMobile, scenarioPrint].map (fun p =>
          { source := p.source, value := jsOr (p.get .phone) (some emptyMarker) }),
        correctedValue := some "555-111-2222".toList }
      (by decide)).2 _ rfl).2.2.2⟩

/-! ## The counts of the reconciliation result -/

theorem hasConflict_iff (toLowerCase : JsString → JsString) (g : List Provider) :
    hasConflict toLowerCase g = true ↔
      ∃ f ∈ fieldsToCompare, ∃ v ∈ memberValues f g, ∃ w ∈ memberValues f g,
        toLowerCase v ≠ toLowerCase w := by
  unfold hasConflict
  simp only [List.any_eq_true, decide_eq_true_eq]

theorem hasConflict_cons (toLowerCase : JsString → JsString) (base : Provider)
    (others : List Provider) :
    hasConflict toLowerCase (base :: others) = true ↔
      0 < (checkGroup toLowerCase base others).inconsistentFields.length := by
  rw [hasConflict_iff, List.length_pos_iff_exists_mem]
  constructor
  · rintro ⟨f, hf, hconf⟩
    refine ⟨{ field := f,
              values := (base :: others).map (fun p =>
                { source := p.source, value := jsOr (p.get f) (some emptyMarker) }),
              correctedValue := resolveFieldValue f (base :: others) }, ?_⟩
    rw [mem_inconsistentFields]
    exact ⟨hf, (conflict_iff toLowerCase f _).mpr hconf, rfl, rfl⟩
  · rintro ⟨inc, hinc⟩
    obtain ⟨hf, hlt, _⟩ := (mem_inconsistentFields toLowerCase base others inc).mp hinc
    exact ⟨inc.field, hf, (conflict_iff toLowerCase inc.field _).mp hlt⟩

theorem isSome_inconsistencyOf (toLowerCase : JsString → JsString) (g : List Provider) :
    (inconsistencyOf toLowerCase g).isSome = hasConflict toLowerCase g := by
  cases g with
  | nil => rfl
  | cons base others =>
    rw [Bool.eq_iff_iff, hasConflict_cons]
    unfold inconsistencyOf
    split <;> simp_all

theorem length_filterMap_isSome {α β : Type} (f : α → Option β) (l : List α) :
    (l.filterMap f).length = (l.filter (fun a => (f a).isSome)).length := by
  induction l with
  | nil => rfl
  | cons a l ih =>
    cases h : f a <;> simp [List.filterMap_cons, List.filter_cons, h, ih]

theorem length_filter_add_not {α : Type} (p : α → Bool) (l : List α) :
    (l.filter p).length + (l.filter (fun a => !p a)).length = l.length := by
  induction l with
  | nil => rfl
  | cons a l ih =>
    cases h : p a <;> simp [List.filter_cons, h] <;> omega

theorem checkLoop_spec (toLowerCase : JsString → JsString) (ms : List MultiSourceProvider) :
    ∀ st : CheckState, (∀ m ∈ ms, m.providers ≠ []) →
      ∃ st', checkLoop toLowerCase ms st = some st' ∧
        st'.inconsistencies =
          st.inconsistencies ++ ms.filterMap (fun m => inconsistencyOf toLowerCase m.providers) ∧
        st'.cleanedProviders.map some =
          st.cleanedProviders.map some ++ ms.map (fun m => cleanedOf toLowerCase m.providers) := by
  induction ms with
  | nil =>
    intro st _
    exact ⟨st, rfl, by simp, by simp⟩
  | cons m ms ih =>
    intro st hne
    cases hp : m.providers with
    | nil => exact absurd hp (hne m (List.mem_cons_self _ _))
    | cons base others =>
      simp only [checkLoop, hp]
      obtain ⟨st', hst', hinc, hcl⟩ := ih
        { inconsistencies :=
            if 0 < (checkGroup toLowerCase base others).inconsistentFields.length then
              st.inconsistencies ++
                [{ providerName := base.name,
                   npi := base.npi,
                   sources := (base :: others).map (fun p => p.source),
                   inconsistentFields := (checkGroup toLowerCase base others).inconsistentFields,
                   cleanedProvider := (checkGroup toLowerCase base others).cleanedProvider }]
            else st.inconsistencies,
          cleanedProviders :=
            st.cleanedProviders ++ [(checkGroup toLowerCase base others).cleanedProvider] }
        (fun m' hm' => hne m' (List.mem_cons_of_mem _ hm'))
      refine ⟨st', hst', ?_, ?_⟩
      · rw [hinc]
        simp only [List.filterMap_cons, hp, inconsistencyOf]
        split <;> simp
      · rw [hcl]
        simp [cleanedOf, hp]

/-- C29: whenever the grouping yields groups, the check returns a result in
which `inconsistentCount` is the number of eligible groups with a conflict
(a comparison field with two non-empty trimmed member values that differ after
lowercasing, which is when the group has an inconsistent field),
`consistentCount` is the number of eligible groups without one, the two add
up to `totalChecked`, the number of eligible groups, `inconsistencies` holds
the entries of the groups with a conflict in order, and `cleanedProviders`
holds the cleaned record of every eligible group in order. -/
theorem check_results_counts (toLowerCase : JsString → JsString) (ps : List Provider)
    (groups : List (JsString × List Provider))
    (h : groupedProviders toLowerCase ps = some groups) :
    ∃ res, runConsistencyCheck toLowerCase ps = some res ∧
      res.inconsistentCount =
        ((eligibleGroups groups).filter (fun e => hasConflict toLowerCase e.2)).length ∧
      res.consistentCount =
        ((eligibleGroups groups).filter (fun e => !hasConflict toLowerCase e.2)).length ∧
      (res.inconsistentCount : Int) + res.consistentCount = res.totalChecked ∧
      res.totalChecked = (eligibleGroups groups).length ∧
      res.inconsistencies =
        (eligibleGroups groups).filterMap (fun e => inconsistencyOf toLowerCase e.2) ∧
      res.inconsistencies.length = res.inconsistentCount ∧
      res.cleanedProviders.map some =
        (eligibleGroups groups).map (fun e => cleanedOf toLowerCase e.2) ∧
      res.cleanedProviders.length = res.totalChecked ∧
      (∀ e ∈ eligibleGroups groups,
        ((inconsistencyOf toLowerCase e.2).isSome = hasConflict toLowerCase e.2) ∧
          (cleanedOf toLowerCase e.2).isSome = true ∧
          (hasConflict toLowerCase e.2 = true ↔
            ∃ base others, e.2 = base :: others ∧
              0 < (checkGroup toLowerCase base others).inconsistentFields.length)) := by
  have hok := groupedProviders_ok toLowerCase ps groups h
  have hprov := multiSourceOf_map_providers groups
  have hne : ∀ m ∈ multiSourceOf groups, m.providers ≠ [] := by
    intro m hm
    have hm' : m.providers ∈ (multiSourceOf groups).map (fun m => m.providers) :=
      List.mem_map.mpr ⟨m, hm, rfl⟩
    rw [hprov, List.mem_map] at hm'
    obtain ⟨e, he, heq⟩ := hm'
    unfold eligibleGroups at he
    rw [List.mem_filter, mem_objectEntries] at he
    rw [← heq]
    exact (hok e he.1).1
  obtain ⟨st', hst', hinc, hcl⟩ := checkLoop_spec toLowerCase (multiSourceOf groups) {} hne
  have hrun : runConsistencyCheck toLowerCase ps = some
      { totalChecked := (multiSourceOf groups).length,
        inconsistentCount := st'.inconsistencies.length,
        consistentCount := ((multiSourceOf groups).length : Int) - (st'.inconsistencies.length : Int),
        inconsistencies := st'.inconsistencies,
        cleanedProviders := st'.cleanedProviders } := by
    simp only [runConsistencyCheck, multiSourceProviders, h, Option.map_some', hst']
  have htotal : (multiSourceOf groups).length = (eligibleGroups groups).length := by
    rw [← List.length_map (multiSourceOf groups) (fun m => m.providers), hprov, List.length_map]
  have hincs : st'.inconsistencies =
      (eligibleGroups groups).filterMap (fun e => inconsistencyOf toLowerCase e.2) := by
    rw [hinc]
    have : (multiSourceOf groups).filterMap (fun m => inconsistencyOf toLowerCase m.providers) =
        ((multiSourceOf groups).map (fun m => m.providers)).filterMap
          (inconsistencyOf toLowerCase) := by
      rw [List.filterMap_map]
      rfl
    simp only [List.nil_append]
    rw [this, hprov, List.filterMap_map]
    rfl
  have hcount : st'.inconsistencies.length =
      ((eligibleGroups groups).filter (fun e => hasConflict toLowerCase e.2)).length := by
    rw [hincs, length_filterMap_isSome]
    congr 1
    apply List.filter_congr
    intro e _
    exact isSome_inconsistencyOf toLowerCase e.2
  have hsum := length_filter_add_not (fun e : JsString × List Provider => hasConflict toLowerCase e.2)
    (eligibleGroups groups)
  have hcleaned : st'.cleanedProviders.map some =
      (eligibleGroups groups).map (fun e => cleanedOf toLowerCase e.2) := by
    rw [hcl]
    have : (multiSourceOf groups).map (fun m => cleanedOf toLowerCase m.providers) =
        ((multiSourceOf groups).map (fun m => m.providers)).map (cleanedOf toLowerCase) := by
      rw [List.map_map]
      rfl
    rw [this, hprov, List.map_map]
    rfl
  refine ⟨_, hrun, hcount, ?_, ?_, htotal, hincs, rfl, hcleaned, ?_, ?_⟩
  · simp only
    rw [htotal, hcount]
    omega
  · simp only
    omega
  · simp only
    rw [htotal, ← List.length_map st'.cleanedProviders some, hcleaned, List.length_map]
  · intro e he
    unfold eligibleGroups at he
    rw [List.mem_filter, mem_objectEntries] at he
    have hnil := (hok e he.1).1
    refine ⟨isSome_inconsistencyOf toLowerCase e.2, ?_, ?_⟩
    · cases hg : e.2 with
      | nil => exact absurd hg hnil
      | cons base others => rfl
    · constructor
      · intro hc
        cases hg : e.2 with
        | nil => exact absurd hg hnil
        | cons base others =>
          rw [hg] at hc
          exact ⟨base, others, rfl, (hasConflict_cons toLowerCase base others).mp hc⟩
      · rintro ⟨base, others, hg, hpos⟩
        rw [hg]
        exact (hasConflict_cons toLowerCase base others).mpr hpos

/-- Witness of C29: the three records of the reconciliation scenario and the
web and mobile records of a second provider, which agree. -/
theorem check_results_counts_witness :
    ∃ res, runConsistencyCheck toLowerCaseAscii
        [scenarioWeb, annWeb, scenarioMobile, annMobile, scenarioPrint] = some res ∧
      res.inconsistentCount = 1 ∧ res.consistentCount = 1 ∧ res.totalChecked = 2 ∧
      res.inconsistencies.map (fun i => i.npi) = [some "1234567890".toList] ∧
      res.cleanedProviders.length = 2 :=
  (check_results_counts toLowerCaseAscii
    [scenarioWeb, annWeb, scenarioMobile, annMobile, scenarioPrint]
    [("1234567890".toList, [scenarioWeb, scenarioMobile, scenarioPrint]),
      ("annlee".toList, [annWeb, annMobile])] (by decide)).imp fun res hres =>
    ⟨hres.1, hres.2.1.trans (by decide), hres.2.2.1.trans (by decide),
      hres.2.2.2.2.1.trans (by decide),
      (congrArg (List.map (fun i => i.npi)) hres.2.2.2.2.2.1).trans (by decide),
      hres.2.2.2.2.2.2.2.2.1.trans (hres.2.2.2.2.1.trans (by decide))⟩

end VeriData
